import Mathlib

/-!
# Verification of the pixijs-sdf-particles compute core

Shallow embedding of the GPU compute engine of this repository
(`src/utils/GPUComputeVariable.ts`), of the JFA distance-field driver
(`src/core/sdf/generateSDFTex.ts`) and of the particle simulation shader
(`src/core/particles/shaders/simulation`), together with proofs of the
specification's claims about them.

Textures are modelled as identifiers allocated from a per-world counter
(`World.texDims` also records each texture's dimensions); texture *contents*
are not tracked, since every claim under verification is about pass
structure, buffer identity, lifecycle and error behaviour, not pixel data.
GPU render passes are recorded in an ordered log (`World.passLog`) with a
snapshot of the scalar uniforms at the moment of the pass.
-/

set_option linter.unusedVariables false

namespace PixiSDF

/-- A scalar or vec2 uniform value (the compute passes of this repository
only use `f32` and `vec2<f32>` uniforms). -/
inductive UniVal
  | num (q : ℚ)
  | vec2 (a b : ℚ)
  deriving DecidableEq, Repr

/-- One recorded render pass: which variable issued it, which texture id was
the render target, whether it was a `copyTexture` helper pass (`clear:false`)
rather than a compute pass (`clear:true`), and the issuing variable's uniform
values at that moment. -/
structure PassEv where
  varId : Nat
  target : Nat
  isCopy : Bool
  uniforms : List (String × UniVal)
  deriving DecidableEq, Repr

/-- The mutable fields of one `GPUComputeVariable` object
(src/utils/GPUComputeVariable.ts, fields at lines 165-219).
`ping`/`pong` are texture ids (`none` = the TS field is still undefined);
`dependencies`/`dependents` hold variable ids; `dependents` has set
semantics (insertion is skipped when already present).  `initCount`
counts completed `createShader` runs (used to observe re-initialization). -/
structure VarState where
  name : String
  width : Nat
  height : Nat
  uniforms : List (String × UniVal)
  samplers : List (String × Nat)
  ping : Option Nat
  pong : Option Nat
  currentIndex : Nat
  dependencies : List Nat
  dependents : List Nat
  initialized : Bool
  destroyed : Bool
  texturesDestroyed : Bool
  needsPingPong : Bool
  externalPingTexture : Bool
  initCount : Nat
  deriving DecidableEq, Repr

/-- The world: all live variable objects (by id), the texture allocator
(ids `0 .. texDims.length - 1` are allocated, each with its dimensions),
the list of texture ids on which `.destroy(true)` has been called, and the
ordered render-pass log. -/
structure World where
  vars : Nat → Option VarState
  varsCount : Nat
  texDims : List (Nat × Nat)
  freed : List Nat
  passLog : List PassEv

/-- The empty world. -/
def emptyWorld : World :=
  { vars := fun _ => none, varsCount := 0, texDims := [], freed := [], passLog := [] }

def World.setVar (w : World) (i : Nat) (v : VarState) : World :=
  { w with vars := Function.update w.vars i (some v) }

/-- `RenderTexture.create` (GPUComputeVariable.createTexture, lines 528-537):
allocates a fresh texture id with the variable's dimensions. -/
def World.createTexture (w : World) (tw th : Nat) : World × Nat :=
  ({ w with texDims := w.texDims ++ [(tw, th)] }, w.texDims.length)

/-- Record the render issued by `copyTexture` (lines 690-727): a fullscreen
pass with `clear:false` into `target`. -/
def World.logCopy (w : World) (i target : Nat) : World :=
  { w with passLog := w.passLog ++ [PassEv.mk i target true []] }

/-- `ensureTextures` (lines 563-574): create the ping texture if unset;
create the pong texture if unset (a separate texture only when
`needsPingPong`, otherwise aliased to ping). -/
def ensureTextures (w : World) (i : Nat) : World :=
  match w.vars i with
  | none => w
  | some v =>
    let pw :=
      match v.ping with
      | some _ => (w, v)
      | none =>
        let ct := w.createTexture v.width v.height
        (ct.1, { v with ping := some ct.2 })
    let qw :=
      match pw.2.pong with
      | some _ => pw
      | none =>
        if pw.2.needsPingPong then
          let ct := pw.1.createTexture pw.2.width pw.2.height
          (ct.1, { pw.2 with pong := some ct.2 })
        else
          (pw.1, { pw.2 with pong := pw.2.ping })
    qw.1.setVar i qw.2

/-- The error-message template shared by every throw of the class:
`GPUComputeVariable "${this.name}": <rest>`. -/
def varErr (name rest : String) : String :=
  "GPUComputeVariable \"" ++ (name ++ ("\": " ++ rest))

/-- Error message of fillTexture's length check (lines 262-266). -/
def errFillLen (name : String) (len expected : Nat) : String :=
  varErr name ("Data length (" ++ toString len ++
    ") does not match expected size (" ++ toString expected ++ ")")

/-- Error message of the fill-after-init checks (lines 268-270, 291-293). -/
def errFillAfterInit (name : String) : String :=
  varErr name "Cannot fill texture after init()."

/-- Error message of setInitialTexture's init check (lines 315-317). -/
def errSetInitAfterInit (name : String) : String :=
  varErr name "Cannot set initial texture after init()."

/-- Error message of setInitialTexture's dimension check (lines 319-324). -/
def errSetInitDims (name : String) (tw th vw vh : Nat) : String :=
  varErr name ("Initial texture dimensions (" ++ toString tw ++ "x" ++ toString th ++
    ") do not match variable dimensions (" ++ toString vw ++ "x" ++ toString vh ++ ")")

/-- Error message of init's re-initialization check (lines 358-360). -/
def errAlreadyInit (name : String) : String :=
  varErr name "Already initialized."

/-- `fillTexture(data)` (lines 261-283).  Only the length of the supplied
`Float32Array` is relevant to the embedding (texture contents are not
tracked); the `needsPingPong` copy into pong is recorded in the pass log. -/
def fillTexture (w : World) (i : Nat) (dataLen : Nat) : Except String World :=
  match w.vars i with
  | none => .ok w
  | some v =>
    if dataLen ≠ v.width * v.height * 4 then
      .error (errFillLen v.name dataLen (v.width * v.height * 4))
    else if v.initialized then
      .error (errFillAfterInit v.name)
    else
      let w1 := ensureTextures w i
      match w1.vars i with
      | none => .ok w1
      | some v1 =>
        if v1.needsPingPong then .ok (w1.logCopy i (v1.pong.getD 0)) else .ok w1

/-- `fillTextureFrom(source)` (lines 290-305): copy the source into ping,
then (when ping-pong is needed) ping into pong. -/
def fillTextureFrom (w : World) (i src : Nat) : Except String World :=
  match w.vars i with
  | none => .ok w
  | some v =>
    if v.initialized then
      .error (errFillAfterInit v.name)
    else
      let w1 := ensureTextures w i
      match w1.vars i with
      | none => .ok w1
      | some v1 =>
        let w2 := w1.logCopy i (v1.ping.getD 0)
        if v1.needsPingPong then .ok (w2.logCopy i (v1.pong.getD 0)) else .ok w2

/-- `setInitialTexture(texture)` (lines 314-331): init check, dimension
check, then adopt the texture as ping and mark it externally owned. -/
def setInitialTexture (w : World) (i t : Nat) : Except String World :=
  match w.vars i with
  | none => .ok w
  | some v =>
    if v.initialized then
      .error (errSetInitAfterInit v.name)
    else
      let dims := w.texDims.getD t (0, 0)
      if dims.1 ≠ v.width ∨ dims.2 ≠ v.height then
        .error (errSetInitDims v.name dims.1 dims.2 v.width v.height)
      else
        .ok (w.setVar i { v with ping := some t, externalPingTexture := true })

/-- `dep.dependents.delete(this)` on variable `dep`. -/
def removeDependent (w : World) (dep self : Nat) : World :=
  match w.vars dep with
  | none => w
  | some v => w.setVar dep { v with dependents := v.dependents.filter (· ≠ self) }

/-- `dep.dependents.add(this)` on variable `dep` (set semantics). -/
def addDependent (w : World) (dep self : Nat) : World :=
  match w.vars dep with
  | none => w
  | some v =>
    w.setVar dep
      { v with dependents :=
          if v.dependents.contains self then v.dependents else v.dependents ++ [self] }

/-- `setDependencies(dependencies)` (lines 338-351): remove self from the
old dependencies' dependents, install the new list, add self to the new
dependencies' dependents. -/
def setDependencies (w : World) (i : Nat) (deps : List Nat) : World :=
  match w.vars i with
  | none => w
  | some v =>
    let w1 := v.dependencies.foldl (fun acc d => removeDependent acc d i) w
    match w1.vars i with
    | none => w1
    | some v1 =>
      let w2 := w1.setVar i { v1 with dependencies := deps }
      deps.foldl (fun acc d => addDependent acc d i) w2

/-- The body of `init()` after its already-initialized check (lines 362-369):
determine ping-pong need from a self-dependency, ensure textures, compile
the shader (observed as an `initCount` increment), set the flag. -/
def initUnchecked (w : World) (i : Nat) : World :=
  match w.vars i with
  | none => w
  | some v =>
    let w1 := w.setVar i { v with needsPingPong := v.dependencies.contains i }
    let w2 := ensureTextures w1 i
    match w2.vars i with
    | none => w2
    | some v2 => w2.setVar i { v2 with initialized := true, initCount := v2.initCount + 1 }

/-- `init()` (lines 357-370). -/
def initVar (w : World) (i : Nat) : Except String World :=
  match w.vars i with
  | none => .ok w
  | some v =>
    if v.initialized then .error (errAlreadyInit v.name) else .ok (initUnchecked w i)

/-- `compute()` (lines 376-424): auto-init when needed, rebind dependency /
sampler sources and push uniform values (mutations of the GPU shader object,
not of this state), render into the non-current buffer
(`currentIndex === 0 ? pongTexture : pingTexture`), flip the index. -/
def computeStep (w : World) (i : Nat) : World :=
  match w.vars i with
  | none => w
  | some v =>
    let w1 := if v.initialized then w else initUnchecked w i
    match w1.vars i with
    | none => w1
    | some v1 =>
      let target := (if v1.currentIndex = 0 then v1.pong else v1.ping).getD 0
      let w2 := { w1 with passLog := w1.passLog ++ [PassEv.mk i target false v1.uniforms] }
      w2.setVar i { v1 with currentIndex := 1 - v1.currentIndex }

/-- `getCurrentTexture()` (lines 429-431). -/
def getCurrentTexture (w : World) (i : Nat) : Option Nat :=
  match w.vars i with
  | none => none
  | some v => if v.currentIndex = 0 then v.ping else v.pong

/-- `getAlternateTexture()` (lines 436-438). -/
def getAlternateTexture (w : World) (i : Nat) : Option Nat :=
  match w.vars i with
  | none => none
  | some v => if v.currentIndex = 0 then v.pong else v.ping

/-- `destroyTextures()` (lines 543-558): once only; when ping-ponging,
destroy the alternate (non-current) buffer unless it is the externally
owned ping texture; always set the flag.  (On a variable whose textures
were never allocated the TS code would dereference `undefined`; the
embedding frees nothing in that unreachable corner.) -/
def destroyTexturesStep (w : World) (i : Nat) : World :=
  match w.vars i with
  | none => w
  | some v =>
    if v.texturesDestroyed then w
    else
      let newlyFreed :=
        if v.needsPingPong then
          let alt := if v.currentIndex = 0 then v.pong else v.ping
          if alt = v.ping ∧ v.externalPingTexture then [] else alt.toList
        else []
      { w with freed := w.freed ++ newlyFreed,
               vars := Function.update w.vars i (some { v with texturesDestroyed := true }) }

/-- The dependency-loop body of `destroy()` (lines 507-514): remove `self`
from the dependency's dependents; if that dependency is destroyed with no
remaining dependents and its textures still alive, release its textures. -/
def destroyDepVisit (self : Nat) (acc : World) (dep : Nat) : World :=
  let acc1 := removeDependent acc dep self
  match acc1.vars dep with
  | none => acc1
  | some dv =>
    if dv.destroyed && !dv.texturesDestroyed && dv.dependents.isEmpty then
      destroyTexturesStep acc1 dep
    else acc1

/-- `destroy()` (lines 488-523): idempotent; mark destroyed; for each
dependency remove self from its dependents and cascade its texture release
when it is destroyed with no remaining dependents; release own textures
when no dependents remain; clear the dependency list and the initialized
flag. -/
def destroyStep (w : World) (i : Nat) : World :=
  match w.vars i with
  | none => w
  | some v =>
    if v.destroyed then w
    else
      let w1 := w.setVar i { v with destroyed := true }
      let w2 := v.dependencies.foldl (destroyDepVisit i) w1
      let w3 :=
        match w2.vars i with
        | none => w2
        | some vi => if vi.dependents.isEmpty then destroyTexturesStep w2 i else w2
      match w3.vars i with
      | none => w3
      | some vi => w3.setVar i { vi with dependencies := [], initialized := false }

/-- `computeOnce()` (lines 445-449): init, compute, destroy.  A throw from
`init()` aborts the whole call before any mutation. -/
def computeOnceStep (w : World) (i : Nat) : Except String World :=
  match initVar w i with
  | .error e => .error e
  | .ok w1 => .ok (destroyStep (computeStep w1 i) i)

/-- Events of one `computeChain` invocation: `visit i` when `i` is added to
the visited set, `comp i` when `i.compute()` runs. -/
inductive TraceEv
  | visit (i : Nat)
  | comp (i : Nat)
  deriving DecidableEq, Repr

/-- Result of a `computeChain` run: final world, visited set, event trace,
and whether the run completed (`ok = false` only when the embedding's fuel
ran out, an artifact absent from the TS code; sufficient fuel is proved to
exist below). -/
structure ChainRes where
  w : World
  vis : List Nat
  tr : List TraceEv
  ok : Bool

/-- The dependency loop of `computeChain` (lines 466-472), skipping the
self-edge; `f` is the recursive call into `computeChain` of a dependency. -/
def chainDepsAux (f : World → Nat → List Nat → ChainRes) (self : Nat) :
    World → List Nat → List Nat → ChainRes
  | w, [], vis => ⟨w, vis, [], true⟩
  | w, d :: rest, vis =>
    if d = self then chainDepsAux f self w rest vis
    else
      let r1 := f w d vis
      if r1.ok then
        let r2 := chainDepsAux f self r1.w rest r1.vis
        ⟨r2.w, r2.vis, r1.tr ++ r2.tr, r2.ok⟩
      else ⟨r1.w, r1.vis, r1.tr, false⟩

/-- `computeChain(visited)` (lines 456-476): return if already visited; mark
visited first; recurse into every dependency except a self-edge; then
compute this variable. -/
def chainF : Nat → World → Nat → List Nat → ChainRes
  | 0, w, _, vis => ⟨w, vis, [], false⟩
  | fuel + 1, w, i, vis =>
    if vis.contains i then ⟨w, vis, [], true⟩
    else
      match w.vars i with
      | none => ⟨w, i :: vis, [TraceEv.visit i], true⟩
      | some v =>
        let r := chainDepsAux (fun w' d vis' => chainF fuel w' d vis') i w
          v.dependencies (i :: vis)
        if r.ok then
          ⟨computeStep r.w i, r.vis, TraceEv.visit i :: (r.tr ++ [TraceEv.comp i]), true⟩
        else ⟨r.w, r.vis, TraceEv.visit i :: r.tr, false⟩

/-- Assignment `variable.uniforms.key.value = val` (type-safe uniform access
through the `uniforms` record). -/
def setUniformVal (l : List (String × UniVal)) (key : String) (val : UniVal) :
    List (String × UniVal) :=
  l.map (fun p => if p.1 = key then (p.1, val) else p)

def setUniform (w : World) (i : Nat) (key : String) (val : UniVal) : World :=
  match w.vars i with
  | none => w
  | some v => w.setVar i { v with uniforms := setUniformVal v.uniforms key val }

/-- Construction options (GPUComputeVariableOptions, lines 53-83) relevant
to the embedding. -/
structure VarCfg where
  name : String
  width : Nat
  height : Nat
  uniforms : List (String × UniVal) := []
  samplers : List (String × Nat) := []
  initialTexture : Option Nat := none
  deriving Repr

/-- Field initialization performed by the constructor (lines 221-254)
before the optional `setInitialTexture` call. -/
def freshVar (cfg : VarCfg) : VarState :=
  { name := cfg.name, width := cfg.width, height := cfg.height,
    uniforms := cfg.uniforms, samplers := cfg.samplers,
    ping := none, pong := none, currentIndex := 0,
    dependencies := [], dependents := [],
    initialized := false, destroyed := false, texturesDestroyed := false,
    needsPingPong := true, externalPingTexture := false, initCount := 0 }

/-- `new GPUComputeVariable(options)`: allocate the object, then adopt the
optional `initialTexture` (which may throw; the object is then never
returned to the caller). -/
def mkVar (w : World) (cfg : VarCfg) : Except String World :=
  let i := w.varsCount
  let w1 := { w with vars := Function.update w.vars i (some (freshVar cfg)),
                     varsCount := i + 1 }
  match cfg.initialTexture with
  | none => .ok w1
  | some t => setInitialTexture w1 i t

/-- One public-interface call on the system: constructing a variable,
bringing an externally owned texture into existence, or any method of
`GPUComputeVariable`. -/
inductive Op
  | mkExternalTex (tw th : Nat)
  | newVar (cfg : VarCfg)
  | fill (i dataLen : Nat)
  | fillFrom (i src : Nat)
  | setInitialTex (i t : Nat)
  | setDeps (i : Nat) (deps : List Nat)
  | setUni (i : Nat) (key : String) (val : UniVal)
  | initOp (i : Nat)
  | computeOp (i : Nat)
  | computeOnceOp (i : Nat)
  | computeChainOp (i : Nat)
  | destroyOp (i : Nat)

/-- Effect of one call; `.error` models a thrown exception (every throw in
the TS class happens before any state mutation, so the world is unchanged
on error). -/
def stepE (w : World) : Op → Except String World
  | .mkExternalTex tw th => .ok { w with texDims := w.texDims ++ [(tw, th)] }
  | .newVar cfg => mkVar w cfg
  | .fill i len => fillTexture w i len
  | .fillFrom i src => fillTextureFrom w i src
  | .setInitialTex i t => setInitialTexture w i t
  | .setDeps i ds => .ok (setDependencies w i ds)
  | .setUni i k v => .ok (setUniform w i k v)
  | .initOp i => initVar w i
  | .computeOp i => .ok (computeStep w i)
  | .computeOnceOp i => computeOnceStep w i
  | .computeChainOp i => .ok (chainF (w.varsCount + 1) w i []).w
  | .destroyOp i => .ok (destroyStep w i)

/-- One call, with a thrown exception leaving the world unchanged. -/
def step (w : World) (op : Op) : World :=
  match stepE w op with
  | .ok w' => w'
  | .error _ => w

/-- A whole client session: a sequence of calls starting from nothing. -/
def runOps (ops : List Op) : World := ops.foldl step emptyWorld

/-- Substring containment, used below to state that every thrown error
message carries the offending variable's name. -/
def msgContains (msg sub : String) : Prop := ∃ p s, msg = p ++ (sub ++ s)

/-- The session refuting C3 as stated: a freshly constructed 1x1 variable
with an empty dependency list (hence no self-dependency) is seeded via
`fillTexture` before `init()`. -/
def w3c : World :=
  runOps [Op.newVar { name := "a", width := 1, height := 1 }, Op.fill 0 4]

/-- A freshly constructed variable (for the init part of the amended C3). -/
def w3f : World := runOps [Op.newVar { name := "b", width := 1, height := 1 }]

/-- The same variable after `init()` (for the preservation part). -/
def w3i : World := runOps [Op.newVar { name := "b", width := 1, height := 1 }, Op.initOp 0]

/-! ## C1 — ping-pong write discipline and alternation -/

/-- `n` successive `compute()` calls on variable `i`. -/
def computeN : Nat → World → Nat → World
  | 0, w, _ => w
  | n + 1, w, i => computeStep (computeN n w i) i

/-- A session exercising C1(b): a self-dependent 1x1 variable, not yet
initialized (both slots empty). -/
def w1b : World :=
  runOps [Op.newVar { name := "p", width := 1, height := 1 }, Op.setDeps 0 [0]]

/-- The state of that variable before `init()`. -/
def v1b : VarState :=
  { name := "p", width := 1, height := 1, uniforms := [], samplers := [],
    ping := none, pong := none, currentIndex := 0, dependencies := [0],
    dependents := [0], initialized := false, destroyed := false,
    texturesDestroyed := false, needsPingPong := true,
    externalPingTexture := false, initCount := 0 }

/-- The same session after `init()`: two distinct textures allocated. -/
def w1a : World :=
  runOps [Op.newVar { name := "p", width := 1, height := 1 }, Op.setDeps 0 [0],
          Op.initOp 0]

/-- The state of that variable after `init()`. -/
def v1a : VarState :=
  { name := "p", width := 1, height := 1, uniforms := [], samplers := [],
    ping := some 0, pong := some 1, currentIndex := 0, dependencies := [0],
    dependents := [0], initialized := true, destroyed := false,
    texturesDestroyed := false, needsPingPong := true,
    externalPingTexture := false, initCount := 1 }

/-- A teardown session: `b` depends on `a`; both initialized; `a` is
destroyed first (its release is blocked by the live dependent `b`), then
`b` — the last live dependent of the already-destroyed `a` — is
destroyed. -/
def w2c : World :=
  runOps [Op.newVar { name := "a", width := 1, height := 1 },
          Op.newVar { name := "b", width := 1, height := 1 },
          Op.setDeps 1 [0],
          Op.initOp 0, Op.initOp 1,
          Op.destroyOp 0, Op.destroyOp 1]

/-- The teardown session one step before the final destroy. -/
def w2pre : World :=
  runOps [Op.newVar { name := "a", width := 1, height := 1 },
          Op.newVar { name := "b", width := 1, height := 1 },
          Op.setDeps 1 [0],
          Op.initOp 0, Op.initOp 1,
          Op.destroyOp 0]

/-- A wider graph: `b` and `c` both depend on `a`; destroying `b` leaves
`a`'s textures alive because `c` still lists them. -/
def w2w : World :=
  runOps [Op.newVar { name := "a", width := 1, height := 1 },
          Op.newVar { name := "b", width := 1, height := 1 },
          Op.newVar { name := "c", width := 1, height := 1 },
          Op.setDeps 1 [0], Op.setDeps 2 [0],
          Op.initOp 0]

/-- A self-dependent (ping-pong) variable whose release frees exactly the
alternate buffer. -/
def w2pp : World :=
  runOps [Op.newVar { name := "p", width := 1, height := 1 },
          Op.setDeps 0 [0], Op.initOp 0]

/-- An isolated initialized variable (no dependencies, no dependents). -/
def w2e : World :=
  runOps [Op.newVar { name := "e", width := 1, height := 1 }, Op.initOp 0]

/-- The teardown session before any destroy: `b` (index 1) depends on the
live `a` (index 0), both initialized. -/
def w2m : World :=
  runOps [Op.newVar { name := "a", width := 1, height := 1 },
          Op.newVar { name := "b", width := 1, height := 1 },
          Op.setDeps 1 [0],
          Op.initOp 0, Op.initOp 1]

/-! ## C4 — generateSDFTex pass structure -/

/-- The `uTexelSize` value `[1/width, 1/height]` (part_001 line 292). -/
def texelUV (wd ht : Nat) : UniVal := UniVal.vec2 (1 / (wd : ℚ)) (1 / (ht : ℚ))

/-- The JFA propagation loop of `generateSDFTex` (part_001 lines 317-323):
for each step value, assign `uStepSize` and run one `compute()`. -/
def loopOps (steps : List ℚ) : List Op :=
  steps.flatMap (fun s => [Op.setUni 0 "uStepSize" (UniVal.num s), Op.computeOp 0])

/-- The jfa construction-and-seeding prefix of `generateSDFTex` (part_001
lines 281-315): the externally owned input texture, the jfa variable with
its three uniforms and `uTex` sampler, `fillTextureFrom`, the
self-dependency, the first (seed) `compute()` with `uFirst = 1`, then the
`uFirst = 0` assignment. -/
def sdfPre (wd ht : Nat) : List Op :=
  [Op.mkExternalTex wd ht,
   Op.newVar { name := "jfa"
               width := wd
               height := ht
               uniforms := [("uTexelSize", texelUV wd ht), ("uStepSize", UniVal.num 1),
                            ("uFirst", UniVal.num 1)]
               samplers := [("uTex", 0)] },
   Op.fillFrom 0 0,
   Op.setDeps 0 [0],
   Op.computeOp 0,
   Op.setUni 0 "uFirst" (UniVal.num 0)]

/-- The finalization variable's construction options (part_001
lines 328-340). -/
def finCfg (wd ht : Nat) : VarCfg :=
  { name := "jfaFinalize"
    width := wd
    height := ht
    uniforms := [("uTexelSize", texelUV wd ht)] }

/-- The full call sequence `generateSDFTex` issues against the
compute-variable layer (part_001 lines 281-343): prefix, `numPasses`
propagation passes with step sizes `2^(numPasses-1-i)`, destruction of the
jfa variable, and the finalization variable computed once. -/
def sdfOps (wd ht : Nat) : List Op :=
  sdfPre wd ht ++
  (loopOps ((List.range (Nat.clog 2 (max wd ht))).map
      (fun i => (2 : ℚ) ^ (Nat.clog 2 (max wd ht) - 1 - i))) ++
  [Op.destroyOp 0,
   Op.newVar (finCfg wd ht),
   Op.setDeps 1 [0],
   Op.computeOnceOp 1])

/-- `generateSDFTex` acting on the world: run the call sequence, then
destroy the jfa variable's leftover current texture directly
(`jfaComputeVar.getCurrentTexture().destroy()`, part_001 line 343). -/
def generateSDFTexWorld (wd ht : Nat) : World :=
  let w1 := runOps (sdfOps wd ht)
  { w1 with freed := w1.freed ++ (getCurrentTexture w1 0).toList }

/-- The jfa variable's state right after the seeding prefix. -/
def jfaSeeded (wd ht : Nat) : VarState :=
  { name := "jfa", width := wd, height := ht,
    uniforms := [("uTexelSize", texelUV wd ht), ("uStepSize", UniVal.num 1),
                 ("uFirst", UniVal.num 0)],
    samplers := [("uTex", 0)],
    ping := some 1, pong := some 2, currentIndex := 1,
    dependencies := [0], dependents := [0],
    initialized := true, destroyed := false, texturesDestroyed := false,
    needsPingPong := true, externalPingTexture := false, initCount := 1 }

/-! ## C6 — computeChain termination, at-most-once, ordering -/

/-- The dependency list of variable `j` as recorded in the world. -/
def depsMap (w : World) (j : Nat) : Option (List Nat) :=
  (w.vars j).map VarState.dependencies

/-- Bookkeeping invariant of one `computeChain` run relative to its inputs:
the visited set only grows, each newly visited variable produces exactly one
`visit` event (an already-visited one produces none), `compute()` runs at
most once per `visit`, and the world keeps the same variables with the same
dependency lists. -/
def ChainInv (w : World) (vis : List Nat) (r : ChainRes) : Prop :=
  (∀ x, x ∈ vis → x ∈ r.vis) ∧
  (∀ j, r.tr.count (TraceEv.visit j) = if j ∈ r.vis ∧ j ∉ vis then 1 else 0) ∧
  (∀ j, r.tr.count (TraceEv.comp j) ≤ r.tr.count (TraceEv.visit j)) ∧
  (∀ j, depsMap r.w j = depsMap w j)

/-- Number of present, not-yet-visited variables with index below `n`. -/
def unseen (n : Nat) (w : World) (vis : List Nat) : Nat :=
  ((List.range n).filter (fun j => !vis.contains j && (w.vars j).isSome)).length

/-- Order discipline of a chain run: any `compute()` of `j` in the trace is
preceded by a `visit` of every non-self dependency of `j`, unless that
dependency was already visited when the run started. -/
def OrdProp (w : World) (vis : List Nat) (r : ChainRes) : Prop :=
  ∀ j ds, depsMap w j = some ds → ∀ p s, r.tr = p ++ TraceEv.comp j :: s →
    ∀ d, d ∈ ds → d ≠ j → TraceEv.visit d ∈ p ∨ d ∈ vis

/-- A session with a self-edge on `a`, a diamond through `b` and `c`, and a
cycle between `b` and `c`. -/
def w6 : World :=
  runOps [Op.newVar { name := "a", width := 1, height := 1 },
          Op.newVar { name := "b", width := 1, height := 1 },
          Op.newVar { name := "c", width := 1, height := 1 },
          Op.setDeps 0 [0, 1, 2],
          Op.setDeps 1 [2],
          Op.setDeps 2 [1]]

/-! ## C9 — externally owned textures are never freed -/

/-- The slot/ownership view of a variable relevant to texture release. -/
def Rview (v : VarState) : Option Nat × Option Nat × Bool × Bool :=
  (v.ping, v.pong, v.externalPingTexture, v.texturesDestroyed)

/-- The texture-ownership invariant: variables exist only below
`varsCount`; every backing-texture id is in range; and for every texture id
adopted as the external ping of some variable: it is not freed, every
variable with live textures holding it as ping is marked external, and
every such variable holding it as pong also holds it as ping. -/
def TexInv (w : World) : Prop :=
  (∀ k, w.varsCount ≤ k → w.vars k = none) ∧
  (∀ i v, w.vars i = some v →
    (∀ a, v.ping = some a → a < w.texDims.length) ∧
    (∀ b, v.pong = some b → b < w.texDims.length) ∧
    (v.externalPingTexture = true → v.ping ≠ none)) ∧
  (∀ t, (∃ i v, w.vars i = some v ∧ v.externalPingTexture = true ∧ v.ping = some t) →
    t ∉ w.freed ∧
    (∀ k u, w.vars k = some u → u.texturesDestroyed = false →
      (u.ping = some t → u.externalPingTexture = true) ∧
      (u.pong = some t → u.ping = some t)))

/-- The texture passed to `setInitialTexture` (or as the `initialTexture`
option) denotes an existing, live, externally owned texture: it is in
range, not freed, not the target's leftover distinct pong buffer, and not
an internal (non-external) buffer of any variable. In the TS code every
call passes an actual `RenderTexture` object the caller owns, which is
what this check encodes for the id-based embedding. -/
def extTexOk (w : World) (i t : Nat) : Bool :=
  decide (t < w.texDims.length) && !(w.freed.contains t) &&
  (match w.vars i with
   | none => true
   | some v => (v.pong == (none : Option Nat)) || (v.pong == some t)) &&
  ((List.range w.varsCount).all (fun k =>
    match w.vars k with
    | none => true
    | some u =>
      (!(u.ping == some t) || u.externalPingTexture) &&
      (!(u.pong == some t) || (u.ping == some t))))

/-- Validity of a public call with respect to texture ownership: adopting
an initial texture must pass a real, live, externally owned texture. -/
def texValidOp (w : World) : Op → Bool
  | .setInitialTex i t => extTexOk w i t
  | .newVar cfg =>
    match cfg.initialTexture with
    | none => true
    | some t => extTexOk w w.varsCount t
  | _ => true

/-- A whole session is valid when every call is. -/
def validSession (w : World) : List Op → Bool
  | [] => true
  | op :: rest => texValidOp w op && validSession (step w op) rest

/-- A session that adopts texture 0 externally for variable `a`, lets its
non-ping-pong `init()` alias the pong slot to that same texture, blocks the
first `destroy()` with a live dependent, re-adopts a second texture over
the destroyed-but-unreleased variable, re-initializes it as ping-pong, and
finally destroys the last dependent. -/
def ops9a : List Op :=
  [Op.mkExternalTex 1 1, Op.mkExternalTex 1 1,
   Op.newVar { name := "a", width := 1, height := 1 },
   Op.newVar { name := "b", width := 1, height := 1 },
   Op.setInitialTex 0 0, Op.initOp 0, Op.setDeps 1 [0]]

/-- The tail of the re-adoption session. -/
def ops9b : List Op :=
  [Op.destroyOp 0, Op.setInitialTex 0 1, Op.setDeps 0 [0],
   Op.computeOp 0, Op.computeOp 0, Op.setDeps 0 [], Op.destroyOp 1]

/-- The state right after the first adoption prefix. -/
def w9mid : World := runOps ops9a

/-- The final state of the re-adoption session. -/
def w9c : World := runOps (ops9a ++ ops9b)

/-- A well-behaved session: external texture 0 adopted by a self-dependent
variable, computed twice and destroyed; the release frees the fresh pong
buffer (texture 1) and leaves the adopted texture 0 alive. -/
def ops9w : List Op :=
  [Op.mkExternalTex 1 1,
   Op.newVar { name := "p", width := 1, height := 1 },
   Op.setInitialTex 0 0, Op.setDeps 0 [0], Op.initOp 0,
   Op.computeOp 0, Op.computeOp 0, Op.destroyOp 0]

/-- A session exercising C8: one 1x1 variable, initialized. -/
def w8 : World := runOps [Op.newVar { name := "x", width := 1, height := 1 }, Op.initOp 0]

/-- The state of that variable after `init()`. -/
def v8 : VarState :=
  { name := "x", width := 1, height := 1, uniforms := [], samplers := [],
    ping := some 0, pong := some 0, currentIndex := 0, dependencies := [],
    dependents := [], initialized := true, destroyed := false,
    texturesDestroyed := false, needsPingPong := false,
    externalPingTexture := false, initCount := 1 }

/-- A session exercising C10: a self-dependent 1x1 variable, initialized,
computed once, then destroyed; `compute()` afterwards re-initializes and
renders. -/
def w10 : World := runOps [Op.newVar { name := "r", width := 1, height := 1 },
  Op.setDeps 0 [0], Op.initOp 0, Op.computeOp 0]

/-! ## C7 — shader declaration assembly (`isUniformDeclared` / `createShader` /
`injectShaderCode`, GPUComputeVariable.ts lines 575-644)

The regex `\buniform\s+\w+\s+NAME\s*(\[[^\]]*\])?\s*;` is embedded as a
deterministic character-level matcher: every quantified class in the pattern
(`\s+`, `\w+`, `[^\]]*`, `\s*`) is followed either by a character of a
disjoint class or by a fixed character outside the class, so maximal munch is
equivalent to the backtracking search of the regex engine. -/

def isWordChar (c : Char) : Bool := c.isAlphanum || c = '_'

def isSpaceChar (c : Char) : Bool :=
  c = ' ' || c = '\t' || c = '\n' || c = '\r' || c = '\x0b' || c = '\x0c'

/-- Consume an exact literal, returning the rest of the input. -/
def eatLit : List Char → List Char → Option (List Char)
  | [], s => some s
  | _ :: _, [] => none
  | c :: cs, d :: ds => if c = d then eatLit cs ds else none

/-- Consume one-or-more characters of a class (maximal munch), i.e. `\s+`
or `\w+`. -/
def eatClass1 (p : Char → Bool) : List Char → Option (List Char)
  | [] => none
  | c :: rest => if p c then some (rest.dropWhile p) else none

/-- Attempt the match `uniform\s+\w+\s+NAME\s*(\[[^\]]*\])?\s*;` at the head
of `s`. -/
def declAt (name : List Char) (s : List Char) : Bool :=
  match eatLit ("uniform".toList) s with
  | none => false
  | some s1 =>
    match eatClass1 isSpaceChar s1 with
    | none => false
    | some s2 =>
      match eatClass1 isWordChar s2 with
      | none => false
      | some s3 =>
        match eatClass1 isSpaceChar s3 with
        | none => false
        | some s4 =>
          match eatLit name s4 with
          | none => false
          | some s5 =>
            match s5.dropWhile isSpaceChar with
            | '[' :: r =>
              (match r.dropWhile (fun c => !(c = ']')) with
               | ']' :: r3 =>
                 (match r3.dropWhile isSpaceChar with
                  | ';' :: _ => true
                  | _ => false)
               | _ => false)
            | s6 =>
              (match s6 with
               | ';' :: _ => true
               | _ => false)

/-- Search for the declaration pattern at every position of the source whose
preceding character is a word boundary (`\b` before `uniform`). `bnd` records
whether the current position is at a boundary. -/
def searchDecl (name : List Char) : Bool → List Char → Bool
  | _, [] => false
  | bnd, c :: rest =>
    (bnd && declAt name (c :: rest)) || searchDecl name (!(isWordChar c)) rest

/-- `isUniformDeclared` (lines 596-601): tests
`\buniform\s+\w+\s+${uniformName}\s*(\[[^\]]*\])?\s*;` against the shader
source. -/
def isUniformDeclared (src name : String) : Bool :=
  searchDecl name.toList true src.toList

/-- The leading-`#version` split of `injectShaderCode`'s regex
`^(\s*#version[^\n]*\n)`: returns the matched prefix (leading whitespace,
`#version`, the rest of that line, the newline) and the remainder. -/
def splitVersion (s : List Char) : Option (List Char × List Char) :=
  match eatLit ("#version".toList) (s.dropWhile isSpaceChar) with
  | none => none
  | some after =>
    match after.dropWhile (fun c => !(c = '\n')) with
    | [] => none
    | c :: t2 =>
      if c = '\n' then
        some (s.takeWhile isSpaceChar ++
          ("#version".toList ++ (after.takeWhile (fun c => !(c = '\n')) ++ ['\n'])), t2)
      else none

/-- `injectShaderCode` (lines 578-587): `match[1] + codeToInject +
shader.slice(match[0].length)` when the version regex matches, otherwise
`codeToInject + shader`. -/
def injectShaderCode (shader codeToInject : String) : String :=
  match splitVersion shader.toList with
  | some pr => String.mk (pr.1 ++ (codeToInject.toList ++ pr.2))
  | none => codeToInject ++ shader

/-- The `PIXI_TO_GLSL_TYPE` table (lines 20-38). -/
def pixiToGlsl (t : String) : Option String :=
  if t = "f32" then some "float"
  else if t = "i32" then some "int"
  else if t = "vec2<f32>" then some "vec2"
  else if t = "vec3<f32>" then some "vec3"
  else if t = "vec4<f32>" then some "vec4"
  else if t = "vec2<i32>" then some "ivec2"
  else if t = "vec3<i32>" then some "ivec3"
  else if t = "vec4<i32>" then some "ivec4"
  else if t = "mat2x2<f32>" then some "mat2"
  else if t = "mat3x3<f32>" then some "mat3"
  else if t = "mat4x4<f32>" then some "mat4"
  else if t = "mat3x2<f32>" then some "mat3x2"
  else if t = "mat4x2<f32>" then some "mat4x2"
  else if t = "mat2x3<f32>" then some "mat2x3"
  else if t = "mat4x3<f32>" then some "mat4x3"
  else if t = "mat2x4<f32>" then some "mat2x4"
  else if t = "mat3x4<f32>" then some "mat3x4"
  else none

/-- One sampler declaration line: `uniform sampler2D ${name};\n`. -/
def samplerDecl (n : String) : String := "uniform sampler2D " ++ (n ++ ";\n")

/-- One custom-uniform declaration line: `uniform ${glslType} ${key};\n`. -/
def uniformDecl (g k : String) : String :=
  "uniform " ++ (g ++ (" " ++ (k ++ ";\n")))

/-- The sampler-declaration loops of `createShader` (lines 611-624): append a
declaration for each name not already declared in the shader body. -/
def samplerDecls (body : String) : List String → String
  | [] => ""
  | n :: rest =>
    if isUniformDeclared body n then samplerDecls body rest
    else samplerDecl n ++ samplerDecls body rest

/-- The custom-uniform loop of `createShader` (lines 627-640): skip keys
already declared in the body, throw on a PIXI type missing from the table,
otherwise append `uniform ${glslType} ${key};\n`. -/
def uniformDecls (vname body : String) : List (String × String) → Except String String
  | [] => Except.ok ""
  | (k, t) :: rest =>
    if isUniformDeclared body k then uniformDecls vname body rest
    else
      match pixiToGlsl t with
      | none =>
        Except.error (varErr vname
          ("Unknown uniform type \"" ++ (t ++ ("\" for \"" ++ (k ++ "\"")))))
      | some g =>
        match uniformDecls vname body rest with
        | Except.error e => Except.error e
        | Except.ok s => Except.ok (uniformDecl g k ++ s)

/-- The resolution define of `createShader` (line 609):
`#define resolution vec2(${width.toFixed(1)}, ${height.toFixed(1)})\n`. -/
def resolutionDefine (wd ht : Nat) : String :=
  "#define resolution vec2(" ++ (toString wd ++ (".0, " ++ (toString ht ++ ".0)\n")))

/-- The declaration-assembly part of `createShader` (lines 607-644): build
`codeToInject = resolutionDefine + samplerDeclarations + uniformDeclarations`
(dependency samplers first, then static samplers, then custom uniforms) and
inject it into the fragment shader. -/
def createShaderCode (vname : String) (wd ht : Nat) (body : String)
    (depNames samplerNames : List String) (us : List (String × String)) :
    Except String String :=
  match uniformDecls vname body us with
  | Except.error e => Except.error e
  | Except.ok uds =>
    Except.ok (injectShaderCode body
      (resolutionDefine wd ht ++
        (samplerDecls body depNames ++ (samplerDecls body samplerNames ++ uds))))

/-- Does `pat` occur at the head of `s`? -/
def strStarts : List Char → List Char → Bool
  | [], _ => true
  | _ :: _, [] => false
  | c :: cs, d :: ds => c = d && strStarts cs ds

/-- Number of positions of `s` at which the pattern `pat` occurs. -/
def countSub (pat : List Char) : List Char → Nat
  | [] => 0
  | c :: rest => (if strStarts pat (c :: rest) then 1 else 0) + countSub pat rest

def body7w : String := "#version 300 es\nuniform float uA;\nvoid main();"

/-! ## C5 — inert particles in the simulation pass (`simulationShader`,
part_003 lines 11-127)

The GLSL `main` of the simulation pass is embedded over `ℚ`. Texture fetches
(`uParticlesState`, `uAttributes`, `uNoise`, `sampleSdf`), the coordinate
conversion `simToUv` and the transcendental functions `length`'s square root
and `exp` are opaque GPU inputs, abstracted as fields of an environment
record; everything else (`mix`, `smoothstep`, `floor`, `int` casts, the force
and integration arithmetic) is computed exactly. -/

/-- GLSL `mix(x, y, a) = x*(1-a) + y*a`. -/
def mixQ (x y a : ℚ) : ℚ := x * (1 - a) + y * a

/-- GLSL `smoothstep(e0, e1, x)` with `t = clamp((x-e0)/(e1-e0), 0, 1)`. -/
def smoothstepQ (e0 e1 x : ℚ) : ℚ :=
  let t := min (max ((x - e0) / (e1 - e0)) 0) 1
  t * t * (3 - 2 * t)

/-- GLSL `floor` on a rational carried as a rational. -/
def ratFloor (q : ℚ) : ℚ := (⌊q⌋ : ℚ)

/-- GLSL `int(...)` cast: truncation toward zero. -/
def ratTrunc (q : ℚ) : ℤ := q.num / (q.den : ℤ)

/-- The opaque inputs of one simulation pass: the scalar uniforms, and the
samplers and transcendental functions the shader consumes. `stateSample`
returns `(position, velocity)` (the `.xy` / `.zw` of `uParticlesState`),
`attrSample` returns `(initStart, initEnd, orbit, massAttr)`, `sdfSample`
returns `(gradient, distancePx)`, `noiseSample` the `.r` channel of `uNoise`,
`sqrtF` the square root used by `length`, `expF` the exponential of the
global damping. -/
structure SimEnv where
  uTexSize : ℚ × ℚ
  dt : ℚ
  uPhase : ℚ
  stiffness : ℚ
  damping : ℚ
  globalDamping : ℚ
  massMultiplier : ℚ
  orbitMultiplier : ℚ
  orbitOffset : ℚ
  sdfResolutionMultiplier : ℚ
  tangentialNoiseAmplitude : ℚ
  uTangentialDamping : ℚ
  uS : ℚ
  stateSample : ℚ × ℚ → (ℚ × ℚ) × (ℚ × ℚ)
  attrSample : ℚ × ℚ → ℚ × ℚ × ℚ × ℚ
  noiseSample : ℚ × ℚ → ℚ
  sdfSample : ℤ → ℚ × ℚ → (ℚ × ℚ) × ℚ
  simToUvF : ℚ × ℚ → ℚ × ℚ
  sqrtF : ℚ → ℚ
  expF : ℚ → ℚ

/-- The force computation of `main` (lines 42-110 of the shader): everything
up to and including `F_total`, which stays `vec2(0.0)` unless
`initEnd <= uPhase`. -/
def simForce (env : SimEnv) (vUV : ℚ × ℚ) : ℚ × ℚ :=
  let movement := env.stateSample vUV
  let position := movement.1
  let velocity := movement.2
  let attrs := env.attrSample vUV
  let initEnd := attrs.2.1
  let orbit := attrs.2.2.1
  let massAttr := attrs.2.2.2
  let particleIndex := (ratFloor (vUV.1 * env.uTexSize.1),
    ratFloor (vUV.2 * env.uTexSize.2))
  let linearIndex := ratTrunc (particleIndex.2 * env.uTexSize.1 + particleIndex.1)
  let sdfIndex := linearIndex - linearIndex / 4 * 4
  let sdfUv := env.simToUvF position
  let sdfData := env.sdfSample sdfIndex sdfUv
  let gradient := sdfData.1
  let sdfDistPx := sdfData.2
  let sdfDistSim := sdfDistPx / (env.sdfResolutionMultiplier * env.uS)
  let targetOrbit := env.orbitMultiplier * (orbit + env.orbitOffset)
  let gradLen := env.sqrtF (gradient.1 * gradient.1 + gradient.2 * gradient.2)
  let gradientDir := if gradLen > 1/10000 then (gradient.1 / gradLen, gradient.2 / gradLen)
    else ((0 : ℚ), (0 : ℚ))
  let tangentDir := (-gradientDir.2, gradientDir.1)
  let dtSec := env.dt / 1000
  let _ := massAttr
  if initEnd ≤ env.uPhase then
    let tangentialNoiseMagnitude :=
      (env.noiseSample (sdfUv.1 * 5, sdfUv.2 * 5 + dtSec * (1/10)) * 2 - 1) *
        env.tangentialNoiseAmplitude
    let F_spring0 := ((targetOrbit - sdfDistSim) * env.stiffness * gradientDir.1,
      (targetOrbit - sdfDistSim) * env.stiffness * gradientDir.2)
    let F_spring := (F_spring0.1 + F_spring0.2 * tangentialNoiseMagnitude,
      F_spring0.2 + (-F_spring0.1) * tangentialNoiseMagnitude)
    let tangentForceSign : ℚ := if sdfIndex = 2 ∨ sdfIndex = 0 then -1 else 1
    let F_tangent := (gradientDir.2 * (1/100) * tangentForceSign,
      -gradientDir.1 * (1/100) * tangentForceSign)
    let s := smoothstepQ (3/1000) (1/1000) |sdfDistSim - targetOrbit|
    let F_result := (mixQ F_spring.1 F_tangent.1 s, mixQ F_spring.2 F_tangent.2 s)
    let velAlongGradient := velocity.1 * gradientDir.1 + velocity.2 * gradientDir.2
    let velAlongTangent := velocity.1 * tangentDir.1 + velocity.2 * tangentDir.2
    let F_dampTangent := (-env.uTangentialDamping * velAlongTangent * tangentDir.1,
      -env.uTangentialDamping * velAlongTangent * tangentDir.2)
    let F_damp := (-env.damping * velAlongGradient * gradientDir.1,
      -env.damping * velAlongGradient * gradientDir.2)
    (F_result.1 + F_damp.1 + F_dampTangent.1, F_result.2 + F_damp.2 + F_dampTangent.2)
  else ((0 : ℚ), (0 : ℚ))

/-- One application of the simulation pass `main` (lines 40-125): compute
`F_total`, Euler-integrate velocity, apply exponential global damping, update
position, and emit `vec4(position, velocity)`. -/
def simMain (env : SimEnv) (vUV : ℚ × ℚ) : (ℚ × ℚ) × (ℚ × ℚ) :=
  let movement := env.stateSample vUV
  let position := movement.1
  let velocity := movement.2
  let attrs := env.attrSample vUV
  let massAttr := attrs.2.2.2
  let mass0 := max (env.massMultiplier * massAttr) (5/100)
  let mass := max mass0 (1/10000)
  let dtSec := env.dt / 1000
  let F_total := simForce env vUV
  let acceleration := (F_total.1 / mass, F_total.2 / mass)
  let velocity1 := (velocity.1 + acceleration.1 * dtSec,
    velocity.2 + acceleration.2 * dtSec)
  let g := env.expF (-env.globalDamping * dtSec)
  let velocity2 := (velocity1.1 * g, velocity1.2 * g)
  let position1 := (position.1 + velocity2.1 * dtSec, position.2 + velocity2.2 * dtSec)
  (position1, velocity2)

def env5 : SimEnv where
  uTexSize := (4, 4)
  dt := 16
  uPhase := 0
  stiffness := 1
  damping := 1
  globalDamping := 2
  massMultiplier := 1
  orbitMultiplier := 1
  orbitOffset := 0
  sdfResolutionMultiplier := 1
  tangentialNoiseAmplitude := 1
  uTangentialDamping := 1
  uS := 1
  stateSample := fun _ => ((3, 7), (0, 0))
  attrSample := fun _ => (0, 1, 1, 1)
  noiseSample := fun _ => 0
  sdfSample := fun _ _ => ((1, 0), 2)
  simToUvF := fun p => p
  sqrtF := fun _ => 1
  expF := fun _ => 1

/-! ## Basic lemmas about the state operations -/

theorem setVar_vars_self (w : World) (i : Nat) (v : VarState) :
    (w.setVar i v).vars i = some v := by
  simp [World.setVar]

theorem setVar_vars_ne (w : World) (i j : Nat) (v : VarState) (h : j ≠ i) :
    (w.setVar i v).vars j = w.vars j := by
  simp [World.setVar, Function.update_noteq h]

/-! Closed forms of `ensureTextures`, one per shape of the variable's
texture slots. -/

theorem ensure_some_some (w : World) (i : Nat) (v : VarState) (hv : w.vars i = some v)
    (p q : Nat) (hp : v.ping = some p) (hq : v.pong = some q) :
    ensureTextures w i = w.setVar i v := by
  have he : { v with ping := v.ping, pong := v.pong } = v := rfl
  simp [ensureTextures, hv, hp, hq]

theorem ensure_some_none_pp (w : World) (i : Nat) (v : VarState) (hv : w.vars i = some v)
    (p : Nat) (hp : v.ping = some p) (hq : v.pong = none) (hnp : v.needsPingPong = true) :
    ensureTextures w i =
      { w with texDims := w.texDims ++ [(v.width, v.height)],
               vars := Function.update w.vars i
                 (some { v with pong := some w.texDims.length }) } := by
  have he : { v with ping := v.ping, pong := some w.texDims.length } =
      { v with pong := some w.texDims.length } := rfl
  simp [ensureTextures, hv, hp, hq, hnp, World.createTexture, World.setVar]

theorem ensure_some_none_nopp (w : World) (i : Nat) (v : VarState) (hv : w.vars i = some v)
    (p : Nat) (hp : v.ping = some p) (hq : v.pong = none) (hnp : v.needsPingPong = false) :
    ensureTextures w i = w.setVar i { v with pong := some p } := by
  have he : { v with ping := v.ping, pong := v.ping } =
      { v with pong := v.ping } := rfl
  simp [ensureTextures, hv, hp, hq, hnp, World.setVar]

theorem ensure_none_none_pp (w : World) (i : Nat) (v : VarState) (hv : w.vars i = some v)
    (hp : v.ping = none) (hq : v.pong = none) (hnp : v.needsPingPong = true) :
    ensureTextures w i =
      { w with texDims := w.texDims ++ [(v.width, v.height)] ++ [(v.width, v.height)],
               vars := Function.update w.vars i (some { v with
                 ping := some w.texDims.length, pong := some (w.texDims.length + 1) }) } := by
  simp [ensureTextures, hv, hp, hq, hnp, World.createTexture, World.setVar]

theorem ensure_none_none_nopp (w : World) (i : Nat) (v : VarState) (hv : w.vars i = some v)
    (hp : v.ping = none) (hq : v.pong = none) (hnp : v.needsPingPong = false) :
    ensureTextures w i =
      { w with texDims := w.texDims ++ [(v.width, v.height)],
               vars := Function.update w.vars i (some { v with
                 ping := some w.texDims.length, pong := some w.texDims.length }) } := by
  simp [ensureTextures, hv, hp, hq, hnp, World.createTexture, World.setVar]

theorem ensure_none_some (w : World) (i : Nat) (v : VarState) (hv : w.vars i = some v)
    (q : Nat) (hp : v.ping = none) (hq : v.pong = some q) :
    ensureTextures w i =
      { w with texDims := w.texDims ++ [(v.width, v.height)],
               vars := Function.update w.vars i
                 (some { v with ping := some w.texDims.length }) } := by
  have he : { v with ping := some w.texDims.length, pong := v.pong } =
      { v with ping := some w.texDims.length } := rfl
  simp [ensureTextures, hv, hp, hq, World.createTexture, World.setVar]

theorem varErr_contains (name rest : String) : msgContains (varErr name rest) name :=
  ⟨"GPUComputeVariable \"", "\": " ++ rest, rfl⟩

/-- `initUnchecked` in closed form: the self-dependency test fixes
`needsPingPong`, textures are ensured, the initialized flag and the shader
build count advance; nothing else about the variable changes, and the pass
log, the freed list and all other variables are untouched. -/
theorem initUnchecked_spec (w : World) (i : Nat) (v : VarState)
    (hv : w.vars i = some v) :
    ∃ p q, (initUnchecked w i).vars i = some { v with
        needsPingPong := v.dependencies.contains i, ping := some p, pong := some q,
        initialized := true, initCount := v.initCount + 1 } ∧
      (initUnchecked w i).passLog = w.passLog ∧
      (initUnchecked w i).freed = w.freed ∧
      (∀ j, j ≠ i → (initUnchecked w i).vars j = w.vars j) ∧
      (∀ a, v.ping = some a → p = a) ∧
      (∀ b, v.pong = some b → q = b) ∧
      (v.dependencies.contains i = false → v.pong = none → q = p) ∧
      (v.dependencies.contains i = true → v.pong = none →
        w.texDims.length ≤ q ∧ (v.ping = none → p ≠ q)) := by
  have hself := setVar_vars_self w i { v with needsPingPong := v.dependencies.contains i }
  cases hp : v.ping with
  | some a =>
    cases hq : v.pong with
    | some b =>
      simp only [initUnchecked, hv]
      rw [ensure_some_some _ i _ hself a b hp hq]
      refine ⟨a, b, ?_, ?_, ?_, ?_, ?_, ?_, ?_, ?_⟩
      · simp [World.setVar, Function.update_same, hp, hq]
      · simp [World.setVar, Function.update_same]
      · simp [World.setVar, Function.update_same]
      · intro j hj
        simp [World.setVar, Function.update_same, Function.update_noteq hj]
      · intro a' ha; exact Option.some_inj.mp ha
      · intro b' hb; exact Option.some_inj.mp hb
      · intro _ hqn; cases hqn
      · intro _ hqn; cases hqn
    | none =>
      cases hnp : (v.dependencies.contains i : Bool) with
      | true =>
        simp only [initUnchecked, hv]
        rw [ensure_some_none_pp _ i _ hself a hp hq hnp]
        refine ⟨a, w.texDims.length, ?_, ?_, ?_, ?_, ?_, ?_, ?_, ?_⟩
        · simp [World.setVar, Function.update_same, hp]
          simp at hnp
          exact hnp
        · simp [World.setVar, Function.update_same]
        · simp [World.setVar, Function.update_same]
        · intro j hj
          simp [World.setVar, Function.update_same, Function.update_noteq hj]
        · intro a' ha; exact Option.some_inj.mp ha
        · intro b' hb; cases hb
        · intro hcf; cases hcf
        · intro _ _; exact ⟨Nat.le_refl _, fun hh => by cases hh⟩
      | false =>
        simp only [initUnchecked, hv]
        rw [ensure_some_none_nopp _ i _ hself a hp hq hnp]
        refine ⟨a, a, ?_, ?_, ?_, ?_, ?_, ?_, ?_, ?_⟩
        · simp [World.setVar, Function.update_same, hp]
          simp at hnp
          exact hnp
        · simp [World.setVar, Function.update_same]
        · simp [World.setVar, Function.update_same]
        · intro j hj
          simp [World.setVar, Function.update_same, Function.update_noteq hj]
        · intro a' ha; exact Option.some_inj.mp ha
        · intro b' hb; cases hb
        · intro _ _; rfl
        · intro hcf; cases hcf
  | none =>
    cases hq : v.pong with
    | some b =>
      simp only [initUnchecked, hv]
      rw [ensure_none_some _ i _ hself b hp hq]
      refine ⟨w.texDims.length, b, ?_, ?_, ?_, ?_, ?_, ?_, ?_, ?_⟩
      · simp [World.setVar, Function.update_same, hq]
      · simp [World.setVar, Function.update_same]
      · simp [World.setVar, Function.update_same]
      · intro j hj
        simp [World.setVar, Function.update_same, Function.update_noteq hj]
      · intro a' ha; cases ha
      · intro b' hb; exact Option.some_inj.mp hb
      · intro _ hqn; cases hqn
      · intro _ hqn; cases hqn
    | none =>
      cases hnp : (v.dependencies.contains i : Bool) with
      | true =>
        simp only [initUnchecked, hv]
        rw [ensure_none_none_pp _ i _ hself hp hq hnp]
        refine ⟨w.texDims.length, w.texDims.length + 1, ?_, ?_, ?_, ?_, ?_, ?_, ?_, ?_⟩
        · simp [World.setVar, Function.update_same]
          simp at hnp
          exact hnp
        · simp [World.setVar, Function.update_same]
        · simp [World.setVar, Function.update_same]
        · intro j hj
          simp [World.setVar, Function.update_same, Function.update_noteq hj]
        · intro a' ha; cases ha
        · intro b' hb; cases hb
        · intro hcf; cases hcf
        · intro _ _; exact ⟨Nat.le_succ _, fun _ hh => by omega⟩
      | false =>
        simp only [initUnchecked, hv]
        rw [ensure_none_none_nopp _ i _ hself hp hq hnp]
        refine ⟨w.texDims.length, w.texDims.length, ?_, ?_, ?_, ?_, ?_, ?_, ?_, ?_⟩
        · simp [World.setVar, Function.update_same]
          simp at hnp
          exact hnp
        · simp [World.setVar, Function.update_same]
        · simp [World.setVar, Function.update_same]
        · intro j hj
          simp [World.setVar, Function.update_same, Function.update_noteq hj]
        · intro a' ha; cases ha
        · intro b' hb; cases hb
        · intro _ _; rfl
        · intro hcf; cases hcf

/-- `compute()` on an initialized variable: exactly one pass is rendered,
into the non-current buffer (`currentIndex === 0 ? pong : ping`), with the
variable's uniform values; then the current index flips.  Nothing else
changes. -/
theorem computeStep_initialized (w : World) (i : Nat) (v : VarState)
    (hv : w.vars i = some v) (hinit : v.initialized = true) :
    computeStep w i =
      { w with
        passLog := w.passLog ++
          [PassEv.mk i ((if v.currentIndex = 0 then v.pong else v.ping).getD 0) false
            v.uniforms],
        vars := Function.update w.vars i
          (some { v with currentIndex := 1 - v.currentIndex }) } := by
  simp [computeStep, hv, hinit, World.setVar]

/-- `compute()` on a not-yet-initialized variable: `init()` runs silently
(ping-pong need recomputed from the current dependency list, textures
ensured, shader recompiled), then one pass is rendered into the non-current
buffer and the index flips. -/
theorem computeStep_uninit (w : World) (i : Nat) (v : VarState)
    (hv : w.vars i = some v) (hni : v.initialized = false) :
    ∃ p q, (computeStep w i).vars i = some { v with
        needsPingPong := v.dependencies.contains i, ping := some p, pong := some q,
        initialized := true, initCount := v.initCount + 1,
        currentIndex := 1 - v.currentIndex } ∧
      (computeStep w i).passLog = w.passLog ++
        [PassEv.mk i (if v.currentIndex = 0 then q else p) false v.uniforms] ∧
      (computeStep w i).freed = w.freed ∧
      (∀ j, j ≠ i → (computeStep w i).vars j = w.vars j) ∧
      (∀ a, v.ping = some a → p = a) ∧
      (∀ b, v.pong = some b → q = b) ∧
      (v.dependencies.contains i = false → v.pong = none → q = p) := by
  obtain ⟨p, q, h1, h2, h3, h4, h5, h6, h7, h8⟩ := initUnchecked_spec w i v hv
  have hstep : computeStep w i =
      ({ initUnchecked w i with
        passLog := (initUnchecked w i).passLog ++
          [PassEv.mk i (if v.currentIndex = 0 then q else p) false v.uniforms] }).setVar i
        ({ v with
           needsPingPong := v.dependencies.contains i
           ping := some p
           pong := some q
           initialized := true
           initCount := v.initCount + 1
           currentIndex := 1 - v.currentIndex }) := by
    simp only [computeStep, hv, hni, Bool.false_eq_true, if_false]
    rw [h1]
    simp [apply_ite (fun o => Option.getD o 0)]
  refine ⟨p, q, ?_, ?_, ?_, ?_, h5, h6, h7⟩
  · rw [hstep]; exact setVar_vars_self _ _ _
  · rw [hstep]; simp [World.setVar, h2]
  · rw [hstep]; simp [World.setVar, h3]
  · intro j hj
    rw [hstep, setVar_vars_ne _ _ _ _ hj]
    exact h4 j hj

/-- `destroyTextures()` touches, at most, the variable's own
`texturesDestroyed` flag and the world's freed list. -/
theorem destroyTextures_shape (w : World) (k j : Nat) (u : VarState)
    (hu : w.vars j = some u) :
    ∃ td, (destroyTexturesStep w k).vars j = some { u with texturesDestroyed := td } := by
  unfold destroyTexturesStep
  cases hk : w.vars k with
  | none => exact ⟨u.texturesDestroyed, hu⟩
  | some v =>
    by_cases htd : v.texturesDestroyed = true
    · simp only [htd, if_true]
      exact ⟨u.texturesDestroyed, hu⟩
    · by_cases hjk : j = k
      · subst hjk
        have huv : u = v := Option.some_inj.mp (hu.symm.trans hk)
        subst huv
        refine ⟨true, ?_⟩
        simp [htd, Function.update_same]
      · refine ⟨u.texturesDestroyed, ?_⟩
        simp [htd, Function.update_noteq hjk, hu]

/-- One iteration of the destroy dependency loop touches, at most, the
`dependents` and `texturesDestroyed` fields of any variable (plus the
world's freed list). -/
theorem destroyDepVisit_shape (s d j : Nat) (w : World) (u : VarState)
    (hu : w.vars j = some u) :
    ∃ dd td, (destroyDepVisit s w d).vars j =
      some { u with dependents := dd, texturesDestroyed := td } := by
  unfold destroyDepVisit removeDependent
  cases hd : w.vars d with
  | none =>
    simp only [hd]
    exact ⟨u.dependents, u.texturesDestroyed, hu⟩
  | some v =>
    simp only [hd, setVar_vars_self]
    by_cases hjd : j = d
    · subst hjd
      have huv : v = u := Option.some_inj.mp (hd.symm.trans hu)
      subst huv
      split
      · obtain ⟨td, h⟩ := destroyTextures_shape
          (w.setVar j { v with dependents := v.dependents.filter (· ≠ s) }) j j
          { v with dependents := v.dependents.filter (· ≠ s) } (setVar_vars_self _ _ _)
        exact ⟨v.dependents.filter (· ≠ s), td, h⟩
      · exact ⟨v.dependents.filter (· ≠ s), v.texturesDestroyed, setVar_vars_self _ _ _⟩
    · have hkeep : (w.setVar d { v with dependents := v.dependents.filter (· ≠ s) }).vars j
          = some u := by rw [setVar_vars_ne _ _ _ _ hjd]; exact hu
      split
      · obtain ⟨td, h⟩ := destroyTextures_shape
          (w.setVar d { v with dependents := v.dependents.filter (· ≠ s) }) d j u hkeep
        exact ⟨u.dependents, td, h⟩
      · exact ⟨u.dependents, u.texturesDestroyed, hkeep⟩

/-- The whole destroy dependency loop touches, at most, the `dependents`
and `texturesDestroyed` fields of any variable. -/
theorem foldDestroy_shape (s j : Nat) (deps : List Nat) :
    ∀ (w : World) (u : VarState), w.vars j = some u →
    ∃ dd td, ((deps.foldl (destroyDepVisit s) w).vars j) =
      some { u with dependents := dd, texturesDestroyed := td } := by
  induction deps with
  | nil => exact fun w u hu => ⟨u.dependents, u.texturesDestroyed, hu⟩
  | cons d rest ih =>
    intro w u hu
    obtain ⟨dd, td, h⟩ := destroyDepVisit_shape s d j w u hu
    obtain ⟨dd2, td2, h2⟩ := ih _ _ h
    exact ⟨dd2, td2, h2⟩

/-- A first `destroy()` leaves the variable marked destroyed, with
`initialized = false` and an empty dependency list. -/
theorem destroyStep_resets (w : World) (i : Nat) (v : VarState)
    (hv : w.vars i = some v) (hnd : v.destroyed = false) :
    ∃ v1, (destroyStep w i).vars i = some v1 ∧ v1.initialized = false ∧
      v1.dependencies = [] ∧ v1.destroyed = true ∧
      v1.uniforms = v.uniforms ∧ v1.initCount = v.initCount ∧
      v1.ping = v.ping ∧ v1.pong = v.pong ∧ v1.needsPingPong = v.needsPingPong ∧
      v1.currentIndex = v.currentIndex ∧ v1.externalPingTexture = v.externalPingTexture ∧
      v1.name = v.name := by
  unfold destroyStep
  simp only [hv, hnd, Bool.false_eq_true, if_false]
  obtain ⟨dd, td, h2⟩ := foldDestroy_shape i i v.dependencies
    (w.setVar i { v with destroyed := true }) { v with destroyed := true }
    (setVar_vars_self _ _ _)
  simp only [h2]
  cases hemp : dd.isEmpty with
  | true =>
    simp only [hemp, if_true]
    obtain ⟨td2, h3⟩ := destroyTextures_shape
      (v.dependencies.foldl (destroyDepVisit i) (w.setVar i { v with destroyed := true })) i i
      { { v with destroyed := true } with dependents := dd, texturesDestroyed := td } h2
    simp only [h3, setVar_vars_self]
    exact ⟨_, rfl, rfl, rfl, rfl, rfl, rfl, rfl, rfl, rfl, rfl, rfl, rfl⟩
  | false =>
    simp only [hemp, Bool.false_eq_true, if_false, h2, setVar_vars_self]
    exact ⟨_, rfl, rfl, rfl, rfl, rfl, rfl, rfl, rfl, rfl, rfl, rfl, rfl⟩

/-- `ensureTextures` touches no variable but its own. -/
theorem ensure_vars_ne (w : World) (k j : Nat) (h : j ≠ k) :
    (ensureTextures w k).vars j = w.vars j := by
  cases hk : w.vars k with
  | none => simp [ensureTextures, hk]
  | some v =>
    cases hp : v.ping with
    | some a =>
      cases hq : v.pong with
      | some b =>
        rw [ensure_some_some w k v hk a b hp hq, setVar_vars_ne _ _ _ _ h]
      | none =>
        cases hnp : v.needsPingPong with
        | true =>
          rw [ensure_some_none_pp w k v hk a hp hq hnp]
          simp [Function.update_noteq h]
        | false =>
          rw [ensure_some_none_nopp w k v hk a hp hq hnp, setVar_vars_ne _ _ _ _ h]
    | none =>
      cases hq : v.pong with
      | some b =>
        rw [ensure_none_some w k v hk b hp hq]
        simp [Function.update_noteq h]
      | none =>
        cases hnp : v.needsPingPong with
        | true =>
          rw [ensure_none_none_pp w k v hk hp hq hnp]
          simp [Function.update_noteq h]
        | false =>
          rw [ensure_none_none_nopp w k v hk hp hq hnp]
          simp [Function.update_noteq h]

/-- `compute()` touches no variable but its own. -/
theorem computeStep_vars_ne (w : World) (k j : Nat) (h : j ≠ k) :
    (computeStep w k).vars j = w.vars j := by
  cases hk : w.vars k with
  | none => simp [computeStep, hk]
  | some v =>
    cases hini : v.initialized with
    | true =>
      rw [computeStep_initialized w k v hk hini]
      simp [Function.update_noteq h]
    | false =>
      obtain ⟨p, q, _, _, _, h4, _, _, _⟩ := computeStep_uninit w k v hk hini
      exact h4 j h

/-- `dependents.delete` touches only the target's dependents. -/
theorem removeDependent_shape (w : World) (d s j : Nat) (u : VarState)
    (hu : w.vars j = some u) :
    ∃ dd, (removeDependent w d s).vars j = some { u with dependents := dd } := by
  unfold removeDependent
  cases hd : w.vars d with
  | none => simp only [hd]; exact ⟨u.dependents, hu⟩
  | some v =>
    simp only [hd]
    by_cases hjd : j = d
    · subst hjd
      have huv : v = u := Option.some_inj.mp (hd.symm.trans hu)
      subst huv
      exact ⟨v.dependents.filter (· ≠ s), setVar_vars_self _ _ _⟩
    · exact ⟨u.dependents, by rw [setVar_vars_ne _ _ _ _ hjd]; exact hu⟩

/-- `dependents.add` touches only the target's dependents. -/
theorem addDependent_shape (w : World) (d s j : Nat) (u : VarState)
    (hu : w.vars j = some u) :
    ∃ dd, (addDependent w d s).vars j = some { u with dependents := dd } := by
  unfold addDependent
  cases hd : w.vars d with
  | none => simp only [hd]; exact ⟨u.dependents, hu⟩
  | some v =>
    simp only [hd]
    by_cases hjd : j = d
    · subst hjd
      have huv : v = u := Option.some_inj.mp (hd.symm.trans hu)
      subst huv
      exact ⟨_, setVar_vars_self _ _ _⟩
    · exact ⟨u.dependents, by rw [setVar_vars_ne _ _ _ _ hjd]; exact hu⟩

/-- The remove-loop of `setDependencies` touches only dependents fields. -/
theorem foldRemove_shape (s j : Nat) (deps : List Nat) :
    ∀ (w : World) (u : VarState), w.vars j = some u →
    ∃ dd, ((deps.foldl (fun acc d => removeDependent acc d s) w).vars j) =
      some { u with dependents := dd } := by
  induction deps with
  | nil => exact fun w u hu => ⟨u.dependents, hu⟩
  | cons d rest ih =>
    intro w u hu
    obtain ⟨dd, h⟩ := removeDependent_shape w d s j u hu
    obtain ⟨dd2, h2⟩ := ih _ _ h
    exact ⟨dd2, h2⟩

/-- The add-loop of `setDependencies` touches only dependents fields. -/
theorem foldAdd_shape (s j : Nat) (deps : List Nat) :
    ∀ (w : World) (u : VarState), w.vars j = some u →
    ∃ dd, ((deps.foldl (fun acc d => addDependent acc d s) w).vars j) =
      some { u with dependents := dd } := by
  induction deps with
  | nil => exact fun w u hu => ⟨u.dependents, hu⟩
  | cons d rest ih =>
    intro w u hu
    obtain ⟨dd, h⟩ := addDependent_shape w d s j u hu
    obtain ⟨dd2, h2⟩ := ih _ _ h
    exact ⟨dd2, h2⟩

/-- `setDependencies` touches, at most, dependents fields and the caller's
own dependency list. -/
theorem setDeps_shape (w : World) (i : Nat) (ds : List Nat) (j : Nat) (u : VarState)
    (hu : w.vars j = some u) :
    ∃ dd ds', (setDependencies w i ds).vars j =
      some { u with dependents := dd, dependencies := ds' } ∧
      (j ≠ i → ds' = u.dependencies) := by
  unfold setDependencies
  cases hvi : w.vars i with
  | none => simp only [hvi]; exact ⟨u.dependents, u.dependencies, hu, fun _ => rfl⟩
  | some vi =>
    simp only [hvi]
    obtain ⟨ddj, h1j⟩ := foldRemove_shape i j vi.dependencies w u hu
    obtain ⟨ddi, h1i⟩ := foldRemove_shape i i vi.dependencies w vi hvi
    simp only [h1i]
    by_cases hji : j = i
    · subst hji
      have : ddj = ddi := by
        have := h1j.symm.trans h1i
        exact congrArg VarState.dependents (Option.some_inj.mp this)
      obtain ⟨dd2, h3⟩ := foldAdd_shape j j ds _
        { vi with dependents := ddi, dependencies := ds } (setVar_vars_self _ _ _)
      refine ⟨dd2, ds, ?_, fun hne => absurd rfl hne⟩
      have huvi : u = vi := Option.some_inj.mp (hu.symm.trans hvi)
      subst huvi
      exact h3
    · have h2j : ((vi.dependencies.foldl (fun acc d => removeDependent acc d i) w).setVar i
          { { vi with dependents := ddi } with dependencies := ds }).vars j =
          some { u with dependents := ddj } := by
        rw [setVar_vars_ne _ _ _ _ hji]; exact h1j
      obtain ⟨dd2, h3⟩ := foldAdd_shape i j ds _ { u with dependents := ddj } h2j
      exact ⟨dd2, u.dependencies, h3, fun _ => rfl⟩

/-- `destroy()` of one variable touches other variables only in their
dependents and texturesDestroyed fields. -/
theorem destroyStep_vars_ne_shape (w : World) (k j : Nat) (h : j ≠ k) (u : VarState)
    (hu : w.vars j = some u) :
    ∃ dd td, (destroyStep w k).vars j =
      some { u with dependents := dd, texturesDestroyed := td } := by
  unfold destroyStep
  cases hk : w.vars k with
  | none => simp only [hk]; exact ⟨u.dependents, u.texturesDestroyed, hu⟩
  | some v =>
    simp only [hk]
    cases hdes : v.destroyed with
    | true =>
      simp only [hdes, if_true]
      exact ⟨u.dependents, u.texturesDestroyed, hu⟩
    | false =>
      simp only [hdes, Bool.false_eq_true, if_false]
      have hu1 : (w.setVar k { v with destroyed := true }).vars j = some u := by
        rw [setVar_vars_ne _ _ _ _ h]; exact hu
      obtain ⟨dd, td, h2⟩ := foldDestroy_shape k j v.dependencies _ u hu1
      obtain ⟨ddk, tdk, hk2⟩ := foldDestroy_shape k k v.dependencies
        (w.setVar k { v with destroyed := true })
        { v with destroyed := true } (setVar_vars_self w k _)
      simp only [hk2]
      cases hemp : ddk.isEmpty with
      | true =>
        simp only [hemp, if_true]
        obtain ⟨td2, h3⟩ := destroyTextures_shape _ k j _ h2
        obtain ⟨tdk2, hk3⟩ := destroyTextures_shape _ k k _ hk2
        simp only [hk3]
        rw [setVar_vars_ne _ _ _ _ h]
        exact ⟨dd, td2, h3⟩
      | false =>
        simp only [hemp, Bool.false_eq_true, if_false, hk2]
        rw [setVar_vars_ne _ _ _ _ h]
        exact ⟨dd, td, h2⟩

/-- Any world invariant preserved by every `compute()` call is preserved by
the dependency loop of `computeChain`. -/
theorem chainDepsAux_preserve (P : World → Prop) (f : World → Nat → List Nat → ChainRes)
    (hf : ∀ w d vis, P w → P (f w d vis).w) (self : Nat) :
    ∀ (ds : List Nat) (w : World) (vis : List Nat),
      P w → P (chainDepsAux f self w ds vis).w := by
  intro ds
  induction ds with
  | nil => intro w vis h; exact h
  | cons d rest ih =>
    intro w vis h
    unfold chainDepsAux
    by_cases hds : d = self
    · rw [if_pos hds]; exact ih _ _ h
    · rw [if_neg hds]
      by_cases hok : (f w d vis).ok = true
      · simp only [hok, if_true]
        exact ih _ _ (hf _ _ _ h)
      · simp only [hok, Bool.false_eq_true, if_false]
        exact hf _ _ _ h

/-- Any world invariant preserved by every `compute()` call is preserved by
a whole `computeChain` run. -/
theorem chainF_preserve (P : World → Prop)
    (hP : ∀ w k, P w → P (computeStep w k)) :
    ∀ (fuel : Nat) (w : World) (i : Nat) (vis : List Nat),
      P w → P (chainF fuel w i vis).w := by
  intro fuel
  induction fuel with
  | zero => intro w i vis h; exact h
  | succ fuel ih =>
    intro w i vis h
    unfold chainF
    by_cases hvis : vis.contains i = true
    · rw [if_pos hvis]; exact h
    · rw [if_neg hvis]
      cases hwi : w.vars i with
      | none => exact h
      | some v =>
        have hd := chainDepsAux_preserve P _ (fun w' d vis' => ih w' d vis') i
          v.dependencies w (i :: vis) h
        by_cases hok : (chainDepsAux (fun w' d vis' => chainF fuel w' d vis') i w
            v.dependencies (i :: vis)).ok = true
        · simp only [hok, if_true]
          exact hP _ _ hd
        · simp only [hok, Bool.false_eq_true, if_false]
          exact hd

/-- `fillTexture` on an initialized variable always throws. -/
theorem fillTexture_error_of_initialized (w : World) (i len : Nat) (v : VarState)
    (hv : w.vars i = some v) (hinit : v.initialized = true) :
    ∃ e, fillTexture w i len = .error e := by
  by_cases hlen : len = v.width * v.height * 4
  · exact ⟨errFillAfterInit v.name, by simp [fillTexture, hv, hlen, hinit]⟩
  · exact ⟨errFillLen v.name len (v.width * v.height * 4), by simp [fillTexture, hv, hlen]⟩

/-- `fillTextureFrom` on an initialized variable always throws. -/
theorem fillTextureFrom_error_of_initialized (w : World) (i src : Nat) (v : VarState)
    (hv : w.vars i = some v) (hinit : v.initialized = true) :
    ∃ e, fillTextureFrom w i src = .error e :=
  ⟨errFillAfterInit v.name, by simp [fillTextureFrom, hv, hinit]⟩

/-- `setInitialTexture` on an initialized variable always throws. -/
theorem setInitialTexture_error_of_initialized (w : World) (i t : Nat) (v : VarState)
    (hv : w.vars i = some v) (hinit : v.initialized = true) :
    ∃ e, setInitialTexture w i t = .error e :=
  ⟨errSetInitAfterInit v.name, by simp [setInitialTexture, hv, hinit]⟩

/-- `init()` on an initialized variable always throws. -/
theorem initVar_error_of_initialized (w : World) (i : Nat) (v : VarState)
    (hv : w.vars i = some v) (hinit : v.initialized = true) :
    initVar w i = .error (errAlreadyInit v.name) := by
  simp [initVar, hv, hinit]

/-- A successful `fillTexture` call touches no other variable. -/
theorem fillTexture_ok_vars_ne (w : World) (i len j : Nat) (h : j ≠ i) :
    ∀ w', fillTexture w i len = .ok w' → w'.vars j = w.vars j := by
  intro w' hw'
  unfold fillTexture at hw'
  cases hvi : w.vars i with
  | none => simp only [hvi, Except.ok.injEq] at hw'; rw [← hw']
  | some v =>
    simp only [hvi] at hw'
    by_cases hlen : len = v.width * v.height * 4
    · simp only [hlen, ne_eq, not_true_eq_false, if_false, ite_not, if_true] at hw'
      cases hinit : v.initialized with
      | true => simp only [hinit, if_true] at hw'; cases hw'
      | false =>
        simp only [hinit, Bool.false_eq_true, if_false] at hw'
        cases he : (ensureTextures w i).vars i with
        | none =>
          simp only [he, Except.ok.injEq] at hw'
          rw [← hw']
          exact ensure_vars_ne w i j h
        | some v1 =>
          simp only [he] at hw'
          cases hnp : v1.needsPingPong with
          | true =>
            simp only [hnp, if_true, Except.ok.injEq] at hw'
            rw [← hw']
            exact ensure_vars_ne w i j h
          | false =>
            simp only [hnp, Bool.false_eq_true, if_false, Except.ok.injEq] at hw'
            rw [← hw']
            exact ensure_vars_ne w i j h
    · simp only [hlen, ne_eq, not_false_eq_true, if_true] at hw'
      cases hw'

/-- A successful `fillTextureFrom` call touches no other variable. -/
theorem fillTextureFrom_ok_vars_ne (w : World) (i src j : Nat) (h : j ≠ i) :
    ∀ w', fillTextureFrom w i src = .ok w' → w'.vars j = w.vars j := by
  intro w' hw'
  unfold fillTextureFrom at hw'
  cases hvi : w.vars i with
  | none => simp only [hvi, Except.ok.injEq] at hw'; rw [← hw']
  | some v =>
    simp only [hvi] at hw'
    cases hinit : v.initialized with
    | true => simp only [hinit, if_true] at hw'; cases hw'
    | false =>
      simp only [hinit, Bool.false_eq_true, if_false] at hw'
      cases he : (ensureTextures w i).vars i with
      | none =>
        simp only [he, Except.ok.injEq] at hw'
        rw [← hw']
        exact ensure_vars_ne w i j h
      | some v1 =>
        simp only [he] at hw'
        cases hnp : v1.needsPingPong with
        | true =>
          simp only [hnp, if_true, Except.ok.injEq] at hw'
          rw [← hw']
          exact ensure_vars_ne w i j h
        | false =>
          simp only [hnp, Bool.false_eq_true, if_false, Except.ok.injEq] at hw'
          rw [← hw']
          exact ensure_vars_ne w i j h

/-- A successful `setInitialTexture` call touches no other variable. -/
theorem setInitialTexture_ok_vars_ne (w : World) (i t j : Nat) (h : j ≠ i) :
    ∀ w', setInitialTexture w i t = .ok w' → w'.vars j = w.vars j := by
  intro w' hw'
  unfold setInitialTexture at hw'
  cases hvi : w.vars i with
  | none => simp only [hvi, Except.ok.injEq] at hw'; rw [← hw']
  | some v =>
    simp only [hvi] at hw'
    cases hinit : v.initialized with
    | true => simp only [hinit, if_true] at hw'; cases hw'
    | false =>
      simp only [hinit, Bool.false_eq_true, if_false] at hw'
      by_cases hdim : (w.texDims.getD t (0, 0)).1 ≠ v.width ∨ (w.texDims.getD t (0, 0)).2 ≠ v.height
      · rw [if_pos hdim] at hw'; cases hw'
      · rw [if_neg hdim] at hw'
        simp only [Except.ok.injEq] at hw'
        rw [← hw']
        exact setVar_vars_ne _ _ _ _ h

/-- A successful `init()` call touches no other variable. -/
theorem initVar_ok_vars_ne (w : World) (i j : Nat) (h : j ≠ i) :
    ∀ w', initVar w i = .ok w' → w'.vars j = w.vars j := by
  intro w' hw'
  unfold initVar at hw'
  cases hvi : w.vars i with
  | none => simp only [hvi, Except.ok.injEq] at hw'; rw [← hw']
  | some v =>
    simp only [hvi] at hw'
    cases hinit : v.initialized with
    | true => simp only [hinit, if_true] at hw'; cases hw'
    | false =>
      simp only [hinit, Bool.false_eq_true, if_false, Except.ok.injEq] at hw'
      rw [← hw']
      obtain ⟨p, q, _, _, _, h4, _, _, _, _⟩ := initUnchecked_spec w i v hvi
      exact h4 j h

/-- Construction of a new variable cannot touch an existing variable id. -/
theorem mkVar_ok_vars_lt (w : World) (cfg : VarCfg) (j : Nat) (h : j < w.varsCount) :
    ∀ w', mkVar w cfg = .ok w' → w'.vars j = w.vars j := by
  intro w' hw'
  have hne : j ≠ w.varsCount := Nat.ne_of_lt h
  unfold mkVar at hw'
  cases hcfg : cfg.initialTexture with
  | none =>
    rw [hcfg] at hw'; cases hw'
    simp [Function.update_noteq hne]
  | some t =>
    rw [hcfg] at hw'
    have := setInitialTexture_ok_vars_ne _ w.varsCount t j hne w' hw'
    rw [this]
    simp [Function.update_noteq hne]

/-- A live, initialized variable's texture slots and ping-pong flag are
frozen by every public call; only destroying that variable itself moves it
to the destroyed state, with its slots still intact. -/
theorem step_frozen (w : World) (op : Op) (i : Nat) (hcnt : i < w.varsCount)
    (v : VarState) (hv : w.vars i = some v)
    (hinit : v.initialized = true) (hnd : v.destroyed = false) :
    ∃ v', (step w op).vars i = some v' ∧ v'.ping = v.ping ∧ v'.pong = v.pong ∧
      v'.needsPingPong = v.needsPingPong ∧
      ((v'.initialized = true ∧ v'.destroyed = false) ∨
       (v'.initialized = false ∧ v'.destroyed = true)) := by
  cases op with
  | mkExternalTex tw th =>
    exact ⟨v, hv, rfl, rfl, rfl, Or.inl ⟨hinit, hnd⟩⟩
  | newVar cfg =>
    cases hmk : mkVar w cfg with
    | ok w1 =>
      refine ⟨v, ?_, rfl, rfl, rfl, Or.inl ⟨hinit, hnd⟩⟩
      simp only [step, stepE, hmk]
      rw [mkVar_ok_vars_lt w cfg i hcnt w1 hmk]
      exact hv
    | error e =>
      exact ⟨v, by simp only [step, stepE, hmk]; exact hv, rfl, rfl, rfl,
        Or.inl ⟨hinit, hnd⟩⟩
  | fill i2 len =>
    by_cases hii : i2 = i
    · subst hii
      obtain ⟨e, he⟩ := fillTexture_error_of_initialized w i2 len v hv hinit
      exact ⟨v, by simp only [step, stepE, he]; exact hv, rfl, rfl, rfl,
        Or.inl ⟨hinit, hnd⟩⟩
    · cases hf : fillTexture w i2 len with
      | ok w1 =>
        refine ⟨v, ?_, rfl, rfl, rfl, Or.inl ⟨hinit, hnd⟩⟩
        simp only [step, stepE, hf]
        rw [fillTexture_ok_vars_ne w i2 len i (Ne.symm hii) w1 hf]
        exact hv
      | error e =>
        exact ⟨v, by simp only [step, stepE, hf]; exact hv, rfl, rfl, rfl,
          Or.inl ⟨hinit, hnd⟩⟩
  | fillFrom i2 src =>
    by_cases hii : i2 = i
    · subst hii
      obtain ⟨e, he⟩ := fillTextureFrom_error_of_initialized w i2 src v hv hinit
      exact ⟨v, by simp only [step, stepE, he]; exact hv, rfl, rfl, rfl,
        Or.inl ⟨hinit, hnd⟩⟩
    · cases hf : fillTextureFrom w i2 src with
      | ok w1 =>
        refine ⟨v, ?_, rfl, rfl, rfl, Or.inl ⟨hinit, hnd⟩⟩
        simp only [step, stepE, hf]
        rw [fillTextureFrom_ok_vars_ne w i2 src i (Ne.symm hii) w1 hf]
        exact hv
      | error e =>
        exact ⟨v, by simp only [step, stepE, hf]; exact hv, rfl, rfl, rfl,
          Or.inl ⟨hinit, hnd⟩⟩
  | setInitialTex i2 t =>
    by_cases hii : i2 = i
    · subst hii
      obtain ⟨e, he⟩ := setInitialTexture_error_of_initialized w i2 t v hv hinit
      exact ⟨v, by simp only [step, stepE, he]; exact hv, rfl, rfl, rfl,
        Or.inl ⟨hinit, hnd⟩⟩
    · cases hf : setInitialTexture w i2 t with
      | ok w1 =>
        refine ⟨v, ?_, rfl, rfl, rfl, Or.inl ⟨hinit, hnd⟩⟩
        simp only [step, stepE, hf]
        rw [setInitialTexture_ok_vars_ne w i2 t i (Ne.symm hii) w1 hf]
        exact hv
      | error e =>
        exact ⟨v, by simp only [step, stepE, hf]; exact hv, rfl, rfl, rfl,
          Or.inl ⟨hinit, hnd⟩⟩
  | setDeps i2 ds =>
    obtain ⟨dd, ds', hsh, _⟩ := setDeps_shape w i2 ds i v hv
    exact ⟨{ v with dependents := dd, dependencies := ds' },
      by simp only [step, stepE]; exact hsh, rfl, rfl, rfl, Or.inl ⟨hinit, hnd⟩⟩
  | setUni i2 key val =>
    by_cases hii : i2 = i
    · subst hii
      refine ⟨{ v with uniforms := setUniformVal v.uniforms key val }, ?_, rfl, rfl, rfl,
        Or.inl ⟨hinit, hnd⟩⟩
      simp only [step, stepE, setUniform, hv]
      exact setVar_vars_self _ _ _
    · refine ⟨v, ?_, rfl, rfl, rfl, Or.inl ⟨hinit, hnd⟩⟩
      simp only [step, stepE, setUniform]
      cases hvi2 : w.vars i2 with
      | none => exact hv
      | some u => rw [setVar_vars_ne _ _ _ _ (Ne.symm hii)]; exact hv
  | initOp i2 =>
    by_cases hii : i2 = i
    · subst hii
      have he := initVar_error_of_initialized w i2 v hv hinit
      exact ⟨v, by simp only [step, stepE, he]; exact hv, rfl, rfl, rfl,
        Or.inl ⟨hinit, hnd⟩⟩
    · cases hf : initVar w i2 with
      | ok w1 =>
        refine ⟨v, ?_, rfl, rfl, rfl, Or.inl ⟨hinit, hnd⟩⟩
        simp only [step, stepE, hf]
        rw [initVar_ok_vars_ne w i2 i (Ne.symm hii) w1 hf]
        exact hv
      | error e =>
        exact ⟨v, by simp only [step, stepE, hf]; exact hv, rfl, rfl, rfl,
          Or.inl ⟨hinit, hnd⟩⟩
  | computeOp i2 =>
    by_cases hii : i2 = i
    · subst hii
      refine ⟨{ v with currentIndex := 1 - v.currentIndex }, ?_, rfl, rfl, rfl,
        Or.inl ⟨hinit, hnd⟩⟩
      simp only [step, stepE]
      rw [computeStep_initialized w i2 v hv hinit]
      simp [Function.update_same]
    · refine ⟨v, ?_, rfl, rfl, rfl, Or.inl ⟨hinit, hnd⟩⟩
      simp only [step, stepE]
      rw [computeStep_vars_ne w i2 i (Ne.symm hii)]
      exact hv
  | computeOnceOp i2 =>
    by_cases hii : i2 = i
    · subst hii
      have he := initVar_error_of_initialized w i2 v hv hinit
      refine ⟨v, ?_, rfl, rfl, rfl, Or.inl ⟨hinit, hnd⟩⟩
      simp only [step, stepE, computeOnceStep, he]
      exact hv
    · cases hf : initVar w i2 with
      | ok w1 =>
        have h1 : w1.vars i = some v := by
          rw [initVar_ok_vars_ne w i2 i (Ne.symm hii) w1 hf]; exact hv
        have h2 : (computeStep w1 i2).vars i = some v := by
          rw [computeStep_vars_ne w1 i2 i (Ne.symm hii)]; exact h1
        obtain ⟨dd, td, hsh⟩ :=
          destroyStep_vars_ne_shape (computeStep w1 i2) i2 i (Ne.symm hii) v h2
        refine ⟨{ v with dependents := dd, texturesDestroyed := td }, ?_, rfl, rfl, rfl,
          Or.inl ⟨hinit, hnd⟩⟩
        simp only [step, stepE, computeOnceStep, hf]
        exact hsh
      | error e =>
        refine ⟨v, ?_, rfl, rfl, rfl, Or.inl ⟨hinit, hnd⟩⟩
        simp only [step, stepE, computeOnceStep, hf]
        exact hv
  | computeChainOp i2 =>
    have hP := chainF_preserve
      (fun w' => ∃ v', w'.vars i = some v' ∧ v'.ping = v.ping ∧ v'.pong = v.pong ∧
        v'.needsPingPong = v.needsPingPong ∧ v'.initialized = true ∧ v'.destroyed = false)
      (fun w' k hPw => by
        obtain ⟨v', hv', hp, hq, hn, hi', hd'⟩ := hPw
        by_cases hki : k = i
        · subst hki
          refine ⟨{ v' with currentIndex := 1 - v'.currentIndex }, ?_, hp, hq, hn, hi', hd'⟩
          rw [computeStep_initialized w' k v' hv' hi']
          simp [Function.update_same]
        · refine ⟨v', ?_, hp, hq, hn, hi', hd'⟩
          rw [computeStep_vars_ne w' k i fun hh => hki hh.symm]
          exact hv')
      (w.varsCount + 1) w i2 [] ⟨v, hv, rfl, rfl, rfl, hinit, hnd⟩
    obtain ⟨v', hv', hp, hq, hn, hi', hd'⟩ := hP
    exact ⟨v', by simp only [step, stepE]; exact hv', hp, hq, hn, Or.inl ⟨hi', hd'⟩⟩
  | destroyOp i2 =>
    by_cases hii : i2 = i
    · subst hii
      obtain ⟨v1, hv1, h1, h2, h3, h4, h5, h6, h7, h8, h9, h10, h11⟩ :=
        destroyStep_resets w i2 v hv hnd
      exact ⟨v1, by simp only [step, stepE]; exact hv1, h6, h7, h8, Or.inr ⟨h1, h3⟩⟩
    · obtain ⟨dd, td, hsh⟩ := destroyStep_vars_ne_shape w i2 i (Ne.symm hii) v hv
      exact ⟨{ v with dependents := dd, texturesDestroyed := td },
        by simp only [step, stepE]; exact hsh, rfl, rfl, rfl, Or.inl ⟨hinit, hnd⟩⟩

/-! ## C3 — texture count of non-self-dependent variables -/

/-- Aliased texture slots imply `getCurrentTexture() === getAlternateTexture()`. -/
theorem current_eq_alternate_of_aliased (w : World) (i : Nat) (v : VarState)
    (hv : w.vars i = some v) (hpq : v.ping = v.pong) :
    getCurrentTexture w i = getAlternateTexture w i := by
  unfold getCurrentTexture getAlternateTexture
  simp only [hv]
  by_cases h0 : v.currentIndex = 0 <;> simp [h0, hpq]

/-- **C3 (counterexample).** A variable that never had a self-dependency but
was seeded with `fillTexture` before `init()` holds TWO backing textures
(ping-pong need defaults to true until `init()` computes it), and
`getCurrentTexture()` differs from `getAlternateTexture()`. -/
theorem single_texture_counterexample :
    (∃ v, w3c.vars 0 = some v ∧ v.dependencies = [] ∧
      v.ping = some 0 ∧ v.pong = some 1) ∧
    w3c.texDims.length = 2 ∧
    getCurrentTexture w3c 0 ≠ getAlternateTexture w3c 0 := by
  exact ⟨⟨_, rfl, rfl, rfl, rfl⟩, rfl, by decide⟩

/-- **C3 (amended).** For a variable whose dependency list does not include
itself AND that is not seeded before `init()` (its pong slot still
unallocated when `init()` runs): `init()` aliases both slots to one backing
texture with ping-pong off; every public call keeps the two slots aliased
while the variable lives; and aliased slots make `getCurrentTexture()` and
`getAlternateTexture()` return the same texture. -/
theorem single_texture_amended (w : World) (i : Nat) :
    (∀ v, w.vars i = some v → v.pong = none → v.dependencies.contains i = false →
      v.initialized = false →
      ∃ v1 p, initVar w i = .ok (initUnchecked w i) ∧
        (initUnchecked w i).vars i = some v1 ∧
        v1.ping = some p ∧ v1.pong = some p ∧ v1.needsPingPong = false ∧
        v1.initialized = true) ∧
    (∀ v, w.vars i = some v → v.ping = v.pong →
      getCurrentTexture w i = getAlternateTexture w i) ∧
    (∀ op v, i < w.varsCount → w.vars i = some v → v.ping = v.pong →
      v.initialized = true → v.destroyed = false →
      ∃ v', (step w op).vars i = some v' ∧ v'.ping = v'.pong ∧
        getCurrentTexture (step w op) i = getAlternateTexture (step w op) i) := by
  refine ⟨fun v hv hq hc hni => ?_, fun v hv hpq => ?_, fun op v hcnt hv hpq hinit hnd => ?_⟩
  · obtain ⟨p, q, h1, _, _, _, _, _, h7, _⟩ := initUnchecked_spec w i v hv
    have hqp : q = p := h7 hc hq
    refine ⟨_, p, by simp [initVar, hv, hni], h1, ?_, ?_, ?_, rfl⟩
    · rfl
    · rw [hqp]
    · exact hc
  · exact current_eq_alternate_of_aliased w i v hv hpq
  · obtain ⟨v', hv', hp, hq', _, _⟩ := step_frozen w op i hcnt v hv hinit hnd
    have hpq' : v'.ping = v'.pong := by rw [hp, hq', hpq]
    exact ⟨v', hv', hpq',
      current_eq_alternate_of_aliased (step w op) i v' hv' hpq'⟩

theorem single_texture_amended_witness :
    (∃ v1 p, initVar w3f 0 = .ok (initUnchecked w3f 0) ∧
      (initUnchecked w3f 0).vars 0 = some v1 ∧
      v1.ping = some p ∧ v1.pong = some p ∧ v1.needsPingPong = false ∧
      v1.initialized = true) ∧
    getCurrentTexture w3i 0 = getAlternateTexture w3i 0 ∧
    (∃ v', (step w3i (Op.computeOp 0)).vars 0 = some v' ∧ v'.ping = v'.pong ∧
      getCurrentTexture (step w3i (Op.computeOp 0)) 0 =
        getAlternateTexture (step w3i (Op.computeOp 0)) 0) := by
  refine ⟨?_, ?_, ?_⟩
  · exact (single_texture_amended w3f 0).1 _ rfl rfl rfl rfl
  · exact (single_texture_amended w3i 0).2.1 _ rfl rfl
  · exact (single_texture_amended w3i 0).2.2 (Op.computeOp 0) _ (by decide) rfl rfl rfl rfl

/-- After `n` computes, an initialized variable has only its current index
changed, alternating with the parity of `n`. -/
theorem computeN_state (w : World) (i : Nat) (v : VarState)
    (hv : w.vars i = some v) (hinit : v.initialized = true) (hidx : v.currentIndex ≤ 1) :
    ∀ n, (computeN n w i).vars i =
      some { v with currentIndex := (v.currentIndex + n) % 2 } := by
  intro n
  induction n with
  | zero =>
    have : (v.currentIndex + 0) % 2 = v.currentIndex := by omega
    rw [this]
    simpa using hv
  | succ n ih =>
    show (computeStep (computeN n w i) i).vars i = _
    rw [computeStep_initialized (computeN n w i) i _ ih hinit]
    simp only [Function.update_same]
    have : 1 - (v.currentIndex + n) % 2 = (v.currentIndex + (n + 1)) % 2 := by omega
    simp [this]

/-- **C1.** Each `compute()` renders the pass into the non-current backing
texture and then flips the current index, so that immediately afterwards
`getCurrentTexture()` returns the just-written buffer and
`getAlternateTexture()` the previously current one; `init()` with a
self-dependency allocates two distinct buffers; consequently, for a
variable whose dependency list includes itself, `getCurrentTexture()` after
an odd number of computes differs from after an even number. -/
theorem pingpong_spec (w : World) (i : Nat) (v : VarState) (hv : w.vars i = some v) :
    (v.initialized = true →
      (computeStep w i).passLog = w.passLog ++
        [PassEv.mk i ((getAlternateTexture w i).getD 0) false v.uniforms] ∧
      getCurrentTexture (computeStep w i) i = getAlternateTexture w i ∧
      getAlternateTexture (computeStep w i) i = getCurrentTexture w i) ∧
    (v.initialized = false → v.dependencies.contains i = true → v.pong = none →
      (∀ a, v.ping = some a → a < w.texDims.length) →
      ∃ v1 p q, initVar w i = .ok (initUnchecked w i) ∧
        (initUnchecked w i).vars i = some v1 ∧
        v1.ping = some p ∧ v1.pong = some q ∧ p ≠ q ∧
        v1.needsPingPong = true ∧ v1.initialized = true) ∧
    (∀ p q, v.initialized = true → v.currentIndex ≤ 1 →
      v.ping = some p → v.pong = some q → p ≠ q →
      ∀ m n, Odd m → Even n →
        getCurrentTexture (computeN m w i) i ≠ getCurrentTexture (computeN n w i) i) := by
  refine ⟨fun hinit => ?_, fun hni hc hq hbound => ?_, fun p q hinit hidx hp hq hpq => ?_⟩
  · have hc := computeStep_initialized w i v hv hinit
    refine ⟨?_, ?_, ?_⟩
    · rw [hc]
      simp [getAlternateTexture, hv]
    · rw [hc]
      unfold getCurrentTexture getAlternateTexture
      simp only [hv, Function.update_same]
      by_cases h0 : v.currentIndex = 0
      · simp [h0]
      · simp [h0, Nat.sub_eq_zero_of_le (Nat.one_le_iff_ne_zero.mpr h0)]
    · rw [hc]
      unfold getCurrentTexture getAlternateTexture
      simp only [hv, Function.update_same]
      by_cases h0 : v.currentIndex = 0
      · simp [h0]
      · simp [h0, Nat.sub_eq_zero_of_le (Nat.one_le_iff_ne_zero.mpr h0)]
  · obtain ⟨p, q, h1, _, _, _, h5, _, _, h8⟩ := initUnchecked_spec w i v hv
    obtain ⟨hqge, hpn⟩ := h8 hc hq
    have hpq : p ≠ q := by
      cases hping : v.ping with
      | none => exact hpn hping
      | some a =>
        have hpa := h5 a hping
        have := hbound a hping
        omega
    exact ⟨_, p, q, by simp [initVar, hv, hni], h1, rfl, rfl, hpq, hc, rfl⟩
  · intro m n hm hn
    have hsm := computeN_state w i v hv hinit hidx m
    have hsn := computeN_state w i v hv hinit hidx n
    have hparm : (v.currentIndex + m) % 2 ≠ (v.currentIndex + n) % 2 := by
      obtain ⟨a, ha⟩ := hm
      obtain ⟨b, hb⟩ := hn
      omega
    simp only [getCurrentTexture, hsm, hsn]
    by_cases h0m : (v.currentIndex + m) % 2 = 0
    · rw [if_pos h0m, if_neg (fun hh => hparm (h0m.trans hh.symm)), hp, hq]
      exact fun hh => hpq (Option.some_inj.mp hh)
    · by_cases h0n : (v.currentIndex + n) % 2 = 0
      · rw [if_neg h0m, if_pos h0n, hp, hq]
        exact fun hh => hpq (Option.some_inj.mp hh).symm
      · exact absurd (by omega : (v.currentIndex + m) % 2 = (v.currentIndex + n) % 2) hparm

theorem pingpong_spec_witness :
    (getCurrentTexture (computeStep w1a 0) 0 = getAlternateTexture w1a 0 ∧
     getAlternateTexture (computeStep w1a 0) 0 = getCurrentTexture w1a 0) ∧
    (∃ v1 p q, initVar w1b 0 = .ok (initUnchecked w1b 0) ∧
      (initUnchecked w1b 0).vars 0 = some v1 ∧
      v1.ping = some p ∧ v1.pong = some q ∧ p ≠ q ∧
      v1.needsPingPong = true ∧ v1.initialized = true) ∧
    getCurrentTexture (computeN 1 w1a 0) 0 ≠ getCurrentTexture (computeN 2 w1a 0) 0 := by
  have hva : w1a.vars 0 = some v1a := by rfl
  have hvb : w1b.vars 0 = some v1b := by rfl
  have ha := pingpong_spec w1a 0 v1a hva
  have hb := pingpong_spec w1b 0 v1b hvb
  refine ⟨⟨(ha.1 rfl).2.1, (ha.1 rfl).2.2⟩, ?_, ?_⟩
  · exact hb.2.1 rfl (by decide) rfl (fun a h => Option.noConfusion h)
  · exact ha.2.2 0 1 rfl (by decide) rfl rfl (by decide) 1 2 (by decide) (by decide)

/-! ## C2 — texture release discipline -/

/-- `removeDependent` touches no variable but its target. -/
theorem removeDependent_vars_ne (w : World) (d s j : Nat) (h : j ≠ d) :
    (removeDependent w d s).vars j = w.vars j := by
  unfold removeDependent
  cases hd : w.vars d with
  | none => rfl
  | some v => exact setVar_vars_ne _ _ _ _ h

/-- `destroyTextures()` touches no variable but its own. -/
theorem destroyTextures_vars_ne (w : World) (k j : Nat) (h : j ≠ k) :
    (destroyTexturesStep w k).vars j = w.vars j := by
  unfold destroyTexturesStep
  cases hk : w.vars k with
  | none => rfl
  | some v =>
    cases htd : v.texturesDestroyed with
    | true => simp [htd]
    | false =>
      simp only [htd, Bool.false_eq_true, if_false]
      exact Function.update_noteq h _ _

/-- One destroy-loop iteration touches no variable but the visited one. -/
theorem destroyDepVisit_vars_ne (s d j : Nat) (w : World) (h : j ≠ d) :
    (destroyDepVisit s w d).vars j = w.vars j := by
  unfold destroyDepVisit removeDependent
  cases hd : w.vars d with
  | none => simp only [hd]
  | some v =>
    simp only [hd, setVar_vars_self]
    split
    · rw [destroyTextures_vars_ne _ _ _ h, setVar_vars_ne _ _ _ _ h]
    · exact setVar_vars_ne _ _ _ _ h

/-- `destroyTextures()` always leaves the flag set. -/
theorem destroyTextures_flag (w : World) (i : Nat) (u : VarState)
    (hu : w.vars i = some u) :
    ∃ u1, (destroyTexturesStep w i).vars i = some u1 ∧
      u1.texturesDestroyed = true := by
  unfold destroyTexturesStep
  simp only [hu]
  cases htd : u.texturesDestroyed with
  | true =>
    simp only [htd, if_true]
    exact ⟨u, hu, htd⟩
  | false =>
    simp only [htd, Bool.false_eq_true, if_false]
    exact ⟨{ u with texturesDestroyed := true }, Function.update_same _ _ _, rfl⟩

/-- A destroy-loop iteration never releases the textures of a variable that
still lists a surviving dependent `l` (one distinct from the destroyer). -/
theorem destroyDepVisit_keep_dep (k l j : Nat) (hlk : l ≠ k) (d : Nat)
    (w : World) (u : VarState) (hu : w.vars j = some u)
    (htd : u.texturesDestroyed = false) (hl : l ∈ u.dependents) :
    ∃ u1, (destroyDepVisit k w d).vars j = some u1 ∧
      u1.texturesDestroyed = false ∧ l ∈ u1.dependents := by
  by_cases hjd : j = d
  · subst hjd
    unfold destroyDepVisit removeDependent
    simp only [hu, setVar_vars_self]
    have hlmem : l ∈ u.dependents.filter (· ≠ k) :=
      List.mem_filter.mpr ⟨hl, by simpa using hlk⟩
    split
    · next hcond =>
        exfalso
        simp only [Bool.and_eq_true] at hcond
        obtain ⟨-, hEmp⟩ := hcond
        have hEmp2 : (u.dependents.filter (· ≠ k)).isEmpty = true := hEmp
        rw [List.isEmpty_iff] at hEmp2
        rw [hEmp2] at hlmem
        cases hlmem
    · exact ⟨_, setVar_vars_self _ _ _, htd, hlmem⟩
  · rw [destroyDepVisit_vars_ne k d j w hjd]
    exact ⟨u, hu, htd, hl⟩

/-- The whole destroy loop never releases the textures of a variable that
still lists a surviving dependent. -/
theorem foldDestroy_keep_dep (k l j : Nat) (hlk : l ≠ k) (deps : List Nat) :
    ∀ (w : World) (u : VarState), w.vars j = some u →
    u.texturesDestroyed = false → l ∈ u.dependents →
    ∃ u1, ((deps.foldl (destroyDepVisit k) w).vars j) = some u1 ∧
      u1.texturesDestroyed = false ∧ l ∈ u1.dependents := by
  induction deps with
  | nil => exact fun w u hu htd hl => ⟨u, hu, htd, hl⟩
  | cons d rest ih =>
    intro w u hu htd hl
    obtain ⟨u1, h1, h2, h3⟩ := destroyDepVisit_keep_dep k l j hlk d w u hu htd hl
    exact ih _ _ h1 h2 h3

/-- The `texturesDestroyed` flag is never reset by a destroy-loop
iteration. -/
theorem destroyDepVisit_T_mono (k d j : Nat) (w : World) (u : VarState)
    (hu : w.vars j = some u) (htd : u.texturesDestroyed = true) :
    ∃ u1, (destroyDepVisit k w d).vars j = some u1 ∧
      u1.texturesDestroyed = true := by
  by_cases hjd : j = d
  · subst hjd
    unfold destroyDepVisit removeDependent
    simp only [hu, setVar_vars_self]
    split
    · next hcond =>
        exfalso
        simp only [Bool.and_eq_true] at hcond
        obtain ⟨⟨-, hnt⟩, -⟩ := hcond
        have hnt2 : (!u.texturesDestroyed) = true := hnt
        rw [htd] at hnt2
        exact Bool.noConfusion hnt2
    · exact ⟨_, setVar_vars_self _ _ _, htd⟩
  · rw [destroyDepVisit_vars_ne k d j w hjd]
    exact ⟨u, hu, htd⟩

/-- The `texturesDestroyed` flag survives the whole destroy loop. -/
theorem foldDestroy_T_mono (k j : Nat) (deps : List Nat) :
    ∀ (w : World) (u : VarState), w.vars j = some u →
    u.texturesDestroyed = true →
    ∃ u1, ((deps.foldl (destroyDepVisit k) w).vars j) = some u1 ∧
      u1.texturesDestroyed = true := by
  induction deps with
  | nil => exact fun w u hu htd => ⟨u, hu, htd⟩
  | cons d rest ih =>
    intro w u hu htd
    obtain ⟨u1, h1, h2⟩ := destroyDepVisit_T_mono k d j w u hu htd
    exact ih _ _ h1 h2

/-- Visiting a destroyed dependency whose only listed dependent is the
destroyer releases its textures (sets the flag). -/
theorem destroyDepVisit_establish (k j : Nat) (w : World) (u : VarState)
    (hu : w.vars j = some u) (hdes : u.destroyed = true)
    (hfil : u.dependents.filter (· ≠ k) = []) :
    ∃ u1, (destroyDepVisit k w j).vars j = some u1 ∧
      u1.texturesDestroyed = true := by
  cases htd : u.texturesDestroyed with
  | true => exact destroyDepVisit_T_mono k j j w u hu htd
  | false =>
    unfold destroyDepVisit removeDependent
    simp only [hu, setVar_vars_self]
    have hcond : (u.destroyed && !u.texturesDestroyed &&
        (u.dependents.filter (· ≠ k)).isEmpty) = true := by
      rw [hdes, htd, hfil]
      rfl
    split
    · exact destroyTextures_flag _ j _ (setVar_vars_self _ _ _)
    · next hcond2 => exact absurd hcond hcond2
  

/-- If the destroyer appears in the dependency list of a destroyed
dependency whose only dependent is the destroyer, the loop releases that
dependency's textures. -/
theorem foldDestroy_establish (k j : Nat) (deps : List Nat) :
    ∀ (w : World) (u : VarState), j ∈ deps → w.vars j = some u →
    u.destroyed = true → u.dependents.filter (· ≠ k) = [] →
    ∃ u1, ((deps.foldl (destroyDepVisit k) w).vars j) = some u1 ∧
      u1.texturesDestroyed = true := by
  induction deps with
  | nil =>
    intro w u hmem
    cases hmem
  | cons d rest ih =>
    intro w u hmem hu hdes hfil
    by_cases hdj : d = j
    · subst hdj
      obtain ⟨u1, h1, h2⟩ := destroyDepVisit_establish k d w u hu hdes hfil
      exact foldDestroy_T_mono k d rest _ u1 h1 h2
    · have hmem2 : j ∈ rest :=
        (List.mem_cons.mp hmem).resolve_left (fun hh => hdj hh.symm)
      have hu2 : (destroyDepVisit k w d).vars j = some u := by
        rw [destroyDepVisit_vars_ne k d j w (fun hh => hdj hh.symm)]
        exact hu
      exact ih _ _ hmem2 hu2 hdes hfil

/-- A destroy-loop iteration never releases the textures of a variable that
is not itself destroyed: the cascade guard requires `dep.destroyed`. -/
theorem destroyDepVisit_keep_live (k d j : Nat) (w : World) (u : VarState)
    (hu : w.vars j = some u) (hdes : u.destroyed = false)
    (htd : u.texturesDestroyed = false) :
    ∃ u1, (destroyDepVisit k w d).vars j = some u1 ∧
      u1.destroyed = false ∧ u1.texturesDestroyed = false := by
  by_cases hjd : j = d
  · subst hjd
    unfold destroyDepVisit removeDependent
    simp only [hu, setVar_vars_self]
    split
    · next hcond =>
        exfalso
        simp only [Bool.and_eq_true] at hcond
        obtain ⟨⟨hd1, -⟩, -⟩ := hcond
        have hd2 : u.destroyed = true := hd1
        rw [hdes] at hd2
        exact Bool.noConfusion hd2
    · exact ⟨_, setVar_vars_self _ _ _, hdes, htd⟩
  · rw [destroyDepVisit_vars_ne k d j w hjd]
    exact ⟨u, hu, hdes, htd⟩

/-- The whole destroy loop never releases the textures of a variable that is
not itself destroyed. -/
theorem foldDestroy_keep_live (k j : Nat) (deps : List Nat) :
    ∀ (w : World) (u : VarState), w.vars j = some u →
    u.destroyed = false → u.texturesDestroyed = false →
    ∃ u1, ((deps.foldl (destroyDepVisit k) w).vars j) = some u1 ∧
      u1.destroyed = false ∧ u1.texturesDestroyed = false := by
  induction deps with
  | nil => exact fun w u hu hdes htd => ⟨u, hu, hdes, htd⟩
  | cons d rest ih =>
    intro w u hu hdes htd
    obtain ⟨u1, h1, h2, h3⟩ := destroyDepVisit_keep_live k d j w u hu hdes htd
    exact ih _ _ h1 h2 h3

/-- The destroy loop leaves every variable outside the dependency list
untouched. -/
theorem foldDestroy_vars_ne (k j : Nat) (deps : List Nat) :
    ∀ w : World, j ∉ deps →
      ((deps.foldl (destroyDepVisit k) w).vars j) = w.vars j := by
  induction deps with
  | nil => exact fun w _ => rfl
  | cons d rest ih =>
    intro w hj
    have hjd : j ≠ d := fun hh => hj (hh ▸ List.mem_cons_self d rest)
    have hjr : j ∉ rest := fun hh => hj (List.mem_cons_of_mem d hh)
    rw [List.foldl_cons, ih _ hjr, destroyDepVisit_vars_ne k d j w hjd]

/-- **C2 (counterexample).** After destroying the last live dependent of
the already-destroyed `a`, the release step runs (`texturesDestroyed`
becomes true) but no texture is physically freed: `destroyTextures()`
frees at most the alternate buffer, and a variable without a
self-dependency has none, so its single backing texture leaks past the
release point instead of being destroyed. -/
theorem texture_release_counterexample :
    ∃ va, w2c.vars 0 = some va ∧ va.destroyed = true ∧ va.dependents = [] ∧
      va.texturesDestroyed = true ∧ va.ping = some 0 ∧ va.pong = some 0 ∧
      w2c.freed = [] :=
  ⟨_, rfl, rfl, rfl, rfl, rfl, rfl, rfl⟩

/-- **C2 (amended).** The release *event* fires exactly when a variable is
destroyed with an empty dependents set, in both directions. Keep cases: a
variable still listed as dependent-on by a survivor other than the
destroyer keeps its textures; the destroyer *itself*, while a live
dependent other than itself still lists it, is marked destroyed but keeps
its textures; a dependency that is not itself destroyed is never released
(`destroy()` releases a dependency's textures *only if* it is already
destroyed with zero remaining dependents); and a variable that is neither
the destroyer nor one of its dependencies is untouched entirely. Release
cases: destroying the last listed dependent of an already-destroyed
dependency marks its textures destroyed, as does a first `destroy()` with
no dependencies and no dependents. But what is physically freed at that
event is at most the alternate (non-current) buffer: a freed texture id is
always the alternate texture, and a variable without ping-pong (no
self-dependency) frees nothing at all. -/
theorem texture_release_amended (w : World) (k : Nat) (kv : VarState)
    (hk : w.vars k = some kv) (hkd : kv.destroyed = false) :
    (∀ j u l, j ≠ k → w.vars j = some u → u.texturesDestroyed = false →
      l ∈ u.dependents → l ≠ k →
      ∃ u1, (destroyStep w k).vars j = some u1 ∧
        u1.texturesDestroyed = false) ∧
    (∀ l, l ∈ kv.dependents → l ≠ k → kv.texturesDestroyed = false →
      ∃ u1, (destroyStep w k).vars k = some u1 ∧
        u1.destroyed = true ∧ u1.texturesDestroyed = false) ∧
    (∀ j u, j ≠ k → w.vars j = some u → u.destroyed = false →
      u.texturesDestroyed = false →
      ∃ u1, (destroyStep w k).vars j = some u1 ∧
        u1.destroyed = false ∧ u1.texturesDestroyed = false) ∧
    (∀ j, j ≠ k → j ∉ kv.dependencies →
      (destroyStep w k).vars j = w.vars j) ∧
    (∀ j u, j ∈ kv.dependencies → j ≠ k → w.vars j = some u →
      u.destroyed = true → u.dependents.filter (· ≠ k) = [] →
      ∃ u1, (destroyStep w k).vars j = some u1 ∧
        u1.texturesDestroyed = true) ∧
    (kv.dependencies = [] → kv.dependents = [] →
      ∃ u1, (destroyStep w k).vars k = some u1 ∧
        u1.texturesDestroyed = true) ∧
    (∀ i t, t ∈ (destroyTexturesStep w i).freed →
      t ∈ w.freed ∨ getAlternateTexture w i = some t) ∧
    (∀ i u, w.vars i = some u → u.needsPingPong = false →
      (destroyTexturesStep w i).freed = w.freed) := by
  refine ⟨fun j u l hjk hju htd hl hlk => ?_,
    fun l hl hlk htdk => ?_,
    fun j u hjk hju hdes htd => ?_,
    fun j hjk hjdep => ?_,
    fun j u hjdep hjk hju hdes hfil => ?_,
    fun hdeps hdept => ?_, fun i t ht => ?_, fun i u hiu hnp => ?_⟩
  · unfold destroyStep
    simp only [hk, hkd, Bool.false_eq_true, if_false]
    have hu1 : (w.setVar k { kv with destroyed := true }).vars j = some u := by
      rw [setVar_vars_ne _ _ _ _ hjk]
      exact hju
    obtain ⟨u1, h1, h2, h3⟩ := foldDestroy_keep_dep k l j hlk kv.dependencies _ u hu1 htd hl
    obtain ⟨ddk, tdk, hk2⟩ := foldDestroy_shape k k kv.dependencies
      (w.setVar k { kv with destroyed := true }) { kv with destroyed := true }
      (setVar_vars_self _ _ _)
    simp only [hk2]
    cases hemp : ddk.isEmpty with
    | true =>
      simp only [hemp, if_true]
      have h1a : (destroyTexturesStep (kv.dependencies.foldl (destroyDepVisit k)
          (w.setVar k { kv with destroyed := true })) k).vars j = some u1 := by
        rw [destroyTextures_vars_ne _ _ _ hjk]
        exact h1
      obtain ⟨td2, hk3⟩ := destroyTextures_shape _ k k _ hk2
      simp only [hk3]
      rw [setVar_vars_ne _ _ _ _ hjk]
      exact ⟨u1, h1a, h2⟩
    | false =>
      simp only [hemp, Bool.false_eq_true, if_false, hk2]
      rw [setVar_vars_ne _ _ _ _ hjk]
      exact ⟨u1, h1, h2⟩
  · unfold destroyStep
    simp only [hk, hkd, Bool.false_eq_true, if_false]
    have hu1 : (w.setVar k { kv with destroyed := true }).vars k =
        some { kv with destroyed := true } := setVar_vars_self _ _ _
    obtain ⟨dd, td, hk2⟩ := foldDestroy_shape k k kv.dependencies _ _ hu1
    have htdk2 : ({ kv with destroyed := true } : VarState).texturesDestroyed = false := htdk
    have hl2 : l ∈ ({ kv with destroyed := true } : VarState).dependents := hl
    obtain ⟨u1, h1, h2, h3⟩ :=
      foldDestroy_keep_dep k l k hlk kv.dependencies _ _ hu1 htdk2 hl2
    rw [hk2] at h1
    have hu1eq : { kv with
        destroyed := true
        dependents := dd
        texturesDestroyed := td } = u1 := Option.some_inj.mp h1
    have hddl : l ∈ dd := by rw [← hu1eq] at h3; exact h3
    have htd2 : td = false := by rw [← hu1eq] at h2; exact h2
    simp only [hk2]
    cases hemp : dd.isEmpty with
    | true =>
      exfalso
      rw [List.isEmpty_iff] at hemp
      rw [hemp] at hddl
      cases hddl
    | false =>
      simp only [hemp, Bool.false_eq_true, if_false, hk2]
      exact ⟨_, setVar_vars_self _ _ _, rfl, htd2⟩
  · unfold destroyStep
    simp only [hk, hkd, Bool.false_eq_true, if_false]
    have hu1 : (w.setVar k { kv with destroyed := true }).vars j = some u := by
      rw [setVar_vars_ne _ _ _ _ hjk]
      exact hju
    obtain ⟨u1, h1, h2, h3⟩ := foldDestroy_keep_live k j kv.dependencies _ u hu1 hdes htd
    obtain ⟨ddk, tdk, hk2⟩ := foldDestroy_shape k k kv.dependencies
      (w.setVar k { kv with destroyed := true }) { kv with destroyed := true }
      (setVar_vars_self _ _ _)
    simp only [hk2]
    cases hemp : ddk.isEmpty with
    | true =>
      simp only [hemp, if_true]
      have h1a : (destroyTexturesStep (kv.dependencies.foldl (destroyDepVisit k)
          (w.setVar k { kv with destroyed := true })) k).vars j = some u1 := by
        rw [destroyTextures_vars_ne _ _ _ hjk]
        exact h1
      obtain ⟨td2, hk3⟩ := destroyTextures_shape _ k k _ hk2
      simp only [hk3]
      rw [setVar_vars_ne _ _ _ _ hjk]
      exact ⟨u1, h1a, h2, h3⟩
    | false =>
      simp only [hemp, Bool.false_eq_true, if_false, hk2]
      rw [setVar_vars_ne _ _ _ _ hjk]
      exact ⟨u1, h1, h2, h3⟩
  · unfold destroyStep
    simp only [hk, hkd, Bool.false_eq_true, if_false]
    obtain ⟨ddk, tdk, hk2⟩ := foldDestroy_shape k k kv.dependencies
      (w.setVar k { kv with destroyed := true }) { kv with destroyed := true }
      (setVar_vars_self _ _ _)
    simp only [hk2]
    cases hemp : ddk.isEmpty with
    | true =>
      simp only [hemp, if_true]
      obtain ⟨td2, hk3⟩ := destroyTextures_shape _ k k _ hk2
      simp only [hk3]
      rw [setVar_vars_ne _ _ _ _ hjk, destroyTextures_vars_ne _ _ _ hjk,
        foldDestroy_vars_ne k j kv.dependencies _ hjdep,
        setVar_vars_ne _ _ _ _ hjk]
    | false =>
      simp only [hemp, Bool.false_eq_true, if_false, hk2]
      rw [setVar_vars_ne _ _ _ _ hjk,
        foldDestroy_vars_ne k j kv.dependencies _ hjdep,
        setVar_vars_ne _ _ _ _ hjk]
  · unfold destroyStep
    simp only [hk, hkd, Bool.false_eq_true, if_false]
    have hu1 : (w.setVar k { kv with destroyed := true }).vars j = some u := by
      rw [setVar_vars_ne _ _ _ _ hjk]
      exact hju
    obtain ⟨u1, h1, h2⟩ := foldDestroy_establish k j kv.dependencies _ u hjdep hu1 hdes hfil
    obtain ⟨ddk, tdk, hk2⟩ := foldDestroy_shape k k kv.dependencies
      (w.setVar k { kv with destroyed := true }) { kv with destroyed := true }
      (setVar_vars_self _ _ _)
    simp only [hk2]
    cases hemp : ddk.isEmpty with
    | true =>
      simp only [hemp, if_true]
      have h1a : (destroyTexturesStep (kv.dependencies.foldl (destroyDepVisit k)
          (w.setVar k { kv with destroyed := true })) k).vars j = some u1 := by
        rw [destroyTextures_vars_ne _ _ _ hjk]
        exact h1
      obtain ⟨td2, hk3⟩ := destroyTextures_shape _ k k _ hk2
      simp only [hk3]
      rw [setVar_vars_ne _ _ _ _ hjk]
      exact ⟨u1, h1a, h2⟩
    | false =>
      simp only [hemp, Bool.false_eq_true, if_false, hk2]
      rw [setVar_vars_ne _ _ _ _ hjk]
      exact ⟨u1, h1, h2⟩
  · unfold destroyStep
    simp only [hk, hkd, Bool.false_eq_true, if_false, hdeps, List.foldl_nil,
      setVar_vars_self]
    have hcond : ({ kv with destroyed := true } : VarState).dependents.isEmpty = true := by
      simp [hdept]
    rw [if_pos hcond]
    obtain ⟨u1, h1, h2⟩ := destroyTextures_flag (w.setVar k { kv with destroyed := true })
      k _ (setVar_vars_self _ _ _)
    rw [hdeps] at h1
    simp only [h1]
    exact ⟨_, setVar_vars_self _ _ _, h2⟩
  · unfold destroyTexturesStep at ht
    cases hi : w.vars i with
    | none =>
      simp only [hi] at ht
      exact Or.inl ht
    | some v =>
      simp only [hi] at ht
      cases htd : v.texturesDestroyed with
      | true =>
        simp only [htd, if_true] at ht
        exact Or.inl ht
      | false =>
        simp only [htd, Bool.false_eq_true, if_false] at ht
        rcases List.mem_append.mp ht with h | h
        · exact Or.inl h
        · right
          unfold getAlternateTexture
          simp only [hi]
          cases hpp : v.needsPingPong with
          | false =>
            rw [hpp] at h
            simp at h
          | true =>
            rw [hpp] at h
            simp only [if_true] at h
            by_cases hext : ((if v.currentIndex = 0 then v.pong else v.ping) = v.ping ∧
                v.externalPingTexture = true)
            · rw [if_pos hext] at h
              cases h
            · rw [if_neg hext] at h
              simpa using h
  · unfold destroyTexturesStep
    simp only [hiu]
    cases htd : u.texturesDestroyed with
    | true => simp [htd]
    | false =>
      simp only [htd, Bool.false_eq_true, if_false, hnp]
      simp

theorem texture_release_amended_witness :
    (∃ u1, (destroyStep w2w 1).vars 0 = some u1 ∧
      u1.texturesDestroyed = false) ∧
    (∃ u1, (destroyStep w2m 0).vars 0 = some u1 ∧
      u1.destroyed = true ∧ u1.texturesDestroyed = false) ∧
    (∃ u1, (destroyStep w2m 1).vars 0 = some u1 ∧
      u1.destroyed = false ∧ u1.texturesDestroyed = false) ∧
    (destroyStep w2m 0).vars 1 = w2m.vars 1 ∧
    (∃ u1, (destroyStep w2pre 1).vars 0 = some u1 ∧
      u1.texturesDestroyed = true) ∧
    (∃ u1, (destroyStep w2e 0).vars 0 = some u1 ∧
      u1.texturesDestroyed = true) ∧
    (1 ∈ w2pp.freed ∨ getAlternateTexture w2pp 0 = some 1) ∧
    (destroyTexturesStep w2pre 0).freed = w2pre.freed := by
  have hw := texture_release_amended w2w 1 _ rfl rfl
  have hm0 := texture_release_amended w2m 0 _ rfl rfl
  have hm1 := texture_release_amended w2m 1 _ rfl rfl
  have hp := texture_release_amended w2pre 1 _ rfl rfl
  have he := texture_release_amended w2e 0 _ rfl rfl
  have hq := texture_release_amended w2pp 0 _ rfl rfl
  refine ⟨hw.1 0 _ 2 (by decide) rfl rfl (by decide) (by decide),
    hm0.2.1 1 (by decide) (by decide) rfl,
    hm1.2.2.1 0 _ (by decide) rfl rfl rfl,
    hm0.2.2.2.1 1 (by decide) (by decide),
    hp.2.2.2.2.1 0 _ (by decide) (by decide) rfl rfl (by decide),
    he.2.2.2.2.2.1 rfl rfl,
    hq.2.2.2.2.2.2.1 0 1 (by decide),
    hp.2.2.2.2.2.2.2 0 _ rfl rfl⟩

/-- Running the prefix: two seeding copies, then the seed pass with
`uFirst = 1` into the pong texture. -/
theorem sdfPre_state (wd ht : Nat) :
    (runOps (sdfPre wd ht)).vars 0 = some (jfaSeeded wd ht) ∧
    (runOps (sdfPre wd ht)).varsCount = 1 ∧
    (runOps (sdfPre wd ht)).passLog =
      [PassEv.mk 0 1 true [], PassEv.mk 0 2 true [],
       PassEv.mk 0 2 false
         [("uTexelSize", texelUV wd ht), ("uStepSize", UniVal.num 1),
          ("uFirst", UniVal.num 1)]] :=
  ⟨rfl, rfl, rfl⟩

/-- passLog/varsCount frame of `setUniform`. -/
theorem setUniform_frame (w : World) (i : Nat) (k : String) (val : UniVal) :
    (setUniform w i k val).passLog = w.passLog ∧
    (setUniform w i k val).varsCount = w.varsCount := by
  unfold setUniform
  cases hi : w.vars i with
  | none => exact ⟨rfl, rfl⟩
  | some v => exact ⟨rfl, rfl⟩

/-- passLog/varsCount frame of `removeDependent`. -/
theorem removeDependent_frame (w : World) (d s : Nat) :
    (removeDependent w d s).passLog = w.passLog ∧
    (removeDependent w d s).varsCount = w.varsCount := by
  unfold removeDependent
  cases hd : w.vars d with
  | none => exact ⟨rfl, rfl⟩
  | some v => exact ⟨rfl, rfl⟩

/-- passLog/varsCount frame of `addDependent`. -/
theorem addDependent_frame (w : World) (d s : Nat) :
    (addDependent w d s).passLog = w.passLog ∧
    (addDependent w d s).varsCount = w.varsCount := by
  unfold addDependent
  cases hd : w.vars d with
  | none => exact ⟨rfl, rfl⟩
  | some v => exact ⟨rfl, rfl⟩

/-- passLog/varsCount frame of `destroyTextures()`. -/
theorem destroyTextures_frame (w : World) (i : Nat) :
    (destroyTexturesStep w i).passLog = w.passLog ∧
    (destroyTexturesStep w i).varsCount = w.varsCount := by
  unfold destroyTexturesStep
  cases hi : w.vars i with
  | none => exact ⟨rfl, rfl⟩
  | some v =>
    cases htd : v.texturesDestroyed with
    | true => simp [htd]
    | false => simp [htd]

/-- passLog/varsCount frame of one destroy-loop iteration. -/
theorem destroyDepVisit_frame (s : Nat) (w : World) (d : Nat) :
    (destroyDepVisit s w d).passLog = w.passLog ∧
    (destroyDepVisit s w d).varsCount = w.varsCount := by
  unfold destroyDepVisit removeDependent
  cases hd : w.vars d with
  | none => simp [hd]
  | some v =>
    simp only [hd, setVar_vars_self]
    split
    · exact ⟨(destroyTextures_frame _ d).1, (destroyTextures_frame _ d).2⟩
    · exact ⟨rfl, rfl⟩

/-- passLog/varsCount frame of the whole destroy loop. -/
theorem foldDestroy_frame (s : Nat) (deps : List Nat) :
    ∀ w : World, ((deps.foldl (destroyDepVisit s) w).passLog = w.passLog ∧
      (deps.foldl (destroyDepVisit s) w).varsCount = w.varsCount) := by
  induction deps with
  | nil => exact fun w => ⟨rfl, rfl⟩
  | cons d rest ih =>
    intro w
    obtain ⟨h1, h2⟩ := ih (destroyDepVisit s w d)
    obtain ⟨h3, h4⟩ := destroyDepVisit_frame s w d
    exact ⟨h1.trans h3, h2.trans h4⟩

/-- passLog/varsCount frame of `destroy()`. -/
theorem destroyStep_frame (w : World) (i : Nat) :
    (destroyStep w i).passLog = w.passLog ∧
    (destroyStep w i).varsCount = w.varsCount := by
  unfold destroyStep
  cases hi : w.vars i with
  | none => exact ⟨rfl, rfl⟩
  | some v =>
    cases hdes : v.destroyed with
    | true => simp [hdes]
    | false =>
      simp only [hdes, Bool.false_eq_true, if_false]
      obtain ⟨dd, td, h2⟩ := foldDestroy_shape i i v.dependencies
        (w.setVar i { v with destroyed := true }) { v with destroyed := true }
        (setVar_vars_self _ _ _)
      obtain ⟨hf1, hf2⟩ := foldDestroy_frame i v.dependencies
        (w.setVar i { v with destroyed := true })
      simp only [h2]
      cases hemp : dd.isEmpty with
      | true =>
        simp only [hemp, if_true]
        obtain ⟨td2, h3⟩ := destroyTextures_shape _ i i _ h2
        obtain ⟨hd1, hd2⟩ := destroyTextures_frame
          (v.dependencies.foldl (destroyDepVisit i)
            (w.setVar i { v with destroyed := true })) i
        simp only [h3]
        exact ⟨hd1.trans hf1, hd2.trans hf2⟩
      | false =>
        simp only [hemp, Bool.false_eq_true, if_false, h2]
        exact ⟨hf1, hf2⟩

/-- passLog/varsCount frame of the remove-loop of `setDependencies`. -/
theorem foldRemove_frame (s : Nat) (deps : List Nat) :
    ∀ w : World,
      ((deps.foldl (fun acc d => removeDependent acc d s) w).passLog = w.passLog ∧
       (deps.foldl (fun acc d => removeDependent acc d s) w).varsCount = w.varsCount) := by
  induction deps with
  | nil => exact fun w => ⟨rfl, rfl⟩
  | cons d rest ih =>
    intro w
    obtain ⟨h1, h2⟩ := ih (removeDependent w d s)
    obtain ⟨h3, h4⟩ := removeDependent_frame w d s
    exact ⟨h1.trans h3, h2.trans h4⟩

/-- passLog/varsCount frame of the add-loop of `setDependencies`. -/
theorem foldAdd_frame (s : Nat) (deps : List Nat) :
    ∀ w : World,
      ((deps.foldl (fun acc d => addDependent acc d s) w).passLog = w.passLog ∧
       (deps.foldl (fun acc d => addDependent acc d s) w).varsCount = w.varsCount) := by
  induction deps with
  | nil => exact fun w => ⟨rfl, rfl⟩
  | cons d rest ih =>
    intro w
    obtain ⟨h1, h2⟩ := ih (addDependent w d s)
    obtain ⟨h3, h4⟩ := addDependent_frame w d s
    exact ⟨h1.trans h3, h2.trans h4⟩

/-- passLog/varsCount frame of `setDependencies`. -/
theorem setDeps_frame (w : World) (i : Nat) (ds : List Nat) :
    (setDependencies w i ds).passLog = w.passLog ∧
    (setDependencies w i ds).varsCount = w.varsCount := by
  unfold setDependencies
  cases hi : w.vars i with
  | none => exact ⟨rfl, rfl⟩
  | some v =>
    simp only [hi]
    obtain ⟨hr1, hr2⟩ := foldRemove_frame i v.dependencies w
    split
    · exact ⟨hr1, hr2⟩
    · obtain ⟨ha1, ha2⟩ := foldAdd_frame i ds
        ((v.dependencies.foldl (fun acc d => removeDependent acc d i) w).setVar i _)
      exact ⟨ha1.trans hr1, ha2.trans hr2⟩

/-- `setDependencies` installs exactly the given dependency list on the
caller, touching only its dependents otherwise. -/
theorem setDeps_self (w : World) (i : Nat) (ds : List Nat) (v : VarState)
    (hv : w.vars i = some v) :
    ∃ dd, (setDependencies w i ds).vars i =
      some { v with dependencies := ds, dependents := dd } := by
  unfold setDependencies
  simp only [hv]
  obtain ⟨ddi, h1i⟩ := foldRemove_shape i i v.dependencies w v hv
  simp only [h1i]
  obtain ⟨dd2, h3⟩ := foldAdd_shape i i ds _
    { v with dependents := ddi, dependencies := ds } (setVar_vars_self _ _ _)
  exact ⟨dd2, h3⟩

/-- The propagation loop: each iteration appends exactly one non-copy pass
carrying the current `uStepSize` with `uFirst` untouched; the variable
stays initialized and alive with the same two buffers. -/
theorem sdfLoop_spec (a c : UniVal) (p q : Nat) :
    ∀ (steps : List ℚ) (w : World) (v : VarState) (b : UniVal),
    w.vars 0 = some v → v.initialized = true → v.ping = some p →
    v.pong = some q → v.destroyed = false →
    v.uniforms = [("uTexelSize", a), ("uStepSize", b), ("uFirst", c)] →
    ∃ v1 tg, ((loopOps steps).foldl step w).vars 0 = some v1 ∧
      v1.initialized = true ∧ v1.ping = some p ∧ v1.pong = some q ∧
      v1.destroyed = false ∧
      (∃ b1, v1.uniforms = [("uTexelSize", a), ("uStepSize", b1), ("uFirst", c)]) ∧
      ((loopOps steps).foldl step w).varsCount = w.varsCount ∧
      tg.length = steps.length ∧
      ((loopOps steps).foldl step w).passLog = w.passLog ++
        List.zipWith (fun s t => PassEv.mk 0 t false
          [("uTexelSize", a), ("uStepSize", UniVal.num s), ("uFirst", c)]) steps tg := by
  intro steps
  induction steps with
  | nil =>
    intro w v b hv h1 h2 h3 h4 h5
    exact ⟨v, [], hv, h1, h2, h3, h4, ⟨b, h5⟩, rfl, rfl, by simp [loopOps]⟩
  | cons s rest ih =>
    intro w v b hv h1 h2 h3 h4 h5
    have hval : setUniformVal v.uniforms "uStepSize" (UniVal.num s) =
        [("uTexelSize", a), ("uStepSize", UniVal.num s), ("uFirst", c)] := by
      rw [h5]
      simp [setUniformVal]
    have hsu : (setUniform w 0 "uStepSize" (UniVal.num s)).vars 0 =
        some { v with uniforms :=
          [("uTexelSize", a), ("uStepSize", UniVal.num s), ("uFirst", c)] } := by
      unfold setUniform
      simp only [hv, setVar_vars_self, hval]
    obtain ⟨hsuL, hsuC⟩ := setUniform_frame w 0 "uStepSize" (UniVal.num s)
    have hcs := computeStep_initialized (setUniform w 0 "uStepSize" (UniVal.num s)) 0 _ hsu h1
    have hv2 : (computeStep (setUniform w 0 "uStepSize" (UniVal.num s)) 0).vars 0 = some
        { v with
          uniforms := [("uTexelSize", a), ("uStepSize", UniVal.num s), ("uFirst", c)],
          currentIndex := 1 - v.currentIndex } := by
      rw [hcs]
      simp [Function.update_same]
    have hlog2 : (computeStep (setUniform w 0 "uStepSize" (UniVal.num s)) 0).passLog =
        w.passLog ++ [PassEv.mk 0 ((if v.currentIndex = 0 then v.pong else v.ping).getD 0)
          false [("uTexelSize", a), ("uStepSize", UniVal.num s), ("uFirst", c)]] := by
      rw [hcs]
      simp only [hsuL]
    have hcnt2 : (computeStep (setUniform w 0 "uStepSize" (UniVal.num s)) 0).varsCount =
        w.varsCount := by
      rw [hcs]
      simp only [hsuC]
    obtain ⟨v1, tg, hres, k1, k2, k3, k4, k5, k6, k7, k8⟩ :=
      ih (computeStep (setUniform w 0 "uStepSize" (UniVal.num s)) 0)
        { v with
          uniforms := [("uTexelSize", a), ("uStepSize", UniVal.num s), ("uFirst", c)],
          currentIndex := 1 - v.currentIndex }
        (UniVal.num s) hv2 h1 h2 h3 h4 rfl
    have hfold : (loopOps (s :: rest)).foldl step w =
        (loopOps rest).foldl step
          (computeStep (setUniform w 0 "uStepSize" (UniVal.num s)) 0) := by
      simp only [loopOps, List.flatMap_cons, List.cons_append, List.nil_append,
        List.foldl_cons]
      rfl
    refine ⟨v1, ((if v.currentIndex = 0 then v.pong else v.ping).getD 0) :: tg, ?_, k1, k2,
      k3, k4, k5, ?_, ?_, ?_⟩
    · rw [hfold]
      exact hres
    · rw [hfold]
      exact k6.trans hcnt2
    · simp [k7]
    · rw [hfold, k8, hlog2]
      simp [List.zipWith]

/-- The tail of `generateSDFTex`: destroying the jfa variable adds no
pass; constructing the finalization variable, wiring its dependency and
running `computeOnce` adds exactly one non-copy pass carrying
`uTexelSize` alone. -/
theorem sdfSuffix_spec (wd ht : Nat) (W : World) (hcnt : W.varsCount = 1) :
    ∃ tfin, ([Op.destroyOp 0, Op.newVar (finCfg wd ht), Op.setDeps 1 [0],
        Op.computeOnceOp 1].foldl step W).passLog =
      W.passLog ++ [PassEv.mk 1 tfin false [("uTexelSize", texelUV wd ht)]] := by
  have h3c : (destroyStep W 0).varsCount = 1 := (destroyStep_frame W 0).2.trans hcnt
  have hv41 : (step (destroyStep W 0) (Op.newVar (finCfg wd ht))).vars 1 =
      some (freshVar (finCfg wd ht)) := by
    show Function.update (destroyStep W 0).vars (destroyStep W 0).varsCount
      (some (freshVar (finCfg wd ht))) 1 = _
    rw [h3c]
    exact Function.update_same _ _ _
  obtain ⟨dd5, hv51⟩ := setDeps_self (step (destroyStep W 0) (Op.newVar (finCfg wd ht)))
    1 [0] (freshVar (finCfg wd ht)) hv41
  have hIV : initVar (setDependencies (step (destroyStep W 0)
      (Op.newVar (finCfg wd ht))) 1 [0]) 1 =
      .ok (initUnchecked (setDependencies (step (destroyStep W 0)
        (Op.newVar (finCfg wd ht))) 1 [0]) 1) := by
    simp only [initVar, hv51]
    exact if_neg (fun hh => Bool.noConfusion hh)
  obtain ⟨pf, qf, hvU, hlogU, -, -, -, -, -, -⟩ :=
    initUnchecked_spec (setDependencies (step (destroyStep W 0)
      (Op.newVar (finCfg wd ht))) 1 [0]) 1 _ hv51
  obtain ⟨vU, hvU2, hinitU, huniU⟩ :
      ∃ vU, (initUnchecked (setDependencies (step (destroyStep W 0)
          (Op.newVar (finCfg wd ht))) 1 [0]) 1).vars 1 = some vU ∧
        vU.initialized = true ∧
        vU.uniforms = [("uTexelSize", texelUV wd ht)] := ⟨_, hvU, rfl, rfl⟩
  have hCS := computeStep_initialized (initUnchecked (setDependencies
    (step (destroyStep W 0) (Op.newVar (finCfg wd ht))) 1 [0]) 1) 1 vU hvU2 hinitU
  have hW6 : step (setDependencies (step (destroyStep W 0)
      (Op.newVar (finCfg wd ht))) 1 [0]) (Op.computeOnceOp 1) =
      destroyStep (computeStep (initUnchecked (setDependencies (step (destroyStep W 0)
        (Op.newVar (finCfg wd ht))) 1 [0]) 1) 1) 1 := by
    show (match computeOnceStep (setDependencies (step (destroyStep W 0)
      (Op.newVar (finCfg wd ht))) 1 [0]) 1 with
      | .ok w' => w'
      | .error _ => setDependencies (step (destroyStep W 0)
          (Op.newVar (finCfg wd ht))) 1 [0]) = _
    simp only [computeOnceStep, hIV]
  refine ⟨(if vU.currentIndex = 0 then vU.pong else vU.ping).getD 0, ?_⟩
  show (step (setDependencies (step (destroyStep W 0) (Op.newVar (finCfg wd ht))) 1 [0])
    (Op.computeOnceOp 1)).passLog = _
  rw [hW6]
  rw [(destroyStep_frame _ 1).1]
  rw [hCS]
  show (initUnchecked (setDependencies (step (destroyStep W 0)
      (Op.newVar (finCfg wd ht))) 1 [0]) 1).passLog ++
    [PassEv.mk 1 ((if vU.currentIndex = 0 then vU.pong else vU.ping).getD 0) false
      vU.uniforms] = _
  rw [huniU]
  rw [hlogU]
  rw [(setDeps_frame _ 1 [0]).1]
  show (destroyStep W 0).passLog ++ _ = _
  rw [(destroyStep_frame W 0).1]

/-- A list of non-copy propagation passes is unchanged by the non-copy
filter. -/
theorem filter_zip_passes (a c : UniVal) :
    ∀ (sts : List ℚ) (tgl : List Nat),
    (List.zipWith (fun s t => PassEv.mk 0 t false
        [("uTexelSize", a), ("uStepSize", UniVal.num s), ("uFirst", c)]) sts tgl).filter
      (fun e => !e.isCopy) =
    List.zipWith (fun s t => PassEv.mk 0 t false
        [("uTexelSize", a), ("uStepSize", UniVal.num s), ("uFirst", c)]) sts tgl := by
  intro sts
  induction sts with
  | nil => intro tgl; rfl
  | cons s rest ih =>
    intro tgl
    cases tgl with
    | nil => rfl
    | cons t ts => simp [ih]

/-- **C4.** `generateSDFTex` on a `wd × ht` input performs exactly one
non-copy seed pass with `uFirst = 1` and `uStepSize = 1`, then exactly
`ceil(log2(max(wd,ht)))` propagation passes with `uFirst = 0` in which the
0-indexed pass `i` carries `uStepSize = 2^(numPasses-1-i)` (geometrically
decreasing to 1), and finally a single finalization pass. -/
theorem generateSDFTex_passes (wd ht : Nat) :
    ∃ (tg : List Nat) (tfin : Nat),
      tg.length = Nat.clog 2 (max wd ht) ∧
      (generateSDFTexWorld wd ht).passLog.filter (fun e => !e.isCopy) =
        PassEv.mk 0 2 false
            [("uTexelSize", texelUV wd ht), ("uStepSize", UniVal.num 1),
             ("uFirst", UniVal.num 1)] ::
          (List.zipWith (fun s t => PassEv.mk 0 t false
              [("uTexelSize", texelUV wd ht), ("uStepSize", UniVal.num s),
               ("uFirst", UniVal.num 0)])
            ((List.range (Nat.clog 2 (max wd ht))).map
              (fun i => (2 : ℚ) ^ (Nat.clog 2 (max wd ht) - 1 - i))) tg ++
          [PassEv.mk 1 tfin false [("uTexelSize", texelUV wd ht)]]) := by
  obtain ⟨hv0, hcnt0, hlog0⟩ := sdfPre_state wd ht
  obtain ⟨v1, tg, hv1, -, -, -, -, -, hcntL, htg, hlogL⟩ :=
    sdfLoop_spec (texelUV wd ht) (UniVal.num 0) 1 2
      ((List.range (Nat.clog 2 (max wd ht))).map
        (fun i => (2 : ℚ) ^ (Nat.clog 2 (max wd ht) - 1 - i)))
      (runOps (sdfPre wd ht)) (jfaSeeded wd ht) (UniVal.num 1)
      hv0 rfl rfl rfl rfl rfl
  obtain ⟨tfin, hsuf⟩ := sdfSuffix_spec wd ht
    ((loopOps ((List.range (Nat.clog 2 (max wd ht))).map
        (fun i => (2 : ℚ) ^ (Nat.clog 2 (max wd ht) - 1 - i)))).foldl step
      (runOps (sdfPre wd ht)))
    (hcntL.trans hcnt0)
  refine ⟨tg, tfin, htg.trans (by simp), ?_⟩
  have hrun : runOps (sdfOps wd ht) =
      [Op.destroyOp 0, Op.newVar (finCfg wd ht), Op.setDeps 1 [0],
       Op.computeOnceOp 1].foldl step
        ((loopOps ((List.range (Nat.clog 2 (max wd ht))).map
            (fun i => (2 : ℚ) ^ (Nat.clog 2 (max wd ht) - 1 - i)))).foldl step
          (runOps (sdfPre wd ht))) := by
    simp only [sdfOps, runOps, List.foldl_append]
  have hlogAll : (generateSDFTexWorld wd ht).passLog =
      (([PassEv.mk 0 1 true [], PassEv.mk 0 2 true [],
         PassEv.mk 0 2 false
           [("uTexelSize", texelUV wd ht), ("uStepSize", UniVal.num 1),
            ("uFirst", UniVal.num 1)]] ++
        List.zipWith (fun s t => PassEv.mk 0 t false
            [("uTexelSize", texelUV wd ht), ("uStepSize", UniVal.num s),
             ("uFirst", UniVal.num 0)])
          ((List.range (Nat.clog 2 (max wd ht))).map
            (fun i => (2 : ℚ) ^ (Nat.clog 2 (max wd ht) - 1 - i))) tg) ++
       [PassEv.mk 1 tfin false [("uTexelSize", texelUV wd ht)]]) := by
    simp only [generateSDFTexWorld]
    rw [hrun, hsuf, hlogL, hlog0]
  rw [hlogAll]
  simp only [List.filter_append, filter_zip_passes]
  simp

/-- `compute()` never changes which variables exist or their dependency
lists. -/
theorem computeStep_depsMap (w : World) (k j : Nat) :
    depsMap (computeStep w k) j = depsMap w j := by
  by_cases hjk : j = k
  · subst hjk
    cases hv : w.vars j with
    | none =>
      unfold depsMap computeStep
      simp [hv]
    | some v =>
      cases hinit : v.initialized with
      | true =>
        unfold depsMap
        rw [computeStep_initialized w j v hv hinit]
        simp [hv, Function.update_same]
      | false =>
        obtain ⟨p, q, h1, -, -, -, -, -, -⟩ := computeStep_uninit w j v hv hinit
        unfold depsMap
        rw [h1, hv]
        simp
  · unfold depsMap
    rw [computeStep_vars_ne w k j hjk]

/-- Counting `comp` events ignores a leading `visit`. -/
theorem count_comp_cons_visit (j i : Nat) (l : List TraceEv) :
    (TraceEv.visit i :: l).count (TraceEv.comp j) = l.count (TraceEv.comp j) := by
  simp [List.count_cons]

/-- Counting `visit j` across a leading `visit i`. -/
theorem count_visit_cons_visit (j i : Nat) (l : List TraceEv) :
    (TraceEv.visit i :: l).count (TraceEv.visit j) =
      l.count (TraceEv.visit j) + if j = i then 1 else 0 := by
  by_cases h : j = i
  · subst h
    simp [List.count_cons]
  · simp [List.count_cons, Ne.symm h, h]

/-- Counting `comp j` across a trailing `comp i`. -/
theorem count_comp_append_comp (j i : Nat) (l : List TraceEv) :
    (l ++ [TraceEv.comp i]).count (TraceEv.comp j) =
      l.count (TraceEv.comp j) + if j = i then 1 else 0 := by
  by_cases h : j = i
  · subst h
    simp [List.count_append, List.count_singleton]
  · simp [List.count_append, List.count_singleton, Ne.symm h, h]

/-- Counting `visit` events ignores a trailing `comp`. -/
theorem count_visit_append_comp (j i : Nat) (l : List TraceEv) :
    (l ++ [TraceEv.comp i]).count (TraceEv.visit j) = l.count (TraceEv.visit j) := by
  simp [List.count_append, List.count_singleton]

/-- The dependency loop preserves the bookkeeping invariant. -/
theorem chainDeps_basic (fuel : Nat)
    (IH : ∀ (w : World) (i : Nat) (vis : List Nat),
      ChainInv w vis (chainF fuel w i vis)) (self : Nat) :
    ∀ (ds : List Nat) (w : World) (vis : List Nat),
      ChainInv w vis
        (chainDepsAux (fun w' d vis' => chainF fuel w' d vis') self w ds vis) := by
  intro ds
  induction ds with
  | nil =>
    intro w vis
    refine ⟨fun x hx => hx, fun j => ?_, fun j => ?_, fun j => rfl⟩
    · simp only [chainDepsAux, List.count_nil]
      by_cases hj : j ∈ vis
      · simp [hj]
      · simp [hj]
    · exact Nat.le_refl _
  | cons d rest ih =>
    intro w vis
    unfold chainDepsAux
    by_cases hds : d = self
    · rw [if_pos hds]
      exact ih w vis
    · rw [if_neg hds]
      obtain ⟨hA1, hB1, hC1, hD1⟩ := IH w d vis
      by_cases hok : (chainF fuel w d vis).ok = true
      · simp only [hok, if_true]
        obtain ⟨hA2, hB2, hC2, hD2⟩ := ih (chainF fuel w d vis).w (chainF fuel w d vis).vis
        refine ⟨fun x hx => hA2 x (hA1 x hx), fun j => ?_, fun j => ?_,
          fun j => (hD2 j).trans (hD1 j)⟩
        · simp only [List.count_append, hB1 j, hB2 j]
          by_cases h1 : j ∈ vis
          · have h2 : j ∈ (chainF fuel w d vis).vis := hA1 j h1
            simp [h1, h2]
          · by_cases h2 : j ∈ (chainF fuel w d vis).vis
            · have h3 := hA2 j h2
              simp [h1, h2, h3]
            · by_cases h3 : j ∈ (chainDepsAux (fun w' d' vis' => chainF fuel w' d' vis')
                  self (chainF fuel w d vis).w rest (chainF fuel w d vis).vis).vis
              · simp [h1, h2, h3]
              · simp [h1, h2, h3]
        · simp only [List.count_append]
          exact Nat.add_le_add (hC1 j) (hC2 j)
      · simp only [hok, Bool.false_eq_true, if_false]
        exact ⟨hA1, hB1, hC1, hD1⟩

/-- One `computeChain` run satisfies the bookkeeping invariant. -/
theorem chainF_basic :
    ∀ (fuel : Nat) (w : World) (i : Nat) (vis : List Nat),
      ChainInv w vis (chainF fuel w i vis) := by
  intro fuel
  induction fuel with
  | zero =>
    intro w i vis
    refine ⟨fun x hx => hx, fun j => ?_, fun j => Nat.le_refl _, fun j => rfl⟩
    simp only [chainF, List.count_nil]
    by_cases hj : j ∈ vis
    · simp [hj]
    · simp [hj]
  | succ fuel ih =>
    intro w i vis
    unfold chainF
    by_cases hvis : vis.contains i = true
    · simp only [hvis, if_true]
      refine ⟨fun x hx => hx, fun j => ?_, fun j => Nat.le_refl _, fun j => rfl⟩
      simp only [List.count_nil]
      by_cases hj : j ∈ vis
      · simp [hj]
      · simp [hj]
    · simp only [hvis, Bool.false_eq_true, if_false]
      have hivis : i ∉ vis := by
        simpa using hvis
      cases hwi : w.vars i with
      | none =>
        refine ⟨fun x hx => List.mem_cons_of_mem i hx, fun j => ?_, fun j => ?_,
          fun j => rfl⟩
        · by_cases hji : j = i
          · subst hji
            simp [List.count_cons, hivis]
          · simp only [List.count_singleton]
            by_cases hj : j ∈ vis
            · simp [hj, List.mem_cons, hji, beq_iff_eq, Ne.symm hji]
            · simp [hj, List.mem_cons, hji, beq_iff_eq, Ne.symm hji]
        · simp [List.count_singleton, beq_iff_eq]
      | some v =>
        obtain ⟨hA, hB, hC, hD⟩ := chainDeps_basic fuel ih i v.dependencies w (i :: vis)
        by_cases hok : (chainDepsAux (fun w' d vis' => chainF fuel w' d vis') i w
            v.dependencies (i :: vis)).ok = true
        · simp only [hok, if_true]
          refine ⟨fun x hx => hA x (List.mem_cons_of_mem i hx), fun j => ?_, fun j => ?_,
            fun j => (computeStep_depsMap _ i j).trans (hD j)⟩
          · simp only [List.count_cons, List.count_append, hB j, List.count_singleton]
            by_cases hji : j = i
            · subst hji
              have hj1 : j ∈ (chainDepsAux (fun w' d vis' => chainF fuel w' d vis') j w
                  v.dependencies (j :: vis)).vis := hA j (List.mem_cons_self j vis)
              simp [hj1, hivis, List.mem_cons, beq_iff_eq]
            · by_cases hj : j ∈ vis
              · have hj2 : j ∈ (chainDepsAux (fun w' d vis' => chainF fuel w' d vis') i w
                    v.dependencies (i :: vis)).vis := hA j (List.mem_cons_of_mem i hj)
                simp [hj, hj2, hji, List.mem_cons, beq_iff_eq, Ne.symm hji]
              · by_cases hj2 : j ∈ (chainDepsAux (fun w' d vis' => chainF fuel w' d vis')
                    i w v.dependencies (i :: vis)).vis
                · simp [hj, hj2, hji, List.mem_cons, beq_iff_eq, Ne.symm hji]
                · simp [hj, hj2, hji, List.mem_cons, beq_iff_eq, Ne.symm hji]
          · rw [count_comp_cons_visit, count_visit_cons_visit,
              count_comp_append_comp, count_visit_append_comp]
            have := hC j
            omega
        · simp only [hok, Bool.false_eq_true, if_false]
          refine ⟨fun x hx => hA x (List.mem_cons_of_mem i hx), fun j => ?_, fun j => ?_,
            fun j => hD j⟩
          · simp only [List.count_cons, hB j]
            by_cases hji : j = i
            · subst hji
              have hj1 : j ∈ (chainDepsAux (fun w' d vis' => chainF fuel w' d vis') j w
                  v.dependencies (j :: vis)).vis := hA j (List.mem_cons_self j vis)
              simp [hj1, hivis, List.mem_cons, beq_iff_eq]
            · by_cases hj : j ∈ vis
              · have hj2 : j ∈ (chainDepsAux (fun w' d vis' => chainF fuel w' d vis') i w
                    v.dependencies (i :: vis)).vis := hA j (List.mem_cons_of_mem i hj)
                simp [hj, hj2, hji, List.mem_cons, beq_iff_eq, Ne.symm hji]
              · by_cases hj2 : j ∈ (chainDepsAux (fun w' d vis' => chainF fuel w' d vis')
                    i w v.dependencies (i :: vis)).vis
                · simp [hj, hj2, hji, List.mem_cons, beq_iff_eq, Ne.symm hji]
                · simp [hj, hj2, hji, List.mem_cons, beq_iff_eq, Ne.symm hji]
          · rw [count_comp_cons_visit, count_visit_cons_visit]
            have := hC j
            omega

/-- Filtering with a weaker predicate keeps at least as many elements. -/
theorem length_filter_mono {p q : Nat → Bool} :
    ∀ (l : List Nat), (∀ x ∈ l, p x = true → q x = true) →
    (l.filter p).length ≤ (l.filter q).length := by
  intro l
  induction l with
  | nil => intro _; simp
  | cons a t ih =>
    intro h
    have iht := ih (fun x hx => h x (List.mem_cons_of_mem a hx))
    cases hp : p a with
    | true =>
      have hqa := h a (List.mem_cons_self a t) hp
      simp only [List.filter_cons, hp, hqa, if_true, List.length_cons]
      exact Nat.succ_le_succ iht
    | false =>
      cases hq : q a with
      | true =>
        simp only [List.filter_cons, hp, hq, Bool.false_eq_true, if_false, if_true,
          List.length_cons]
        omega
      | false =>
        simp only [List.filter_cons, hp, hq, Bool.false_eq_true, if_false]
        exact iht

/-- Flipping one kept element of a duplicate-free list to dropped strictly
shrinks the filter. -/
theorem length_filter_lt {p q : Nat → Bool} (i : Nat) :
    ∀ (l : List Nat), l.Nodup → i ∈ l → p i = true → q i = false →
    (∀ x, x ≠ i → q x = p x) →
    (l.filter q).length < (l.filter p).length := by
  intro l
  induction l with
  | nil =>
    intro _ h
    cases h
  | cons a t ih =>
    intro hnd hmem hpi hqi hag
    rcases List.mem_cons.mp hmem with rfl | hmem2
    · have hnt : i ∉ t := (List.nodup_cons.mp hnd).1
      have hft : t.filter q = t.filter p := by
        apply List.filter_congr
        intro x hx
        exact hag x (fun hh => hnt (hh ▸ hx))
      simp only [List.filter_cons, hpi, hqi, if_true, Bool.false_eq_true, if_false, hft,
        List.length_cons]
      omega
    · have hnd2 := (List.nodup_cons.mp hnd).2
      have hne : a ≠ i := fun hh => (List.nodup_cons.mp hnd).1 (hh ▸ hmem2)
      have hag2 := hag a hne
      have iht := ih hnd2 hmem2 hpi hqi hag
      cases hpa : p a with
      | true =>
        simp only [List.filter_cons, hpa, hag2, if_true, List.length_cons]
        omega
      | false =>
        simp only [List.filter_cons, hpa, hag2, Bool.false_eq_true, if_false]
        exact iht

/-- A variable absent before a chain run is absent after it. -/
theorem chainF_none (fuel : Nat) (w : World) (i : Nat) (vis : List Nat) (j : Nat)
    (h : w.vars j = none) : (chainF fuel w i vis).w.vars j = none := by
  have hD := (chainF_basic fuel w i vis).2.2.2 j
  unfold depsMap at hD
  rw [h] at hD
  simp only [Option.map_none'] at hD
  exact Option.map_eq_none'.mp hD

/-- A chain run never changes which variables exist. -/
theorem chainRes_isSome_of_deps (w w' : World) (j : Nat)
    (hD : depsMap w' j = depsMap w j) :
    ((w'.vars j).isSome) = ((w.vars j).isSome) := by
  unfold depsMap at hD
  cases h : w.vars j with
  | none =>
    rw [h] at hD
    simp only [Option.map_none'] at hD
    rw [Option.map_eq_none'.mp hD]
  | some v =>
    rw [h] at hD
    cases h2 : w'.vars j with
    | none =>
      rw [h2] at hD
      simp at hD
    | some u => simp

/-- Progress bookkeeping never increases the number of unseen variables. -/
theorem unseen_le_of_inv (n : Nat) (w : World) (vis : List Nat) (r : ChainRes)
    (hA : ∀ x, x ∈ vis → x ∈ r.vis)
    (hD : ∀ j, depsMap r.w j = depsMap w j) :
    unseen n r.w r.vis ≤ unseen n w vis := by
  apply length_filter_mono
  intro x _ hp
  simp only [Bool.and_eq_true] at hp
  obtain ⟨h1, h2⟩ := hp
  simp only [Bool.and_eq_true]
  constructor
  · cases hc : vis.contains x with
    | false => rfl
    | true =>
      exfalso
      have hx : x ∈ vis := by simpa using hc
      have hx2 : x ∈ r.vis := hA x hx
      have : r.vis.contains x = true := by simpa using hx2
      rw [this] at h1
      exact Bool.noConfusion h1
  · rw [← chainRes_isSome_of_deps w r.w x (hD x)]
    exact h2

/-- Fuel sufficiency for the dependency loop. -/
theorem chainDeps_term (n fuel : Nat)
    (IH : ∀ (w : World) (i : Nat) (vis : List Nat),
      (∀ j, n ≤ j → w.vars j = none) → unseen n w vis < fuel →
      (chainF fuel w i vis).ok = true) (self : Nat) :
    ∀ (ds : List Nat) (w : World) (vis : List Nat),
    (∀ j, n ≤ j → w.vars j = none) → unseen n w vis < fuel →
    (chainDepsAux (fun w' d vis' => chainF fuel w' d vis') self w ds vis).ok = true := by
  intro ds
  induction ds with
  | nil =>
    intro w vis _ _
    rfl
  | cons d rest ih =>
    intro w vis hdom hlt
    unfold chainDepsAux
    by_cases hds : d = self
    · rw [if_pos hds]
      exact ih w vis hdom hlt
    · rw [if_neg hds]
      have hok1 : (chainF fuel w d vis).ok = true := IH w d vis hdom hlt
      simp only [hok1, if_true]
      have hdom2 : ∀ j, n ≤ j → (chainF fuel w d vis).w.vars j = none :=
        fun j hj => chainF_none fuel w d vis j (hdom j hj)
      have hle := unseen_le_of_inv n w vis (chainF fuel w d vis)
        (chainF_basic fuel w d vis).1 (chainF_basic fuel w d vis).2.2.2
      exact ih _ _ hdom2 (Nat.lt_of_le_of_lt hle hlt)

/-- Fuel sufficiency for `computeChain`: any fuel exceeding the number of
present unvisited variables completes the run, on any dependency graph —
diamonds, cycles and self-edges included. -/
theorem chainF_term (n : Nat) :
    ∀ (fuel : Nat) (w : World) (i : Nat) (vis : List Nat),
    (∀ j, n ≤ j → w.vars j = none) → unseen n w vis < fuel →
    (chainF fuel w i vis).ok = true := by
  intro fuel
  induction fuel with
  | zero =>
    intro w i vis _ h
    exact absurd h (Nat.not_lt_zero _)
  | succ fuel ih =>
    intro w i vis hdom hlt
    unfold chainF
    by_cases hvis : vis.contains i = true
    · simp only [hvis, if_true]
    · simp only [hvis, Bool.false_eq_true, if_false]
      cases hwi : w.vars i with
      | none => rfl
      | some v =>
        have hin : i < n := by
          by_contra hge
          rw [hdom i (Nat.le_of_not_lt hge)] at hwi
          cases hwi
        have hivis : i ∉ vis := by simpa using hvis
        have hdec : unseen n w (i :: vis) < unseen n w vis := by
          apply length_filter_lt i (List.range n) (List.nodup_range n)
            (List.mem_range.mpr hin)
          · simp [hivis, hwi]
          · simp
          · intro x hxi
            simp [List.contains_cons, hxi]
        have hfuel2 : unseen n w (i :: vis) < fuel := by omega
        have hok := chainDeps_term n fuel ih i v.dependencies w (i :: vis) hdom hfuel2
        simp only [hok, if_true]

/-- A member of the output visited set was already visited at the start or
has a `visit` event in the trace. -/
theorem vis_mem_of_inv (w : World) (vis : List Nat) (r : ChainRes)
    (hB : ∀ j, r.tr.count (TraceEv.visit j) = if j ∈ r.vis ∧ j ∉ vis then 1 else 0)
    (d : Nat) (hd : d ∈ r.vis) :
    d ∈ vis ∨ TraceEv.visit d ∈ r.tr := by
  by_cases hdv : d ∈ vis
  · exact Or.inl hdv
  · right
    have hBd := hB d
    rw [if_pos ⟨hd, hdv⟩] at hBd
    exact List.count_pos_iff.mp (by omega)

/-- Decomposing an equation between a list with one appended element and a
split around a distinguished element. -/
theorem append_singleton_cases {α : Type} (t : List α) (x : α) (p s : List α) (e : α)
    (h : t ++ [x] = p ++ e :: s) :
    (s = [] ∧ p = t ∧ e = x) ∨ ∃ s2, s = s2 ++ [x] ∧ t = p ++ e :: s2 := by
  rw [List.append_eq_append_iff] at h
  rcases h with ⟨a2, ha1, ha2⟩ | ⟨c2, hc1, hc2⟩
  · cases a2 with
    | nil =>
      simp only [List.nil_append] at ha2
      injection ha2 with he hs
      exact Or.inl ⟨hs.symm, by simp [ha1], he.symm⟩
    | cons b bs =>
      exfalso
      have := congrArg List.length ha2
      simp at this
  · cases c2 with
    | nil =>
      simp only [List.nil_append] at hc2
      injection hc2 with he hs
      exact Or.inl ⟨hs, by simp [hc1], he⟩
    | cons b bs =>
      simp only [List.cons_append] at hc2
      injection hc2 with he hs
      refine Or.inr ⟨bs, hs, ?_⟩
      rw [hc1, he]

/-- A completed `computeChain` call leaves its own variable visited. -/
theorem chainF_in_vis (fuel : Nat) (w : World) (i : Nat) (vis : List Nat)
    (hok : (chainF fuel w i vis).ok = true) : i ∈ (chainF fuel w i vis).vis := by
  cases fuel with
  | zero => cases hok
  | succ fuel =>
    unfold chainF
    by_cases hvis : vis.contains i = true
    · simp only [hvis, if_true]
      simpa using hvis
    · simp only [hvis, Bool.false_eq_true, if_false]
      cases hwi : w.vars i with
      | none => exact List.mem_cons_self i vis
      | some v =>
        by_cases hok2 : (chainDepsAux (fun w' d vis' => chainF fuel w' d vis') i w
            v.dependencies (i :: vis)).ok = true
        · simp only [hok2, if_true]
          exact (chainDeps_basic fuel (chainF_basic fuel) i v.dependencies w
            (i :: vis)).1 i (List.mem_cons_self i vis)
        · simp only [hok2, Bool.false_eq_true, if_false]
          exact (chainDeps_basic fuel (chainF_basic fuel) i v.dependencies w
            (i :: vis)).1 i (List.mem_cons_self i vis)

/-- A completed dependency loop leaves every non-self dependency visited. -/
theorem chainDeps_visits (fuel : Nat) (self : Nat) :
    ∀ (ds : List Nat) (w : World) (vis : List Nat),
    (chainDepsAux (fun w' d vis' => chainF fuel w' d vis') self w ds vis).ok = true →
    ∀ d, d ∈ ds → d ≠ self →
    d ∈ (chainDepsAux (fun w' d vis' => chainF fuel w' d vis') self w ds vis).vis := by
  intro ds
  induction ds with
  | nil =>
    intro w vis _ d hd
    cases hd
  | cons d0 rest ih =>
    intro w vis hok d hd hds
    unfold chainDepsAux at hok ⊢
    by_cases h0 : d0 = self
    · rw [if_pos h0] at hok ⊢
      rcases List.mem_cons.mp hd with rfl | hd2
      · exact absurd h0 hds
      · exact ih w vis hok d hd2 hds
    · rw [if_neg h0] at hok ⊢
      by_cases hok1 : (chainF fuel w d0 vis).ok = true
      · simp only [hok1, if_true] at hok ⊢
        rcases List.mem_cons.mp hd with rfl | hd2
        · have h1 : d ∈ (chainF fuel w d vis).vis := chainF_in_vis fuel w d vis hok1
          exact (chainDeps_basic fuel (chainF_basic fuel) self rest
            (chainF fuel w d vis).w (chainF fuel w d vis).vis).1 d h1
        · exact ih _ _ hok d hd2 hds
      · simp only [hok1, Bool.false_eq_true, if_false] at hok

/-- The dependency loop preserves order discipline. -/
theorem chainDeps_ord (fuel : Nat)
    (IHo : ∀ (w : World) (i : Nat) (vis : List Nat),
      OrdProp w vis (chainF fuel w i vis)) (self : Nat) :
    ∀ (ds : List Nat) (w : World) (vis : List Nat),
      OrdProp w vis
        (chainDepsAux (fun w' d vis' => chainF fuel w' d vis') self w ds vis) := by
  intro ds
  induction ds with
  | nil =>
    intro w vis j dsj hdsj p s htr d hd hdj
    exfalso
    simp only [chainDepsAux] at htr
    have := congrArg List.length htr
    simp only [List.length_nil, List.length_append, List.length_cons] at this
    omega
  | cons d0 rest ih =>
    intro w vis j dsj hdsj p s htr d hd hdj
    unfold chainDepsAux at htr
    by_cases h0 : d0 = self
    · rw [if_pos h0] at htr
      exact ih w vis j dsj hdsj p s htr d hd hdj
    · rw [if_neg h0] at htr
      by_cases hok1 : (chainF fuel w d0 vis).ok = true
      · simp only [hok1, if_true] at htr
        rw [List.append_eq_append_iff] at htr
        rcases htr with ⟨a2, ha1, ha2⟩ | ⟨c2, hc1, hc2⟩
        · have hds2 : depsMap (chainF fuel w d0 vis).w j = some dsj :=
            ((chainF_basic fuel w d0 vis).2.2.2 j).trans hdsj
          have h2 := ih (chainF fuel w d0 vis).w (chainF fuel w d0 vis).vis j dsj hds2
            a2 s ha2 d hd hdj
          rcases h2 with hvd | hdv
          · refine Or.inl ?_
            rw [ha1]
            exact List.mem_append_right _ hvd
          · rcases vis_mem_of_inv w vis (chainF fuel w d0 vis)
                (chainF_basic fuel w d0 vis).2.1 d hdv with hdv2 | hvd2
            · exact Or.inr hdv2
            · refine Or.inl ?_
              rw [ha1]
              exact List.mem_append_left _ hvd2
        · cases c2 with
          | nil =>
            have hds2 : depsMap (chainF fuel w d0 vis).w j = some dsj :=
              ((chainF_basic fuel w d0 vis).2.2.2 j).trans hdsj
            have h2 := ih (chainF fuel w d0 vis).w (chainF fuel w d0 vis).vis j dsj hds2
              [] s (by simpa using hc2.symm) d hd hdj
            rcases h2 with hvd | hdv
            · cases hvd
            · rcases vis_mem_of_inv w vis (chainF fuel w d0 vis)
                  (chainF_basic fuel w d0 vis).2.1 d hdv with hdv2 | hvd2
              · exact Or.inr hdv2
              · refine Or.inl ?_
                have hp : p = (chainF fuel w d0 vis).tr := by simpa using hc1.symm
                rw [hp]
                exact hvd2
          | cons e2 t2 =>
            simp only [List.cons_append] at hc2
            injection hc2 with he hs
            have h2 := IHo w d0 vis j dsj hdsj p t2 (by rw [hc1, ← he]) d hd hdj
            exact h2
      · simp only [hok1, Bool.false_eq_true, if_false] at htr
        exact IHo w d0 vis j dsj hdsj p s htr d hd hdj

/-- `computeChain` satisfies order discipline: dependencies are computed (or
already visited) before the variable itself. -/
theorem chainF_ord :
    ∀ (fuel : Nat) (w : World) (i : Nat) (vis : List Nat),
      OrdProp w vis (chainF fuel w i vis) := by
  intro fuel
  induction fuel with
  | zero =>
    intro w i vis j ds hds p s htr d hd hdj
    exfalso
    simp only [chainF] at htr
    have := congrArg List.length htr
    simp only [List.length_nil, List.length_append, List.length_cons] at this
    omega
  | succ fuel ih =>
    intro w i vis j ds hds p s htr d hd hdj
    unfold chainF at htr
    by_cases hvis : vis.contains i = true
    · simp only [hvis, if_true] at htr
      exfalso
      have := congrArg List.length htr
      simp only [List.length_nil, List.length_append, List.length_cons] at this
      omega
    · simp only [hvis, Bool.false_eq_true, if_false] at htr
      cases hwi : w.vars i with
      | none =>
        simp only [hwi] at htr
        exfalso
        have hmem : TraceEv.comp j ∈ [TraceEv.visit i] := by
          rw [htr]
          exact List.mem_append_right p (List.mem_cons_self _ _)
        simp at hmem
      | some v =>
        simp only [hwi] at htr
        by_cases hok : (chainDepsAux (fun w' d' vis' => chainF fuel w' d' vis') i w
            v.dependencies (i :: vis)).ok = true
        · simp only [hok, if_true] at htr
          cases p with
          | nil =>
            exfalso
            injection htr with h1 h2
            exact TraceEv.noConfusion h1
          | cons a p2 =>
            injection htr with h1 h2
            rcases append_singleton_cases _ _ _ _ _ h2 with ⟨hs0, hp2, he⟩ | ⟨s2, hs2, hteq⟩
            · have hji : j = i := by injection he
              subst hji
              have hdse : ds = v.dependencies := by
                unfold depsMap at hds
                rw [hwi] at hds
                simpa using hds.symm
              have hdvis := chainDeps_visits fuel j v.dependencies w (j :: vis) hok d
                (by rw [← hdse]; exact hd) hdj
              rcases vis_mem_of_inv w (j :: vis)
                  (chainDepsAux (fun w' d' vis' => chainF fuel w' d' vis') j w
                    v.dependencies (j :: vis))
                  (chainDeps_basic fuel (chainF_basic fuel) j v.dependencies w
                    (j :: vis)).2.1 d hdvis with hin | hvd
              · rcases List.mem_cons.mp hin with rfl | hin2
                · exact absurd rfl hdj
                · exact Or.inr hin2
              · refine Or.inl ?_
                have hvp2 : TraceEv.visit d ∈ p2 := by
                  rw [hp2]
                  exact hvd
                exact List.mem_cons_of_mem a hvp2
            · have h2o := chainDeps_ord fuel ih i v.dependencies w (i :: vis) j ds hds
                p2 s2 hteq d hd hdj
              rcases h2o with hvd | hin
              · exact Or.inl (List.mem_cons_of_mem a hvd)
              · rcases List.mem_cons.mp hin with rfl | hin2
                · refine Or.inl ?_
                  rw [← h1]
                  exact List.mem_cons_self _ _
                · exact Or.inr hin2
        · simp only [hok, Bool.false_eq_true, if_false] at htr
          cases p with
          | nil =>
            exfalso
            injection htr with h1 h2
            exact TraceEv.noConfusion h1
          | cons a p2 =>
            injection htr with h1 h2
            have h2o := chainDeps_ord fuel ih i v.dependencies w (i :: vis) j ds hds
              p2 s h2 d hd hdj
            rcases h2o with hvd | hin
            · exact Or.inl (List.mem_cons_of_mem a hvd)
            · rcases List.mem_cons.mp hin with rfl | hin2
              · refine Or.inl ?_
                rw [← h1]
                exact List.mem_cons_self _ _
              · exact Or.inr hin2

/-- **C6.** `computeChain` with the session's fuel (`varsCount + 1`)
terminates on every finite dependency graph — diamonds, cycles and
self-edges included (a self-edge is skipped, not recursed into) — and
within one invocation each variable's `compute()` runs at most once, with
every non-self dependency of a computed variable visited earlier in the
run. -/
theorem computeChain_spec (w : World) (i : Nat)
    (hdom : ∀ j, w.varsCount ≤ j → w.vars j = none) :
    (chainF (w.varsCount + 1) w i []).ok = true ∧
    (∀ j, (chainF (w.varsCount + 1) w i []).tr.count (TraceEv.comp j) ≤ 1) ∧
    (∀ j v, w.vars j = some v → ∀ p s,
      (chainF (w.varsCount + 1) w i []).tr = p ++ TraceEv.comp j :: s →
      ∀ d, d ∈ v.dependencies → d ≠ j → TraceEv.visit d ∈ p) := by
  refine ⟨?_, ?_, ?_⟩
  · apply chainF_term w.varsCount (w.varsCount + 1) w i [] hdom
    have hle : unseen w.varsCount w [] ≤ w.varsCount := by
      have h2 := List.length_filter_le
        (fun j => !([] : List Nat).contains j && (w.vars j).isSome)
        (List.range w.varsCount)
      simpa [unseen] using h2
    omega
  · intro j
    have hC := (chainF_basic (w.varsCount + 1) w i []).2.2.1 j
    have hB := (chainF_basic (w.varsCount + 1) w i []).2.1 j
    by_cases hj : j ∈ (chainF (w.varsCount + 1) w i []).vis ∧ j ∉ ([] : List Nat)
    · rw [if_pos hj] at hB
      omega
    · rw [if_neg hj] at hB
      omega
  · intro j v hv p s htr d hd hdj
    have hdm : depsMap w j = some v.dependencies := by
      unfold depsMap
      rw [hv]
      rfl
    rcases chainF_ord (w.varsCount + 1) w i [] j v.dependencies hdm p s htr d hd hdj with
      h | h
    · exact h
    · cases h

theorem computeChain_spec_witness :
    (chainF (w6.varsCount + 1) w6 0 []).ok = true ∧
    (∀ j, (chainF (w6.varsCount + 1) w6 0 []).tr.count (TraceEv.comp j) ≤ 1) ∧
    (∀ j v, w6.vars j = some v → ∀ p s,
      (chainF (w6.varsCount + 1) w6 0 []).tr = p ++ TraceEv.comp j :: s →
      ∀ d, d ∈ v.dependencies → d ≠ j → TraceEv.visit d ∈ p) := by
  apply computeChain_spec
  intro j hj
  have h3 : 3 ≤ j := hj
  match j with
  | 0 => omega
  | 1 => omega
  | 2 => omega
  | j + 3 => rfl

/-- Unpacking a view equality pointwise. -/
theorem view_some {f g : Nat → Option VarState} (j : Nat)
    (hv : Option.map Rview (f j) = Option.map Rview (g j)) :
    ∀ u, f j = some u → ∃ v, g j = some v ∧
      u.ping = v.ping ∧ u.pong = v.pong ∧
      u.externalPingTexture = v.externalPingTexture ∧
      u.texturesDestroyed = v.texturesDestroyed := by
  intro u hu
  rw [hu] at hv
  cases hg : g j with
  | none =>
    rw [hg] at hv
    simp at hv
  | some v =>
    rw [hg] at hv
    simp only [Option.map_some'] at hv
    have h2 := Option.some_inj.mp hv
    unfold Rview at h2
    simp only [Prod.mk.injEq] at h2
    obtain ⟨h1, h2, h3, h4⟩ := h2
    exact ⟨v, rfl, h1, h2, h3, h4⟩

/-- `TexInv` only depends on the slot/ownership view, the variable count,
the freed list, and (antitonically) the texture count. -/
theorem TexInv_view (w w1 : World)
    (hv : ∀ j, Option.map Rview (w1.vars j) = Option.map Rview (w.vars j))
    (hc : w1.varsCount = w.varsCount)
    (ht : w.texDims.length ≤ w1.texDims.length)
    (hf : w1.freed = w.freed) :
    TexInv w → TexInv w1 := by
  intro h
  obtain ⟨hD, hV, hP⟩ := h
  refine ⟨?_, ?_, ?_⟩
  · intro k hk
    rw [hc] at hk
    have h0 := hD k hk
    have h1 := hv k
    rw [h0] at h1
    simp only [Option.map_none'] at h1
    exact Option.map_eq_none'.mp h1
  · intro i v hvi
    obtain ⟨v0, hv0, e1, e2, e3, e4⟩ := view_some i (hv i) v hvi
    obtain ⟨hVp, hVq, hVe⟩ := hV i v0 hv0
    refine ⟨?_, ?_, ?_⟩
    · intro a ha
      rw [e1] at ha
      exact Nat.lt_of_lt_of_le (hVp a ha) ht
    · intro b hb
      rw [e2] at hb
      exact Nat.lt_of_lt_of_le (hVq b hb) ht
    · intro he
      rw [e3] at he
      rw [e1]
      exact hVe he
  · intro t hprot
    obtain ⟨i, v, hvi, hext, hping⟩ := hprot
    obtain ⟨v0, hv0, e1, e2, e3, e4⟩ := view_some i (hv i) v hvi
    have hprot0 : ∃ i v, w.vars i = some v ∧ v.externalPingTexture = true ∧
        v.ping = some t := ⟨i, v0, hv0, e3 ▸ hext, e1 ▸ hping⟩
    obtain ⟨hfree, hshape⟩ := hP t hprot0
    refine ⟨by rw [hf]; exact hfree, ?_⟩
    intro k u hku htd
    obtain ⟨u0, hu0, f1, f2, f3, f4⟩ := view_some k (hv k) u hku
    obtain ⟨hs1, hs2⟩ := hshape k u0 hu0 (f4 ▸ htd)
    constructor
    · intro hp
      rw [f3]
      exact hs1 (f1 ▸ hp)
    · intro hq
      rw [f1]
      exact hs2 (f2 ▸ hq)

/-- Updating one variable without changing its view preserves `TexInv`. -/
theorem TexInv_setVarView (w : World) (i : Nat) (v v1 : VarState)
    (hv : w.vars i = some v) (hview : Rview v1 = Rview v) :
    TexInv w → TexInv (w.setVar i v1) := by
  apply TexInv_view
  · intro j
    by_cases hj : j = i
    · subst hj
      rw [setVar_vars_self, hv]
      simp [hview]
    · rw [setVar_vars_ne _ _ _ _ hj]
  · rfl
  · exact Nat.le_refl _
  · rfl

theorem TexInv_removeDependent (w : World) (d s : Nat) :
    TexInv w → TexInv (removeDependent w d s) := by
  intro h
  unfold removeDependent
  cases hd : w.vars d with
  | none => exact h
  | some v => exact TexInv_setVarView w d v _ hd rfl h

theorem TexInv_addDependent (w : World) (d s : Nat) :
    TexInv w → TexInv (addDependent w d s) := by
  intro h
  unfold addDependent
  cases hd : w.vars d with
  | none => exact h
  | some v => exact TexInv_setVarView w d v _ hd rfl h

theorem TexInv_foldRemove (s : Nat) (deps : List Nat) :
    ∀ w : World, TexInv w →
      TexInv (deps.foldl (fun acc d => removeDependent acc d s) w) := by
  induction deps with
  | nil => exact fun w h => h
  | cons d rest ih => exact fun w h => ih _ (TexInv_removeDependent w d s h)

theorem TexInv_foldAdd (s : Nat) (deps : List Nat) :
    ∀ w : World, TexInv w →
      TexInv (deps.foldl (fun acc d => addDependent acc d s) w) := by
  induction deps with
  | nil => exact fun w h => h
  | cons d rest ih => exact fun w h => ih _ (TexInv_addDependent w d s h)

theorem TexInv_setUniform (w : World) (i : Nat) (k : String) (val : UniVal) :
    TexInv w → TexInv (setUniform w i k val) := by
  intro h
  unfold setUniform
  cases hv : w.vars i with
  | none => exact h
  | some v => exact TexInv_setVarView w i v _ hv rfl h

theorem TexInv_setDependencies (w : World) (i : Nat) (ds : List Nat) :
    TexInv w → TexInv (setDependencies w i ds) := by
  intro h
  unfold setDependencies
  cases hvi : w.vars i with
  | none => exact h
  | some v =>
    simp only [hvi]
    obtain ⟨dd, h1⟩ := foldRemove_shape i i v.dependencies w v hvi
    simp only [h1]
    have h2 := TexInv_foldRemove i v.dependencies w h
    have h3 := TexInv_setVarView _ i _ { { v with dependents := dd } with
      dependencies := ds } h1 rfl h2
    exact TexInv_foldAdd i ds _ h3

/-- `destroyTextures()` preserves the ownership invariant: the only freed
id is the alternate buffer, and the skip-guard together with the invariant
protects every adopted external ping. -/
theorem TexInv_destroyTextures (w : World) (i : Nat) :
    TexInv w → TexInv (destroyTexturesStep w i) := by
  intro h
  obtain ⟨hD, hV, hP⟩ := h
  unfold destroyTexturesStep
  cases hvi : w.vars i with
  | none => exact ⟨hD, hV, hP⟩
  | some v =>
    cases htd : v.texturesDestroyed with
    | true =>
      simp only [htd, if_true]
      exact ⟨hD, hV, hP⟩
    | false =>
      simp only [htd, Bool.false_eq_true, if_false]
      have hD2 : ∀ k, w.varsCount ≤ k →
          Function.update w.vars i (some { v with texturesDestroyed := true }) k =
            none := by
        intro k hk
        have hk0 := hD k hk
        have hki : k ≠ i := by
          intro hh
          rw [hh, hvi] at hk0
          cases hk0
        rw [Function.update_noteq hki]
        exact hk0
      have hview : ∀ j u,
          Function.update w.vars i (some { v with texturesDestroyed := true }) j =
            some u →
          ∃ v0, w.vars j = some v0 ∧ u.ping = v0.ping ∧ u.pong = v0.pong ∧
            u.externalPingTexture = v0.externalPingTexture := by
        intro j u hu
        by_cases hji : j = i
        · subst hji
          rw [Function.update_same] at hu
          obtain rfl := (Option.some_inj.mp hu).symm
          exact ⟨v, hvi, rfl, rfl, rfl⟩
        · rw [Function.update_noteq hji] at hu
          exact ⟨u, hu, rfl, rfl, rfl⟩
      have hV2 : ∀ j u,
          Function.update w.vars i (some { v with texturesDestroyed := true }) j =
            some u →
          (∀ a, u.ping = some a → a < w.texDims.length) ∧
          (∀ b, u.pong = some b → b < w.texDims.length) ∧
          (u.externalPingTexture = true → u.ping ≠ none) := by
        intro j u hu
        obtain ⟨v0, hv0, e1, e2, e3⟩ := hview j u hu
        obtain ⟨g1, g2, g3⟩ := hV j v0 hv0
        refine ⟨?_, ?_, ?_⟩
        · intro a ha
          rw [e1] at ha
          exact g1 a ha
        · intro b hb
          rw [e2] at hb
          exact g2 b hb
        · intro he
          rw [e3] at he
          rw [e1]
          exact g3 he
      have hP2 : ∀ t, (∃ i0 v0,
            Function.update w.vars i (some { v with texturesDestroyed := true }) i0 =
              some v0 ∧ v0.externalPingTexture = true ∧ v0.ping = some t) →
          t ∉ w.freed ++
            (if v.needsPingPong then
              (if (if v.currentIndex = 0 then v.pong else v.ping) = v.ping ∧
                  v.externalPingTexture = true then ([] : List Nat)
                else (if v.currentIndex = 0 then v.pong else v.ping).toList)
             else []) ∧
          (∀ k u, Function.update w.vars i
              (some { v with texturesDestroyed := true }) k = some u →
            u.texturesDestroyed = false →
            (u.ping = some t → u.externalPingTexture = true) ∧
            (u.pong = some t → u.ping = some t)) := by
        intro t hprot
        obtain ⟨i0, v0, hv0, hext0, hping0⟩ := hprot
        obtain ⟨v1, hv1, e1, e2, e3⟩ := hview i0 v0 hv0
        have hprotW : ∃ i2 v2, w.vars i2 = some v2 ∧ v2.externalPingTexture = true ∧
            v2.ping = some t := ⟨i0, v1, hv1, e3 ▸ hext0, e1 ▸ hping0⟩
        obtain ⟨hfree, hshape⟩ := hP t hprotW
        constructor
        · intro hmem
          rcases List.mem_append.mp hmem with hm | hm
          · exact hfree hm
          · by_cases hnpp : v.needsPingPong = true
            · rw [if_pos hnpp] at hm
              by_cases hguard : ((if v.currentIndex = 0 then v.pong else v.ping) =
                  v.ping ∧ v.externalPingTexture = true)
              · rw [if_pos hguard] at hm
                cases hm
              · rw [if_neg hguard] at hm
                have halt : (if v.currentIndex = 0 then v.pong else v.ping) =
                    some t := by
                  simpa using hm
                obtain ⟨hs1, hs2⟩ := hshape i v hvi htd
                apply hguard
                by_cases hidx : v.currentIndex = 0
                · rw [if_pos hidx] at halt
                  have hpingv : v.ping = some t := hs2 halt
                  refine ⟨?_, hs1 hpingv⟩
                  rw [if_pos hidx, halt, hpingv]
                · rw [if_neg hidx] at halt
                  refine ⟨?_, hs1 halt⟩
                  rw [if_neg hidx]
            · have hnpp2 : v.needsPingPong = false := by simpa using hnpp
              rw [hnpp2] at hm
              simp at hm
        · intro k u hku htdu
          by_cases hki : k = i
          · subst hki
            rw [Function.update_same] at hku
            obtain rfl := (Option.some_inj.mp hku).symm
            exact absurd htdu (by simp)
          · rw [Function.update_noteq hki] at hku
            exact hshape k u hku htdu
      exact ⟨hD2, hV2, hP2⟩

/-- One destroy-loop iteration preserves the ownership invariant. -/
theorem TexInv_destroyDepVisit (s : Nat) (w : World) (d : Nat) :
    TexInv w → TexInv (destroyDepVisit s w d) := by
  intro h
  unfold destroyDepVisit removeDependent
  cases hd : w.vars d with
  | none =>
    simp only [hd]
    exact h
  | some v =>
    simp only [hd, setVar_vars_self]
    have h1 := TexInv_setVarView w d v
      { v with dependents := v.dependents.filter (· ≠ s) } hd rfl h
    split
    · exact TexInv_destroyTextures _ d h1
    · exact h1

/-- The destroy loop preserves the ownership invariant. -/
theorem TexInv_foldDestroy (s : Nat) (deps : List Nat) :
    ∀ w : World, TexInv w → TexInv (deps.foldl (destroyDepVisit s) w) := by
  induction deps with
  | nil => exact fun w h => h
  | cons d rest ih => exact fun w h => ih _ (TexInv_destroyDepVisit s w d h)

/-- `destroy()` preserves the ownership invariant. -/
theorem TexInv_destroyStep (w : World) (i : Nat) :
    TexInv w → TexInv (destroyStep w i) := by
  intro h
  unfold destroyStep
  cases hvi : w.vars i with
  | none => exact h
  | some v =>
    cases hdes : v.destroyed with
    | true =>
      simp only [hdes, if_true]
      exact h
    | false =>
      simp only [hdes, Bool.false_eq_true, if_false]
      have h1 := TexInv_setVarView w i v { v with destroyed := true } hvi rfl h
      obtain ⟨dd, td, h2⟩ := foldDestroy_shape i i v.dependencies
        (w.setVar i { v with destroyed := true }) { v with destroyed := true }
        (setVar_vars_self _ _ _)
      have h3 := TexInv_foldDestroy i v.dependencies _ h1
      simp only [h2]
      cases hemp : dd.isEmpty with
      | true =>
        simp only [hemp, if_true]
        have h4 := TexInv_destroyTextures _ i h3
        obtain ⟨td2, h5⟩ := destroyTextures_shape _ i i _ h2
        simp only [h5]
        exact TexInv_setVarView _ i _ _ h5 rfl h4
      | false =>
        simp only [hemp, Bool.false_eq_true, if_false, h2]
        exact TexInv_setVarView _ i _ _ h2 rfl h3

/-- Common shape of every `ensureTextures` branch: the variable keeps its
ownership flags, its slots are either kept, aliased to its own ping, or
filled with freshly allocated ids; the texture list only grows. -/
theorem TexInv_ensure_branch (w w1 : World) (i : Nat) (v v1 : VarState)
    (hv : w.vars i = some v)
    (hw1v : w1.vars = Function.update w.vars i (some v1))
    (hw1c : w1.varsCount = w.varsCount)
    (hw1t : w.texDims.length ≤ w1.texDims.length)
    (hw1f : w1.freed = w.freed)
    (he1 : v1.externalPingTexture = v.externalPingTexture)
    (htd1 : v1.texturesDestroyed = v.texturesDestroyed)
    (hping : v1.ping = v.ping ∨
      (v.ping = none ∧ ∃ c, v1.ping = some c ∧ w.texDims.length ≤ c ∧
        c < w1.texDims.length))
    (hpong : v1.pong = v.pong ∨ v1.pong = v1.ping ∨
      ∃ c, v1.pong = some c ∧ w.texDims.length ≤ c ∧ c < w1.texDims.length) :
    TexInv w → TexInv w1 := by
  intro h
  obtain ⟨hD, hV, hP⟩ := h
  have hview : ∀ j u, w1.vars j = some u → (j = i ∧ u = v1) ∨
      (j ≠ i ∧ w.vars j = some u) := by
    intro j u hu
    rw [hw1v] at hu
    by_cases hji : j = i
    · subst hji
      rw [Function.update_same] at hu
      exact Or.inl ⟨rfl, (Option.some_inj.mp hu).symm⟩
    · rw [Function.update_noteq hji] at hu
      exact Or.inr ⟨hji, hu⟩
  have hpingB : ∀ a, v1.ping = some a → a < w1.texDims.length := by
    intro a ha
    rcases hping with hpe | ⟨-, c, hc1, -, hc3⟩
    · rw [hpe] at ha
      exact Nat.lt_of_lt_of_le ((hV i v hv).1 a ha) hw1t
    · rw [hc1] at ha
      obtain rfl := Option.some_inj.mp ha.symm
      exact hc3
  have hpongB : ∀ b, v1.pong = some b → b < w1.texDims.length := by
    intro b hb
    rcases hpong with hqe | hqp | ⟨c, hc1, -, hc3⟩
    · rw [hqe] at hb
      exact Nat.lt_of_lt_of_le ((hV i v hv).2.1 b hb) hw1t
    · rw [hqp] at hb
      exact hpingB b hb
    · rw [hc1] at hb
      obtain rfl := Option.some_inj.mp hb.symm
      exact hc3
  refine ⟨?_, ?_, ?_⟩
  · intro k hk
    rw [hw1c] at hk
    have hk0 := hD k hk
    have hki : k ≠ i := by
      intro hh
      rw [hh, hv] at hk0
      cases hk0
    rw [hw1v, Function.update_noteq hki]
    exact hk0
  · intro j u hu
    rcases hview j u hu with ⟨-, rfl⟩ | ⟨-, hju⟩
    · refine ⟨hpingB, hpongB, ?_⟩
      intro he
      rw [he1] at he
      have hne := (hV i v hv).2.2 he
      rcases hping with hpe | ⟨-, c, hc1, -, -⟩
      · rw [hpe]
        exact hne
      · rw [hc1]
        exact Option.noConfusion
    · obtain ⟨g1, g2, g3⟩ := hV j u hju
      exact ⟨fun a ha => Nat.lt_of_lt_of_le (g1 a ha) hw1t,
        fun b hb => Nat.lt_of_lt_of_le (g2 b hb) hw1t, g3⟩
  · intro t hprot
    obtain ⟨i0, v0, hv0, hext0, hping0⟩ := hprot
    have hprotW : ∃ i2 v2, w.vars i2 = some v2 ∧ v2.externalPingTexture = true ∧
        v2.ping = some t := by
      rcases hview i0 v0 hv0 with ⟨-, rfl⟩ | ⟨-, hj0⟩
      · rw [he1] at hext0
        rcases hping with hpe | ⟨hpn, -, -, -, -⟩
        · rw [hpe] at hping0
          exact ⟨i, v, hv, hext0, hping0⟩
        · exact absurd hpn ((hV i v hv).2.2 hext0)
      · exact ⟨i0, v0, hj0, hext0, hping0⟩
    obtain ⟨hfree, hshape⟩ := hP t hprotW
    have htlen : t < w.texDims.length := by
      obtain ⟨i2, v2, hv2, -, hping2⟩ := hprotW
      exact (hV i2 v2 hv2).1 t hping2
    refine ⟨by rw [hw1f]; exact hfree, ?_⟩
    intro k u hku htdu
    rcases hview k u hku with ⟨-, rfl⟩ | ⟨-, hju⟩
    · rw [htd1] at htdu
      obtain ⟨hs1, hs2⟩ := hshape i v hv htdu
      constructor
      · intro hp
        rcases hping with hpe | ⟨-, c, hc1, hc2, -⟩
        · rw [hpe] at hp
          rw [he1]
          exact hs1 hp
        · rw [hc1] at hp
          obtain rfl := Option.some_inj.mp hp.symm
          omega
      · intro hq
        rcases hpong with hqe | hqp | ⟨c, hc1, hc2, -⟩
        · rw [hqe] at hq
          have hpv := hs2 hq
          rcases hping with hpe | ⟨hpn, -, -, -, -⟩
          · rw [hpe]
            exact hpv
          · rw [hpn] at hpv
            cases hpv
        · rw [hqp] at hq
          exact hq
        · rw [hc1] at hq
          obtain rfl := Option.some_inj.mp hq.symm
          omega
    · exact hshape k u hju htdu

/-- `ensureTextures` preserves the ownership invariant. -/
theorem TexInv_ensure (w : World) (i : Nat) :
    TexInv w → TexInv (ensureTextures w i) := by
  intro h
  cases hv : w.vars i with
  | none =>
    unfold ensureTextures
    simp only [hv]
    exact h
  | some v =>
    cases hp : v.ping with
    | some a =>
      cases hq : v.pong with
      | some b =>
        rw [ensure_some_some w i v hv a b hp hq]
        exact TexInv_setVarView w i v v hv rfl h
      | none =>
        cases hnp : v.needsPingPong with
        | true =>
          rw [ensure_some_none_pp w i v hv a hp hq hnp]
          refine TexInv_ensure_branch w _ i v _ hv rfl rfl (by simp) rfl rfl rfl
            (Or.inl rfl) (Or.inr (Or.inr ⟨w.texDims.length, rfl, Nat.le_refl _, ?_⟩)) h
          simp
        | false =>
          rw [ensure_some_none_nopp w i v hv a hp hq hnp]
          refine TexInv_ensure_branch w _ i v _ hv rfl rfl (Nat.le_refl _) rfl rfl rfl
            (Or.inl rfl) (Or.inr (Or.inl ?_)) h
          simp [hp]
    | none =>
      cases hq : v.pong with
      | some b =>
        rw [ensure_none_some w i v hv b hp hq]
        refine TexInv_ensure_branch w _ i v _ hv rfl rfl (by simp) rfl rfl rfl
          (Or.inr ⟨hp, w.texDims.length, rfl, Nat.le_refl _, ?_⟩) (Or.inl rfl) h
        simp
      | none =>
        cases hnp : v.needsPingPong with
        | true =>
          rw [ensure_none_none_pp w i v hv hp hq hnp]
          refine TexInv_ensure_branch w _ i v _ hv rfl rfl (by simp) rfl rfl rfl
            (Or.inr ⟨hp, w.texDims.length, rfl, Nat.le_refl _, ?_⟩)
            (Or.inr (Or.inr ⟨w.texDims.length + 1, rfl, Nat.le_succ _, ?_⟩)) h
          · simp
          · simp
        | false =>
          rw [ensure_none_none_nopp w i v hv hp hq hnp]
          refine TexInv_ensure_branch w _ i v _ hv rfl rfl (by simp) rfl rfl rfl
            (Or.inr ⟨hp, w.texDims.length, rfl, Nat.le_refl _, ?_⟩)
            (Or.inr (Or.inl rfl)) h
          simp

/-- Replacing the pass log preserves the ownership invariant. -/
theorem TexInv_passLog (w : World) (l : List PassEv) :
    TexInv w → TexInv { w with passLog := l } := by
  apply TexInv_view
  · intro j
    rfl
  · rfl
  · exact Nat.le_refl _
  · rfl

/-- `initUnchecked` preserves the ownership invariant. -/
theorem TexInv_initUnchecked (w : World) (i : Nat) :
    TexInv w → TexInv (initUnchecked w i) := by
  intro h
  unfold initUnchecked
  cases hv : w.vars i with
  | none => exact h
  | some v =>
    simp only [hv]
    have h1 := TexInv_setVarView w i v
      { v with needsPingPong := v.dependencies.contains i } hv rfl h
    have h2 := TexInv_ensure _ i h1
    cases hv2 : (ensureTextures (w.setVar i
        { v with needsPingPong := v.dependencies.contains i }) i).vars i with
    | none =>
      simp only [hv2]
      exact h2
    | some v2 =>
      simp only [hv2]
      exact TexInv_setVarView _ i v2 _ hv2 rfl h2

/-- `compute()` preserves the ownership invariant. -/
theorem TexInv_computeStep (w : World) (i : Nat) :
    TexInv w → TexInv (computeStep w i) := by
  intro h
  unfold computeStep
  cases hv : w.vars i with
  | none => exact h
  | some v =>
    simp only [hv]
    have h1 : TexInv (if v.initialized then w else initUnchecked w i) := by
      by_cases hi : v.initialized = true
      · rw [if_pos hi]
        exact h
      · rw [if_neg hi]
        exact TexInv_initUnchecked w i h
    cases hv1 : (if v.initialized then w else initUnchecked w i).vars i with
    | none =>
      simp only [hv1]
      exact h1
    | some v1 =>
      simp only [hv1]
      have h2 := TexInv_passLog (if v.initialized then w else initUnchecked w i)
        ((if v.initialized then w else initUnchecked w i).passLog ++
          [PassEv.mk i ((if v1.currentIndex = 0 then v1.pong else v1.ping).getD 0)
            false v1.uniforms]) h1
      have hv1b : ({ (if v.initialized then w else initUnchecked w i) with
          passLog := (if v.initialized then w else initUnchecked w i).passLog ++
            [PassEv.mk i ((if v1.currentIndex = 0 then v1.pong else v1.ping).getD 0)
              false v1.uniforms] } : World).vars i = some v1 := hv1
      exact TexInv_setVarView _ i v1 { v1 with currentIndex := 1 - v1.currentIndex }
        hv1b rfl h2

/-- `fillTexture` preserves the ownership invariant on success. -/
theorem TexInv_fillTexture (w : World) (i len : Nat) (w2 : World)
    (hok : fillTexture w i len = .ok w2) : TexInv w → TexInv w2 := by
  intro h
  unfold fillTexture at hok
  cases hv : w.vars i with
  | none =>
    simp only [hv] at hok
    injection hok with h2
    subst h2
    exact h
  | some v =>
    simp only [hv] at hok
    by_cases hlen : len ≠ v.width * v.height * 4
    · rw [if_pos hlen] at hok
      cases hok
    · rw [if_neg hlen] at hok
      by_cases hinit : v.initialized = true
      · rw [if_pos hinit] at hok
        cases hok
      · rw [if_neg hinit] at hok
        cases hv1 : (ensureTextures w i).vars i with
        | none =>
          simp only [hv1] at hok
          injection hok with h2
          subst h2
          exact TexInv_ensure w i h
        | some v1 =>
          simp only [hv1] at hok
          by_cases hnpp : v1.needsPingPong = true
          · rw [if_pos hnpp] at hok
            injection hok with h2
            subst h2
            exact TexInv_passLog _ _ (TexInv_ensure w i h)
          · rw [if_neg hnpp] at hok
            injection hok with h2
            subst h2
            exact TexInv_ensure w i h

/-- `fillTextureFrom` preserves the ownership invariant on success. -/
theorem TexInv_fillTextureFrom (w : World) (i src : Nat) (w2 : World)
    (hok : fillTextureFrom w i src = .ok w2) : TexInv w → TexInv w2 := by
  intro h
  unfold fillTextureFrom at hok
  cases hv : w.vars i with
  | none =>
    simp only [hv] at hok
    injection hok with h2
    subst h2
    exact h
  | some v =>
    simp only [hv] at hok
    by_cases hinit : v.initialized = true
    · rw [if_pos hinit] at hok
      cases hok
    · rw [if_neg hinit] at hok
      cases hv1 : (ensureTextures w i).vars i with
      | none =>
        simp only [hv1] at hok
        injection hok with h2
        subst h2
        exact TexInv_ensure w i h
      | some v1 =>
        simp only [hv1] at hok
        by_cases hnpp : v1.needsPingPong = true
        · rw [if_pos hnpp] at hok
          injection hok with h2
          subst h2
          exact TexInv_passLog _ _ (TexInv_passLog _ _ (TexInv_ensure w i h))
        · rw [if_neg hnpp] at hok
          injection hok with h2
          subst h2
          exact TexInv_passLog _ _ (TexInv_ensure w i h)

/-- Unpacking the ownership check. -/
theorem extTexOk_facts (w : World) (i t : Nat) (h : extTexOk w i t = true)
    (hD : ∀ k, w.varsCount ≤ k → w.vars k = none) :
    t < w.texDims.length ∧ t ∉ w.freed ∧
    (∀ v, w.vars i = some v → v.pong = none ∨ v.pong = some t) ∧
    (∀ k u, w.vars k = some u →
      (u.ping = some t → u.externalPingTexture = true) ∧
      (u.pong = some t → u.ping = some t)) := by
  unfold extTexOk at h
  simp only [Bool.and_eq_true, decide_eq_true_eq, List.all_eq_true] at h
  obtain ⟨⟨⟨h1, h2⟩, h3⟩, h4⟩ := h
  refine ⟨h1, ?_, ?_, ?_⟩
  · intro hc
    have hc2 : w.freed.contains t = true := by simpa using hc
    rw [hc2] at h2
    exact Bool.noConfusion h2
  · intro v hv
    rw [hv] at h3
    simp only [Bool.or_eq_true, beq_iff_eq] at h3
    exact h3
  · intro k u hku
    have hkc : k < w.varsCount := by
      by_contra hge
      rw [hD k (Nat.le_of_not_lt hge)] at hku
      cases hku
    have h5 := h4 k (List.mem_range.mpr hkc)
    rw [hku] at h5
    simp only [Bool.and_eq_true, Bool.or_eq_true, beq_iff_eq,
      Bool.not_eq_eq_eq_not, Bool.not_true, Bool.not_eq_true'] at h5
    constructor
    · intro hp
      rcases h5.1 with h6 | h6
      · rw [hp] at h6
        simp at h6
      · exact h6
    · intro hq
      rcases h5.2 with h6 | h6
      · rw [hq] at h6
        simp at h6
      · exact h6

/-- `setInitialTexture` with an externally owned texture preserves the
ownership invariant. -/
theorem TexInv_setInitialTexture_facts (w : World) (i t : Nat) (w2 : World)
    (hok : setInitialTexture w i t = .ok w2)
    (ht : t < w.texDims.length) (hf : t ∉ w.freed)
    (hguard : ∀ v, w.vars i = some v → v.pong = none ∨ v.pong = some t)
    (hall : ∀ k u, w.vars k = some u →
      (u.ping = some t → u.externalPingTexture = true) ∧
      (u.pong = some t → u.ping = some t)) :
    TexInv w → TexInv w2 := by
  intro h
  obtain ⟨hD, hV, hP⟩ := h
  unfold setInitialTexture at hok
  cases hv : w.vars i with
  | none =>
    simp only [hv] at hok
    injection hok with h2
    subst h2
    exact ⟨hD, hV, hP⟩
  | some v =>
    simp only [hv] at hok
    by_cases hinit : v.initialized = true
    · rw [if_pos hinit] at hok
      cases hok
    · rw [if_neg hinit] at hok
      by_cases hdim : ((w.texDims.getD t (0, 0)).1 ≠ v.width ∨
          (w.texDims.getD t (0, 0)).2 ≠ v.height)
      · rw [if_pos hdim] at hok
        cases hok
      · rw [if_neg hdim] at hok
        injection hok with h2
        subst h2
        refine ⟨?_, ?_, ?_⟩
        · intro k hk
          have hk0 := hD k hk
          have hki : k ≠ i := by
            intro hh
            rw [hh, hv] at hk0
            cases hk0
          show Function.update w.vars i _ k = none
          rw [Function.update_noteq hki]
          exact hk0
        · intro j u hu
          have hu2 : Function.update w.vars i
              (some { v with ping := some t, externalPingTexture := true }) j =
              some u := hu
          by_cases hji : j = i
          · subst hji
            rw [Function.update_same] at hu2
            obtain rfl := (Option.some_inj.mp hu2).symm
            refine ⟨?_, ?_, ?_⟩
            · intro a ha
              obtain rfl := Option.some_inj.mp ha.symm
              exact ht
            · intro b hb
              exact (hV j v hv).2.1 b hb
            · intro _
              exact Option.noConfusion
          · rw [Function.update_noteq hji] at hu2
            exact hV j u hu2
        · intro s hprot
          obtain ⟨i0, v0, hv0, hext0, hping0⟩ := hprot
          have hv0b : Function.update w.vars i
              (some { v with ping := some t, externalPingTexture := true }) i0 =
              some v0 := hv0
          by_cases hcase : s = t
          · subst hcase
            refine ⟨hf, ?_⟩
            intro k u hku htdu
            have hku2 : Function.update w.vars i
                (some { v with ping := some s, externalPingTexture := true }) k =
                some u := hku
            by_cases hki : k = i
            · subst hki
              rw [Function.update_same] at hku2
              obtain rfl := (Option.some_inj.mp hku2).symm
              exact ⟨fun _ => rfl, fun _ => rfl⟩
            · rw [Function.update_noteq hki] at hku2
              exact hall k u hku2
          · have hprotW : ∃ i2 v2, w.vars i2 = some v2 ∧
                v2.externalPingTexture = true ∧ v2.ping = some s := by
              by_cases hji : i0 = i
              · subst hji
                rw [Function.update_same] at hv0b
                obtain rfl := (Option.some_inj.mp hv0b).symm
                exact absurd (Option.some_inj.mp hping0.symm) hcase
              · rw [Function.update_noteq hji] at hv0b
                exact ⟨i0, v0, hv0b, hext0, hping0⟩
            obtain ⟨hfree, hshape⟩ := hP s hprotW
            refine ⟨hfree, ?_⟩
            intro k u hku htdu
            have hku2 : Function.update w.vars i
                (some { v with ping := some t, externalPingTexture := true }) k =
                some u := hku
            by_cases hki : k = i
            · subst hki
              rw [Function.update_same] at hku2
              obtain rfl := (Option.some_inj.mp hku2).symm
              refine ⟨fun _ => rfl, ?_⟩
              intro hq
              rcases hguard v hv with hg | hg
              · rw [hg] at hq
                cases hq
              · rw [hg] at hq
                exact absurd (Option.some_inj.mp hq.symm) hcase
            · rw [Function.update_noteq hki] at hku2
              exact hshape k u hku2 htdu

/-- Constructing a fresh variable preserves the ownership invariant. -/
theorem TexInv_freshVar (w : World) (cfg : VarCfg) :
    TexInv w → TexInv { w with
      vars := Function.update w.vars w.varsCount (some (freshVar cfg))
      varsCount := w.varsCount + 1 } := by
  intro h
  obtain ⟨hD, hV, hP⟩ := h
  refine ⟨?_, ?_, ?_⟩
  · intro k hk
    have hk2 : w.varsCount + 1 ≤ k := hk
    have hki : k ≠ w.varsCount := by omega
    show Function.update w.vars w.varsCount (some (freshVar cfg)) k = none
    rw [Function.update_noteq hki]
    exact hD k (by omega)
  · intro j u hu
    have hu2 : Function.update w.vars w.varsCount (some (freshVar cfg)) j =
        some u := hu
    by_cases hji : j = w.varsCount
    · subst hji
      rw [Function.update_same] at hu2
      obtain rfl := (Option.some_inj.mp hu2).symm
      exact ⟨fun a ha => Option.noConfusion ha, fun b hb => Option.noConfusion hb,
        fun he => Bool.noConfusion he⟩
    · rw [Function.update_noteq hji] at hu2
      exact hV j u hu2
  · intro s hprot
    obtain ⟨i0, v0, hv0, hext0, hping0⟩ := hprot
    have hv0b : Function.update w.vars w.varsCount (some (freshVar cfg)) i0 =
        some v0 := hv0
    have hprotW : ∃ i2 v2, w.vars i2 = some v2 ∧ v2.externalPingTexture = true ∧
        v2.ping = some s := by
      by_cases hji : i0 = w.varsCount
      · subst hji
        rw [Function.update_same] at hv0b
        obtain rfl := (Option.some_inj.mp hv0b).symm
        exact absurd hext0 (by simp [freshVar])
      · rw [Function.update_noteq hji] at hv0b
        exact ⟨i0, v0, hv0b, hext0, hping0⟩
    obtain ⟨hfree, hshape⟩ := hP s hprotW
    refine ⟨hfree, ?_⟩
    intro k u hku htdu
    have hku2 : Function.update w.vars w.varsCount (some (freshVar cfg)) k =
        some u := hku
    by_cases hki : k = w.varsCount
    · subst hki
      rw [Function.update_same] at hku2
      obtain rfl := (Option.some_inj.mp hku2).symm
      exact ⟨fun hp => Option.noConfusion hp, fun hq => Option.noConfusion hq⟩
    · rw [Function.update_noteq hki] at hku2
      exact hshape k u hku2 htdu

/-- Construction with an `initialTexture` option preserves the invariant. -/
theorem TexInv_mkVar (w : World) (cfg : VarCfg) (w2 : World)
    (hok : mkVar w cfg = .ok w2)
    (hval : texValidOp w (Op.newVar cfg) = true) :
    TexInv w → TexInv w2 := by
  intro h
  unfold mkVar at hok
  cases hit : cfg.initialTexture with
  | none =>
    simp only [hit] at hok
    injection hok with h2
    subst h2
    exact TexInv_freshVar w cfg h
  | some t =>
    simp only [hit] at hok
    have h1 := TexInv_freshVar w cfg h
    have hval2 : (match cfg.initialTexture with
        | none => true
        | some t => extTexOk w w.varsCount t) = true := hval
    rw [hit] at hval2
    obtain ⟨ht, hf, hguard, hall⟩ := extTexOk_facts w w.varsCount t hval2 h.1
    refine TexInv_setInitialTexture_facts _ w.varsCount t w2 hok ht hf ?_ ?_ h1
    · intro v hv
      have hv2 : Function.update w.vars w.varsCount (some (freshVar cfg))
          w.varsCount = some v := hv
      rw [Function.update_same] at hv2
      obtain rfl := (Option.some_inj.mp hv2).symm
      exact Or.inl rfl
    · intro k u hku
      have hku2 : Function.update w.vars w.varsCount (some (freshVar cfg)) k =
          some u := hku
      by_cases hki : k = w.varsCount
      · subst hki
        rw [Function.update_same] at hku2
        obtain rfl := (Option.some_inj.mp hku2).symm
        exact ⟨fun hp => Option.noConfusion hp, fun hq => Option.noConfusion hq⟩
      · rw [Function.update_noteq hki] at hku2
        exact hall k u hku2

/-- `computeOnce` preserves the ownership invariant on success. -/
theorem TexInv_computeOnce (w : World) (i : Nat) (w2 : World)
    (hok : computeOnceStep w i = .ok w2) : TexInv w → TexInv w2 := by
  intro h
  unfold computeOnceStep at hok
  cases hIV : initVar w i with
  | error e =>
    rw [hIV] at hok
    cases hok
  | ok w1 =>
    rw [hIV] at hok
    injection hok with h2
    subst h2
    have h1 : TexInv w1 := by
      unfold initVar at hIV
      cases hv : w.vars i with
      | none =>
        simp only [hv] at hIV
        injection hIV with h3
        subst h3
        exact h
      | some v =>
        simp only [hv] at hIV
        by_cases hi : v.initialized = true
        · rw [if_pos hi] at hIV
          cases hIV
        · rw [if_neg hi] at hIV
          injection hIV with h3
          subst h3
          exact TexInv_initUnchecked w i h
    exact TexInv_destroyStep _ i (TexInv_computeStep _ i h1)

/-- Every valid public call preserves the ownership invariant. -/
theorem TexInv_step (w : World) (op : Op) (hval : texValidOp w op = true) :
    TexInv w → TexInv (step w op) := by
  intro h
  cases op with
  | mkExternalTex tw th =>
    refine TexInv_view w _ (fun j => rfl) rfl ?_ rfl h
    show w.texDims.length ≤ (w.texDims ++ [(tw, th)]).length
    simp
  | newVar cfg =>
    cases hmk : mkVar w cfg with
    | error e =>
      show TexInv (match mkVar w cfg with | .ok w1 => w1 | .error _ => w)
      rw [hmk]
      exact h
    | ok w2 =>
      show TexInv (match mkVar w cfg with | .ok w1 => w1 | .error _ => w)
      rw [hmk]
      exact TexInv_mkVar w cfg w2 hmk hval h
  | fill i len =>
    cases hmk : fillTexture w i len with
    | error e =>
      show TexInv (match fillTexture w i len with | .ok w1 => w1 | .error _ => w)
      rw [hmk]
      exact h
    | ok w2 =>
      show TexInv (match fillTexture w i len with | .ok w1 => w1 | .error _ => w)
      rw [hmk]
      exact TexInv_fillTexture w i len w2 hmk h
  | fillFrom i src =>
    cases hmk : fillTextureFrom w i src with
    | error e =>
      show TexInv (match fillTextureFrom w i src with | .ok w1 => w1 | .error _ => w)
      rw [hmk]
      exact h
    | ok w2 =>
      show TexInv (match fillTextureFrom w i src with | .ok w1 => w1 | .error _ => w)
      rw [hmk]
      exact TexInv_fillTextureFrom w i src w2 hmk h
  | setInitialTex i t =>
    cases hmk : setInitialTexture w i t with
    | error e =>
      show TexInv (match setInitialTexture w i t with | .ok w1 => w1 | .error _ => w)
      rw [hmk]
      exact h
    | ok w2 =>
      show TexInv (match setInitialTexture w i t with | .ok w1 => w1 | .error _ => w)
      rw [hmk]
      obtain ⟨ht, hf, hguard, hall⟩ := extTexOk_facts w i t hval h.1
      exact TexInv_setInitialTexture_facts w i t w2 hmk ht hf hguard hall h
  | setDeps i ds => exact TexInv_setDependencies w i ds h
  | setUni i k v => exact TexInv_setUniform w i k v h
  | initOp i =>
    cases hmk : initVar w i with
    | error e =>
      show TexInv (match initVar w i with | .ok w1 => w1 | .error _ => w)
      rw [hmk]
      exact h
    | ok w2 =>
      show TexInv (match initVar w i with | .ok w1 => w1 | .error _ => w)
      rw [hmk]
      have h1 : TexInv w2 := by
        unfold initVar at hmk
        cases hv : w.vars i with
        | none =>
          simp only [hv] at hmk
          injection hmk with h3
          subst h3
          exact h
        | some v =>
          simp only [hv] at hmk
          by_cases hi : v.initialized = true
          · rw [if_pos hi] at hmk
            cases hmk
          · rw [if_neg hi] at hmk
            injection hmk with h3
            subst h3
            exact TexInv_initUnchecked w i h
      exact h1
  | computeOp i => exact TexInv_computeStep w i h
  | computeOnceOp i =>
    cases hmk : computeOnceStep w i with
    | error e =>
      show TexInv (match computeOnceStep w i with | .ok w1 => w1 | .error _ => w)
      rw [hmk]
      exact h
    | ok w2 =>
      show TexInv (match computeOnceStep w i with | .ok w1 => w1 | .error _ => w)
      rw [hmk]
      exact TexInv_computeOnce w i w2 hmk h
  | computeChainOp i =>
    exact chainF_preserve TexInv (fun w1 k hk => TexInv_computeStep w1 k hk)
      (w.varsCount + 1) w i [] h
  | destroyOp i => exact TexInv_destroyStep w i h

/-- The empty world satisfies the ownership invariant. -/
theorem TexInv_empty : TexInv emptyWorld := by
  refine ⟨fun k _ => rfl, ?_, ?_⟩
  · intro i v hv
    cases hv
  · intro t hprot
    obtain ⟨i, v, hv, -, -⟩ := hprot
    cases hv

/-- The ownership invariant holds after any valid session. -/
theorem TexInv_run :
    ∀ (ops : List Op) (w : World), TexInv w → validSession w ops = true →
      TexInv (ops.foldl step w) := by
  intro ops
  induction ops with
  | nil => exact fun w h _ => h
  | cons op rest ih =>
    intro w h hval
    unfold validSession at hval
    simp only [Bool.and_eq_true] at hval
    exact ih (step w op) (TexInv_step w op hval.1 h) hval.2

/-- **C9 (counterexample).** Variable `a` is supplied texture 0 via
`setInitialTexture` (visible mid-session: external flag set, ping = 0),
yet the session ends with texture 0 physically freed: the first `init()`
(no self-dependency) aliases the pong slot to the adopted texture; after a
dependent-blocked `destroy()`, re-adopting texture 1 leaves texture 0
stranded in the pong slot; re-initialization with a self-dependency makes
the variable ping-pong again, and the cascaded release triggered by
destroying the last dependent frees the alternate buffer — texture 0 —
because the external-skip guard only compares against the *current* ping
texture. -/
theorem external_texture_freed_counterexample :
    (∃ v, w9mid.vars 0 = some v ∧ v.externalPingTexture = true ∧
      v.ping = some 0) ∧
    w9c.freed = [0] ∧ 0 ∈ w9c.freed := by
  have hfr : w9c.freed = [0] := rfl
  refine ⟨⟨_, rfl, rfl, rfl⟩, hfr, ?_⟩
  rw [hfr]
  exact List.mem_singleton.mpr rfl

/-- **C9 (amended).** In any session in which every adopted initial
texture is a real, live, externally owned texture — it exists, is not
freed, is not an internal buffer of some variable, and does not overwrite
the ping of a variable that still holds a different leftover pong buffer —
every texture currently installed as an external ping is never freed:
ownership remains with the caller. -/
theorem external_texture_never_freed (ops : List Op)
    (hvalid : validSession emptyWorld ops = true) :
    ∀ i v t, (runOps ops).vars i = some v → v.externalPingTexture = true →
      v.ping = some t → t ∉ (runOps ops).freed := by
  intro i v t hv he hp
  have h := TexInv_run ops emptyWorld TexInv_empty hvalid
  exact (h.2.2 t ⟨i, v, hv, he, hp⟩).1

theorem external_texture_never_freed_witness :
    0 ∉ (runOps ops9w).freed ∧ (runOps ops9w).freed = [1] := by
  have h := external_texture_never_freed ops9w rfl 0 _ 0 rfl rfl rfl
  exact ⟨h, rfl⟩

/-! ## C8 — fail-fast seeding errors -/

/-- **C8.** Calling `fillTexture`, `fillTextureFrom` or `setInitialTexture`
after `init()` throws a synchronous error whose message contains the
variable's name; `fillTexture` additionally throws when the buffer length
differs from `width*height*4`, and `setInitialTexture` when the supplied
texture's dimensions differ from the variable's declared shape. -/
theorem seeding_error_spec (w : World) (i : Nat) (v : VarState)
    (hv : w.vars i = some v) :
    (v.initialized = true →
      (∀ len, ∃ msg, fillTexture w i len = .error msg ∧ msgContains msg v.name) ∧
      (∀ src, ∃ msg, fillTextureFrom w i src = .error msg ∧ msgContains msg v.name) ∧
      (∀ t, ∃ msg, setInitialTexture w i t = .error msg ∧ msgContains msg v.name)) ∧
    (∀ len, len ≠ v.width * v.height * 4 →
      ∃ msg, fillTexture w i len = .error msg ∧ msgContains msg v.name) ∧
    (∀ t, (w.texDims.getD t (0, 0)).1 ≠ v.width ∨ (w.texDims.getD t (0, 0)).2 ≠ v.height →
      ∃ msg, setInitialTexture w i t = .error msg ∧ msgContains msg v.name) := by
  refine ⟨fun hinit => ⟨fun len => ?_, fun src => ?_, fun t => ?_⟩, fun len hlen => ?_,
    fun t hdim => ?_⟩
  · by_cases hlen : len = v.width * v.height * 4
    · refine ⟨errFillAfterInit v.name, ?_, varErr_contains _ _⟩
      simp [fillTexture, hv, hlen, hinit]
    · refine ⟨errFillLen v.name len (v.width * v.height * 4), ?_, varErr_contains _ _⟩
      simp [fillTexture, hv, hlen]
  · refine ⟨errFillAfterInit v.name, ?_, varErr_contains _ _⟩
    simp [fillTextureFrom, hv, hinit]
  · refine ⟨errSetInitAfterInit v.name, ?_, varErr_contains _ _⟩
    simp [setInitialTexture, hv, hinit]
  · refine ⟨errFillLen v.name len (v.width * v.height * 4), ?_, varErr_contains _ _⟩
    simp [fillTexture, hv, hlen]
  · by_cases hinit : v.initialized = true
    · refine ⟨errSetInitAfterInit v.name, ?_, varErr_contains _ _⟩
      simp [setInitialTexture, hv, hinit]
    · have hinit2 : v.initialized = false := by simpa using hinit
      refine ⟨errSetInitDims v.name (w.texDims.getD t (0, 0)).1 (w.texDims.getD t (0, 0)).2
        v.width v.height, ?_, varErr_contains _ _⟩
      simp only [setInitialTexture, hv, hinit2, Bool.false_eq_true, if_false]
      rw [if_pos hdim]

theorem seeding_error_witness :
    (∃ msg, fillTexture w8 0 4 = .error msg ∧ msgContains msg "x") ∧
    (∃ msg, fillTextureFrom w8 0 0 = .error msg ∧ msgContains msg "x") ∧
    (∃ msg, setInitialTexture w8 0 0 = .error msg ∧ msgContains msg "x") ∧
    (∃ msg, fillTexture w8 0 5 = .error msg ∧ msgContains msg "x") ∧
    (∃ msg, setInitialTexture w8 0 7 = .error msg ∧ msgContains msg "x") := by
  have hv : w8.vars 0 = some v8 := by rfl
  have h := seeding_error_spec w8 0 v8 hv
  exact ⟨(h.1 rfl).1 4, (h.1 rfl).2.1 0, (h.1 rfl).2.2 0,
    h.2.1 5 (by decide), h.2.2 7 (Or.inl (by decide))⟩

/-! ## C10 — the destroyed state is not terminal -/

/-- **C10.** `destroy()` resets the initialized flag to false and clears the
dependency list, so a subsequent `compute()` does not raise the
already-initialized error: it silently re-runs `init()` (recompiling the
shader with an empty dependency list, hence without ping-pong need) and
performs exactly one render pass. -/
theorem destroy_then_compute (w : World) (i : Nat) (v : VarState)
    (hv : w.vars i = some v) (hnd : v.destroyed = false) :
    ∃ v1, (destroyStep w i).vars i = some v1 ∧
      v1.initialized = false ∧ v1.dependencies = [] ∧ v1.destroyed = true ∧
      (∃ w', initVar (destroyStep w i) i = .ok w') ∧
      (∃ v2 t, (computeStep (destroyStep w i) i).vars i = some v2 ∧
        v2.initialized = true ∧ v2.initCount = v1.initCount + 1 ∧
        v2.needsPingPong = false ∧
        (computeStep (destroyStep w i) i).passLog =
          (destroyStep w i).passLog ++ [PassEv.mk i t false v1.uniforms]) := by
  obtain ⟨v1, hv1, hini, hdeps, hdest, _⟩ := destroyStep_resets w i v hv hnd
  refine ⟨v1, hv1, hini, hdeps, hdest, ?_, ?_⟩
  · exact ⟨initUnchecked (destroyStep w i) i, by simp [initVar, hv1, hini]⟩
  · obtain ⟨p, q, m1, m2, _, _, _, _, _⟩ := computeStep_uninit (destroyStep w i) i v1 hv1 hini
    refine ⟨_, if v1.currentIndex = 0 then q else p, m1, rfl, rfl, ?_, m2⟩
    simp [hdeps]

theorem destroy_then_compute_witness :
    ∃ v1, (destroyStep w10 0).vars 0 = some v1 ∧
      v1.initialized = false ∧ v1.dependencies = [] ∧ v1.destroyed = true ∧
      (∃ w', initVar (destroyStep w10 0) 0 = .ok w') ∧
      (∃ v2 t, (computeStep (destroyStep w10 0) 0).vars 0 = some v2 ∧
        v2.initialized = true ∧ v2.initCount = v1.initCount + 1 ∧
        v2.needsPingPong = false ∧
        (computeStep (destroyStep w10 0) 0).passLog =
          (destroyStep w10 0).passLog ++ [PassEv.mk 0 t false v1.uniforms]) := by
  have hv : w10.vars 0 = some
      { name := "r", width := 1, height := 1, uniforms := [], samplers := [],
        ping := some 0, pong := some 1, currentIndex := 1, dependencies := [0],
        dependents := [0], initialized := true, destroyed := false,
        texturesDestroyed := false, needsPingPong := true,
        externalPingTexture := false, initCount := 1 } := by rfl
  exact destroy_then_compute w10 0 _ hv rfl

theorem eatLit_sound (lit : List Char) :
    ∀ s r, eatLit lit s = some r → s = lit ++ r := by
  induction lit with
  | nil =>
    intro s r h
    simp only [eatLit, Option.some.injEq] at h
    simp [h]
  | cons c cs ih =>
    intro s r h
    cases s with
    | nil => simp [eatLit] at h
    | cons d ds =>
      simp only [eatLit] at h
      by_cases hcd : c = d
      · rw [if_pos hcd] at h
        have hds := ih ds r h
        subst hcd
        simp [hds]
      · rw [if_neg hcd] at h
        cases h

theorem splitVersion_sound (s pre post : List Char)
    (h : splitVersion s = some (pre, post)) : s = pre ++ post := by
  rw [splitVersion] at h
  cases heat : eatLit ("#version".toList) (s.dropWhile isSpaceChar) with
  | none => simp only [heat] at h; exact Option.noConfusion h
  | some after =>
    simp only [heat] at h
    cases hdw : after.dropWhile (fun c => !(c = '\n')) with
    | nil => simp only [hdw] at h; exact Option.noConfusion h
    | cons c t2 =>
      simp only [hdw] at h
      by_cases hc : c = '\n'
      · rw [if_pos hc] at h
        subst hc
        simp only [Option.some.injEq, Prod.mk.injEq] at h
        obtain ⟨hpre, hpost⟩ := h
        have hs1 : s.takeWhile isSpaceChar ++ s.dropWhile isSpaceChar = s :=
          List.takeWhile_append_dropWhile _ _
        have hs2 : after.takeWhile (fun c => !(c = '\n')) ++
            after.dropWhile (fun c => !(c = '\n')) = after :=
          List.takeWhile_append_dropWhile _ _
        rw [hdw] at hs2
        have hdrop : s.dropWhile isSpaceChar = "#version".toList ++ after :=
          eatLit_sound _ _ _ heat
        rw [← hpre, ← hpost]
        have key : (s.takeWhile isSpaceChar ++
            ("#version".toList ++
              (after.takeWhile (fun c => !(c = '\n')) ++ ['\n']))) ++ t2 = s := by
          calc (s.takeWhile isSpaceChar ++
              ("#version".toList ++
                (after.takeWhile (fun c => !(c = '\n')) ++ ['\n']))) ++ t2
              = s.takeWhile isSpaceChar ++
                ("#version".toList ++
                  (after.takeWhile (fun c => !(c = '\n')) ++ ('\n' :: t2))) := by
                simp [List.append_assoc]
            _ = s.takeWhile isSpaceChar ++ ("#version".toList ++ after) := by
                rw [hs2]
            _ = s.takeWhile isSpaceChar ++ s.dropWhile isSpaceChar := by
                rw [← hdrop]
            _ = s := hs1
        exact key.symm
      · rw [if_neg hc] at h
        cases h

theorem samplerDecls_eq (body : String) (names : List String) :
    samplerDecls body names =
      (names.filter (fun n => !(isUniformDeclared body n))).foldr
        (fun n acc => samplerDecl n ++ acc) "" := by
  induction names with
  | nil => rfl
  | cons n rest ih =>
    cases hd : isUniformDeclared body n
    · simp [samplerDecls, hd, ih]
    · simp [samplerDecls, hd, ih]

theorem uniformDecls_ok (vname body : String) :
    ∀ (us : List (String × String)) (uds : String),
      uniformDecls vname body us = Except.ok uds →
        uds = (us.filter (fun kt => !(isUniformDeclared body kt.1))).foldr
          (fun kt acc => uniformDecl ((pixiToGlsl kt.2).getD "") kt.1 ++ acc) "" := by
  intro us
  induction us with
  | nil =>
    intro uds h
    simp only [uniformDecls, Except.ok.injEq] at h
    simp [← h]
  | cons kt rest ih =>
    intro uds h
    obtain ⟨k, t⟩ := kt
    simp only [uniformDecls] at h
    cases hd : isUniformDeclared body k
    · rw [hd] at h
      simp only [Bool.false_eq_true, if_false] at h
      cases hg : pixiToGlsl t with
      | none => rw [hg] at h; cases h
      | some g =>
        rw [hg] at h
        cases hr : uniformDecls vname body rest with
        | error e => rw [hr] at h; cases h
        | ok s =>
          rw [hr] at h
          simp only [Except.ok.injEq] at h
          have hs := ih s hr
          subst h
          simp [List.filter_cons, hd, hg, ← hs]
    · rw [hd] at h
      simp only [if_true] at h
      have hs := ih uds h
      simp [List.filter_cons, hd, hs]

/-- C7 (counterexample). The skip check of `createShader` consults only the
original shader body, never the declarations already generated, so a name that
occurs twice in the dependency list receives two identical sampler
declarations — "at most once per uniform/sampler name" fails. -/
theorem shader_assembly_counterexample :
    createShaderCode "v" 1 1 "void main();" ["uTex", "uTex"] [] [] =
      Except.ok ("#define resolution vec2(1.0, 1.0)\nuniform sampler2D uTex;\nuniform sampler2D uTex;\nvoid main();") ∧
    countSub ("uniform sampler2D uTex;\n").toList
      ("#define resolution vec2(1.0, 1.0)\nuniform sampler2D uTex;\nuniform sampler2D uTex;\nvoid main();").toList = 2 ∧
    isUniformDeclared "void main();" "uTex" = false :=
  ⟨rfl, rfl, rfl⟩

/-- C7 (amended). Within one `createShader` call, a name already declared by
the pass body receives no injected declaration: the generated sampler
declarations are exactly those for the dependency and static-sampler names not
declared in the body, in input order, and the generated uniform declarations
are exactly those for the uniform keys not declared in the body, with their
PIXI types mapped through `PIXI_TO_GLSL_TYPE`. Provided the dependency names,
static sampler names and uniform keys are pairwise distinct, the names that
receive a declaration are pairwise distinct, so each name is declared at most
once. The resolution define followed by the generated declarations is placed
immediately after the leading `#version` line when one is present (the body
splits as that preserved preamble plus the remainder), otherwise the whole
block precedes the original body. -/
theorem shader_assembly_amended (vname : String) (wd ht : Nat) (body : String)
    (depNames samplerNames : List String) (us : List (String × String))
    (hnd : (depNames ++ (samplerNames ++ us.map Prod.fst)).Nodup) :
    samplerDecls body depNames =
      (depNames.filter (fun n => !(isUniformDeclared body n))).foldr
        (fun n acc => samplerDecl n ++ acc) "" ∧
    samplerDecls body samplerNames =
      (samplerNames.filter (fun n => !(isUniformDeclared body n))).foldr
        (fun n acc => samplerDecl n ++ acc) "" ∧
    (∀ uds, uniformDecls vname body us = Except.ok uds →
      uds = (us.filter (fun kt => !(isUniformDeclared body kt.1))).foldr
        (fun kt acc => uniformDecl ((pixiToGlsl kt.2).getD "") kt.1 ++ acc) "") ∧
    (depNames.filter (fun n => !(isUniformDeclared body n)) ++
      (samplerNames.filter (fun n => !(isUniformDeclared body n)) ++
        (us.filter (fun kt => !(isUniformDeclared body kt.1))).map Prod.fst)).Nodup ∧
    (∀ out, createShaderCode vname wd ht body depNames samplerNames us =
        Except.ok out →
      ∃ uds, uniformDecls vname body us = Except.ok uds ∧
        (∀ pre post, splitVersion body.toList = some (pre, post) →
          body.toList = pre ++ post ∧
          out.toList = pre ++
            ((resolutionDefine wd ht ++
              (samplerDecls body depNames ++
                (samplerDecls body samplerNames ++ uds))).toList ++ post)) ∧
        (splitVersion body.toList = none →
          out = (resolutionDefine wd ht ++
            (samplerDecls body depNames ++
              (samplerDecls body samplerNames ++ uds))) ++ body)) := by
  refine ⟨samplerDecls_eq body depNames, samplerDecls_eq body samplerNames,
    fun uds h => uniformDecls_ok vname body us uds h, ?_, ?_⟩
  · have hsub : (depNames.filter (fun n => !(isUniformDeclared body n)) ++
        (samplerNames.filter (fun n => !(isUniformDeclared body n)) ++
          (us.filter (fun kt => !(isUniformDeclared body kt.1))).map
            Prod.fst)).Sublist
        (depNames ++ (samplerNames ++ us.map Prod.fst)) :=
      List.Sublist.append (List.filter_sublist _)
        (List.Sublist.append (List.filter_sublist _)
          (List.Sublist.map Prod.fst (List.filter_sublist _)))
    exact List.Nodup.sublist hsub hnd
  · intro out hout
    cases huni : uniformDecls vname body us with
    | error e => rw [createShaderCode, huni] at hout; cases hout
    | ok uds =>
      rw [createShaderCode, huni] at hout
      simp only [Except.ok.injEq] at hout
      subst hout
      refine ⟨uds, rfl, ?_, ?_⟩
      · intro pre post hsp
        refine ⟨splitVersion_sound _ _ _ hsp, ?_⟩
        simp only [injectShaderCode, hsp]
        rfl
      · intro hsp
        simp only [injectShaderCode, hsp]

/-- C7 witness: the amended theorem at a concrete shader whose body already
declares `uA` and has a `#version` line, with a fresh dependency `uB`, a
static sampler `uC` and an `f32` uniform `uD`. -/
theorem shader_assembly_amended_witness :
    ((["uA", "uB"] ++ (["uC"] ++
      ([("uD", "f32")] : List (String × String)).map Prod.fst)).Nodup) ∧
    samplerDecls body7w ["uA", "uB"] =
      ((["uA", "uB"].filter (fun n => !(isUniformDeclared body7w n))).foldr
        (fun n acc => samplerDecl n ++ acc) "") :=
  ⟨by decide,
    (shader_assembly_amended "w" 2 3 body7w ["uA", "uB"] ["uC"] [("uD", "f32")]
      (by decide)).1⟩

/-- C5. A particle whose initialization window has not yet elapsed
(`initEnd > uPhase`) receives zero total force, and if its stored velocity is
zero, one application of the simulation pass leaves its position and velocity
unchanged: the integration is a fixed point under zero force and zero
velocity. -/
theorem inert_particle (env : SimEnv) (vUV : ℚ × ℚ)
    (hphase : env.uPhase < (env.attrSample vUV).2.1) :
    simForce env vUV = (0, 0) ∧
    ((env.stateSample vUV).2 = (0, 0) →
      simMain env vUV = ((env.stateSample vUV).1, (0, 0))) := by
  have hF : simForce env vUV = (0, 0) := by
    simp only [simForce]
    rw [if_neg (not_le.mpr hphase)]
  refine ⟨hF, ?_⟩
  intro hv
  simp [simMain, hF, hv]

/-- C5 witness: a concrete particle with `initEnd = 1 > uPhase = 0`, stored
position `(3, 7)` and zero stored velocity is a fixed point of the pass. -/
theorem inert_particle_witness :
    env5.uPhase < (env5.attrSample (0, 0)).2.1 ∧
    simForce env5 (0, 0) = (0, 0) ∧
    simMain env5 (0, 0) = ((env5.stateSample (0, 0)).1, (0, 0)) := by
  have h := inert_particle env5 (0, 0) (by decide)
  exact ⟨by decide, h.1, h.2 rfl⟩

end PixiSDF
